import Mathlib

/-!
The benchmark harness of wargame-go (`benchmark.go`)

A shallow embedding of `src/benchmark.go` and the properties of its monitoring loop,
progress collector, statistics and scoring.

Numbers:

* Go `int` / `int64` values (thread counts, tokens, game totals, nanosecond timestamps) are
  `Int`. The quantities of this program stay far below `2^63`, so wrap-around is not modelled.
* Go `float64` values are `F64 K`: NaN, the two infinities, or a finite element of an ordered
  field `K`. A zero has no sign (a zero divisor is taken as `+0`, which is what a length or an
  exact cancellation gives). The arithmetic comes at two levels.
  - `F64.add`, `F64.sub`, `F64.mul`, `F64.div`, `F64.sqrt`, `F64.pow` are exact on finite
    values and keep of IEEE-754 the division by zero, the propagation of NaN and of the
    infinities, and the comparisons with NaN being false. `get_mean`,
    `get_standard_deviation`, `measure_speed`, `monitor_loop`, `final_statistics` and
    `Benchmark` are written with them; they serve the properties that rest on comparisons, on
    the phases, on NaN and on exactly representable values, which rounding does not touch.
  - `F64.add64`, `F64.sub64`, `F64.mul64`, `F64.div64`, `F64.sqrt64`, `F64.square64` and
    `F64.ofInt64` round the exact result to binary64 (`F64.round64`: round to nearest, ties to
    even, gradual underflow, overflow to an infinity), one rounding per operation as the
    compiler for amd64 emits them (no fused multiply-add). `get_mean64`,
    `get_standard_deviation64`, `measure_speed64`, `monitor_loop64` and `ci_delta64` are the
    same source lines written with them; they serve the properties that rounding decides.
* `math.Sqrt` is a parameter `sqrt : K → K` of the functions that call it. The theorems about
  square roots take `K = ℝ` and `sqrt = Real.sqrt`; the others hold for every `K`, and concrete
  runs of the loop are evaluated over `ℚ` or `ℝ`.

Outside world:

The loop reads the clock and the channels that the workers fill concurrently. An iteration is
given what it reads as a `Tick` (the value of `collect_progress` and the clock reading); a call
of `Benchmark` is given a `Poll` per iteration (the tokens sent since the previous pass and the
clock reading). The capacity `threads * 1024` of a channel only enters the test that `make`
does: a worker that finds its channel full waits, so the tokens of a `Poll` are those that
were actually sent. The limits of `make` are those of the Go run time on 64-bit Linux.
-/

namespace Wargame

/-! ## float64 values -/

/-- A float64 value: NaN, minus infinity, plus infinity or a finite number, taken in `K`. -/
inductive F64 (K : Type) where
  | nan : F64 K
  | ninf : F64 K
  | pinf : F64 K
  | fin (x : K) : F64 K
deriving DecidableEq, Repr

namespace F64

variable {K : Type} [LinearOrderedField K]

/-- Conversion `float64(n)` of an integer. -/
def ofInt (n : Int) : F64 K := fin (n : K)

/-- Unary minus. -/
def neg : F64 K → F64 K
  | nan => nan
  | ninf => pinf
  | pinf => ninf
  | fin a => fin (-a)

/-- Addition `x + y`. -/
def add : F64 K → F64 K → F64 K
  | fin a, fin b => fin (a + b)
  | fin _, pinf => pinf
  | fin _, ninf => ninf
  | fin _, nan => nan
  | pinf, fin _ => pinf
  | pinf, pinf => pinf
  | pinf, ninf => nan
  | pinf, nan => nan
  | ninf, fin _ => ninf
  | ninf, pinf => nan
  | ninf, ninf => ninf
  | ninf, nan => nan
  | nan, _ => nan

/-- Subtraction `x - y`. -/
def sub (x y : F64 K) : F64 K := add x (neg y)

/-- The infinity with the sign of `a`, NaN when `a = 0` (the value of `a * Inf`). -/
def signedInf (a : K) : F64 K :=
  if 0 < a then pinf else if a < 0 then ninf else nan

/-- Multiplication `x * y`. -/
def mul : F64 K → F64 K → F64 K
  | fin a, fin b => fin (a * b)
  | fin a, pinf => signedInf a
  | fin a, ninf => signedInf (-a)
  | fin _, nan => nan
  | pinf, fin b => signedInf b
  | pinf, pinf => pinf
  | pinf, ninf => ninf
  | pinf, nan => nan
  | ninf, fin b => signedInf (-b)
  | ninf, pinf => ninf
  | ninf, ninf => pinf
  | ninf, nan => nan
  | nan, _ => nan

/-- Division `x / y`. A finite nonzero number over zero is an infinity, zero over zero and
infinity over infinity are NaN, a finite number over an infinity is zero. -/
def div : F64 K → F64 K → F64 K
  | fin a, fin b => if b = 0 then signedInf a else fin (a / b)
  | fin _, pinf => fin 0
  | fin _, ninf => fin 0
  | fin _, nan => nan
  | pinf, fin b => if b < 0 then ninf else pinf
  | pinf, pinf => nan
  | pinf, ninf => nan
  | pinf, nan => nan
  | ninf, fin b => if b < 0 then pinf else ninf
  | ninf, pinf => nan
  | ninf, ninf => nan
  | ninf, nan => nan
  | nan, _ => nan

/-- The call `math.Sqrt(x)`: NaN for NaN, for minus infinity and for a negative number. -/
def sqrt (sq : K → K) : F64 K → F64 K
  | nan => nan
  | ninf => nan
  | pinf => pinf
  | fin a => if a < 0 then nan else fin (sq a)

/-- The call `math.Pow(x, n)` for a natural exponent `n`. -/
def pow : F64 K → Nat → F64 K
  | fin a, n => fin (a ^ n)
  | pinf, n => if n = 0 then fin 1 else pinf
  | ninf, n => if n = 0 then fin 1 else if n % 2 = 1 then ninf else pinf
  | nan, n => if n = 0 then fin 1 else nan

/-- The comparison `x < y`; false as soon as one side is NaN. -/
def lt : F64 K → F64 K → Bool
  | fin a, fin b => decide (a < b)
  | fin _, pinf => true
  | ninf, fin _ => true
  | ninf, pinf => true
  | _, _ => false

/-- The comparison `x <= y`; false as soon as one side is NaN. -/
def le : F64 K → F64 K → Bool
  | fin a, fin b => decide (a ≤ b)
  | fin _, pinf => true
  | ninf, fin _ => true
  | ninf, pinf => true
  | ninf, ninf => true
  | pinf, pinf => true
  | _, _ => false

end F64

/-! ## Rank and statistics helpers -/

/-- Source `rank_letter`: the letter for the number of passed tests. -/
def rank_letter (passes : List String) : String :=
  let v := passes.length
  match v with
  | 3 => "A"
  | 2 => "B"
  | 1 => "C"
  | 0 => "D"
  | _ => "X"

/-- Source `rank_reason`: the passes joined by a comma, or `none`. -/
def rank_reason (passes : List String) : String :=
  if passes.length = 0 then "none" else ", ".intercalate passes

/-- Source `get_mean`: the running total of the samples over their number. -/
def get_mean {K : Type} [LinearOrderedField K] (samples : List (F64 K)) : F64 K :=
  let total := samples.foldl (fun total v => F64.add total v) (F64.fin 0)
  F64.div total (F64.ofInt samples.length)

/-- Source `get_standard_deviation`: the square root of the mean squared distance to `mean`. -/
def get_standard_deviation {K : Type} [LinearOrderedField K] (sqrt : K → K)
    (samples : List (F64 K)) (mean : F64 K) : F64 K :=
  let total := samples.foldl (fun total v => F64.add total (F64.pow (F64.sub v mean) 2))
    (F64.fin 0)
  F64.sqrt sqrt (F64.div total (F64.ofInt samples.length))

/-- Source `get_coefficient_of_variation`: the standard deviation over the mean. -/
def get_coefficient_of_variation {K : Type} [LinearOrderedField K] (mean stdev : F64 K) :
    F64 K :=
  F64.div stdev mean

/-! ## The progress collector -/

/-- Source `collect_progress`: one pass over the channels, each a FIFO list of tokens with its
front first. A channel with a token ready gives up that token, which is added to `r`; an empty
channel takes the `default` arm. Returns `r` and the channels as the pass leaves them. -/
def collect_progress (channels : List (List Int)) : Int × List (List Int) :=
  channels.foldl
    (fun (acc : Int × List (List Int)) (v : List Int) =>
      match v with
      | p :: rest => (acc.1 + p, acc.2 ++ [rest])
      | [] => (acc.1, acc.2 ++ [v]))
    (0, [])

/-! ## Constants of `Benchmark` -/

/-- Source constant `ms`. -/
def ms : Int := 1000000

/-- Source constant `ns`. -/
def ns : Int := 1000000000

/-- Source constant `prime_time`: 10 seconds. -/
def prime_time : Int := 10000000000

/-- Source constant `sample_time`: 60 seconds. -/
def sample_time : Int := 60000000000

/-- Source constant `display_frequency`: 1/15 of a second. -/
def display_frequency : Int := Int.tdiv ns 15

/-- Source constant `sample_frequency`: 1/200 of a second. -/
def sample_frequency : Int := Int.tdiv ns 200

/-- Source constant `end_time`. -/
def end_time : Int := prime_time + sample_time

/-- Source constant `sample_size`. -/
def sample_size : Int := Int.tdiv sample_time sample_frequency

/-- Source constant `t_score`: the 99.9% t-score. -/
def t_score {K : Type} [LinearOrderedField K] : K := 3.291

/-- Source constant `one_percent`. -/
def one_percent {K : Type} [LinearOrderedField K] : K := 0.01

/-! ## The monitoring loop of `Benchmark` -/

/-- The local variables of `Benchmark` that the monitoring loop reads and writes. -/
structure MonitorState (K : Type) where
  samples : List (F64 K)
  start_time : Int
  current_time : Int
  last_display_time : Int
  last_sample_time : Int
  elapsed_time : Int
  phase : Int
  total_games : Int
  speed : F64 K
  speed_v : F64 K
  rate : F64 K
  maximum_speed : F64 K
  minimum_speed : F64 K

/-- What one iteration of the loop reads from outside: the value `collect_progress` returned and
the clock reading `time.Now().UnixNano()`. -/
structure Tick where
  collected : Int
  now : Int
deriving DecidableEq, Repr

section Loop

variable {K : Type} [LinearOrderedField K]

/-- The variables as `Benchmark` declares them before the loop (lines 37-55), given the two
clock readings taken for `start_time` and `current_time`. -/
def initial_state (start_time current_time : Int) : MonitorState K :=
  { samples := []
    start_time := start_time
    current_time := current_time
    last_display_time := current_time
    last_sample_time := current_time
    elapsed_time := 0
    phase := 1
    total_games := 1
    speed := F64.fin 0
    speed_v := F64.fin 0
    rate := F64.fin 0
    maximum_speed := F64.fin 0
    minimum_speed := F64.fin 0 }

/-- Lines 58-66 of the loop body: the running total, the clock, the rate and the speed. -/
def measure_speed (s : MonitorState K) (collected now : Int) : MonitorState K :=
  let total_games := s.total_games + collected
  let current_time := now
  let elapsed_time := current_time - s.start_time
  let rate : F64 K := F64.div (F64.ofInt elapsed_time) (F64.ofInt total_games)
  let speed : F64 K := F64.div (F64.fin 1) rate
  let speed_v : F64 K := F64.mul speed (F64.ofInt ms)
  { s with
    total_games := total_games
    current_time := current_time
    elapsed_time := elapsed_time
    rate := rate
    speed := speed
    speed_v := speed_v }

/-- Lines 68-90 of the loop body: the phase transitions and the running bounds. The flag is
true when the iteration takes `break monitor`. -/
def advance_phase (s : MonitorState K) : Bool × MonitorState K :=
  if s.phase = 1 ∧ s.elapsed_time ≥ prime_time then
    (false, { s with phase := 2, maximum_speed := s.speed, minimum_speed := s.speed })
  else if s.phase = 2 then
    let s := if F64.lt s.maximum_speed s.speed then { s with maximum_speed := s.speed } else s
    let s := if F64.lt s.speed s.minimum_speed then { s with minimum_speed := s.speed } else s
    let s := if s.elapsed_time ≥ end_time then { s with phase := 3 } else s
    (false, s)
  else if s.phase = 4 then
    (true, s)
  else
    (false, s)

/-- Lines 92-95 of the loop body: a sample is taken. -/
def record_sample (s : MonitorState K) : MonitorState K :=
  if s.phase = 2 ∧ s.current_time - s.last_sample_time > sample_frequency then
    { s with last_sample_time := s.current_time, samples := s.samples ++ [s.speed] }
  else
    s

/-- Lines 97-111 of the loop body: the progress line, whose printing is left out; in phase 3
it moves the phase to 4. -/
def display (s : MonitorState K) : MonitorState K :=
  if s.current_time - s.last_display_time > display_frequency then
    let s := { s with last_display_time := s.current_time }
    if s.phase = 1 then s
    else if s.phase = 2 then s
    else if s.phase = 3 then { s with phase := 4 }
    else s
  else
    s

/-- One iteration of the loop `monitor` (lines 57-112). The flag is true when the iteration
left the loop. -/
def monitor_iteration (s : MonitorState K) (t : Tick) : Bool × MonitorState K :=
  let r := advance_phase (measure_speed s t.collected t.now)
  if r.1 then r else (false, display (record_sample r.2))

/-- The loop `monitor` run on the readings `ticks`: it stops at the first iteration that
breaks, and the flag tells whether one did. -/
def monitor_loop (s : MonitorState K) : List Tick → Bool × MonitorState K
  | [] => (false, s)
  | t :: rest =>
    let r := monitor_iteration s t
    if r.1 then r else monitor_loop r.2 rest

end Loop

/-! ## Final statistics and scoring of `Benchmark` -/

section Scoring

variable {K : Type} [LinearOrderedField K]

/-- Line 123: `one_sigma_lower`. -/
def one_sigma_lower (mean stdev : F64 K) : F64 K :=
  F64.mul (F64.sub mean stdev) (F64.ofInt ms)

/-- Line 124: `one_sigma_upper`. -/
def one_sigma_upper (mean stdev : F64 K) : F64 K :=
  F64.mul (F64.add mean stdev) (F64.ofInt ms)

/-- Line 131: `ci_lower`, for `n = len(samples)`. -/
def ci_lower (sqrt : K → K) (mean stdev : F64 K) (n : Nat) : F64 K :=
  F64.mul
    (F64.sub mean
      (F64.mul (F64.fin t_score) (F64.div stdev (F64.sqrt sqrt (F64.ofInt n)))))
    (F64.ofInt ms)

/-- Line 132: `ci_upper`, for `n = len(samples)`. -/
def ci_upper (sqrt : K → K) (mean stdev : F64 K) (n : Nat) : F64 K :=
  F64.mul
    (F64.add mean
      (F64.mul (F64.fin t_score) (F64.div stdev (F64.sqrt sqrt (F64.ofInt n)))))
    (F64.ofInt ms)

/-- Line 133: `ci_delta`. -/
def ci_delta (sqrt : K → K) (mean stdev : F64 K) (n : Nat) : F64 K :=
  F64.sub (ci_upper sqrt mean stdev n) (ci_lower sqrt mean stdev n)

/-- Lines 137-152: the list `points` of the passed criteria, in the order they are tested. -/
def award_points (cov one_sigma_lower one_sigma_upper ci_lower ci_upper speed_v : F64 K) :
    List String :=
  let points : List String := []
  let points := if F64.lt cov (F64.fin one_percent) then points ++ ["1%cov"] else points
  let points :=
    if F64.lt one_sigma_lower speed_v && F64.lt speed_v one_sigma_upper then
      points ++ ["1σ"]
    else points
  let points :=
    if F64.lt ci_lower speed_v && F64.lt speed_v ci_upper then points ++ ["99.9%CI"]
    else points
  points

/-- The scoring step of `Benchmark` (lines 117-152) as a function of the mean, the standard
deviation, the number of samples and the final displayed speed. -/
def scoring (sqrt : K → K) (mean stdev : F64 K) (n : Nat) (speed_v : F64 K) : List String :=
  award_points (get_coefficient_of_variation mean stdev)
    (one_sigma_lower mean stdev) (one_sigma_upper mean stdev)
    (ci_lower sqrt mean stdev n) (ci_upper sqrt mean stdev n) speed_v

/-- What `Benchmark` prints after the loop (lines 155-177), before formatting. -/
structure Report (K : Type) where
  samples_collected : Nat
  mean : F64 K
  stdev : F64 K
  cov : F64 K
  minimum_speed : F64 K
  maximum_speed : F64 K
  min_max_delta : F64 K
  one_sigma_lower : F64 K
  one_sigma_upper : F64 K
  one_sigma_delta : F64 K
  ci_lower : F64 K
  ci_upper : F64 K
  ci_delta : F64 K
  threads : Int
  speed_v : F64 K
  total_games : Int
  elapsed_seconds : Int
  rank_passes : String
  letter : String

/-- Lines 114-177 of `Benchmark`: the final statistics, the scoring and the report, from the
variables as the loop left them. -/
def final_statistics (sqrt : K → K) (threads : Int) (s : MonitorState K) : Report K :=
  let mean := get_mean s.samples
  let stdev := get_standard_deviation sqrt s.samples mean
  let cov := get_coefficient_of_variation mean stdev
  let points := scoring sqrt mean stdev s.samples.length s.speed_v
  { samples_collected := s.samples.length
    mean := mean
    stdev := stdev
    cov := cov
    minimum_speed := s.minimum_speed
    maximum_speed := s.maximum_speed
    min_max_delta := F64.sub s.maximum_speed s.minimum_speed
    one_sigma_lower := one_sigma_lower mean stdev
    one_sigma_upper := one_sigma_upper mean stdev
    one_sigma_delta := F64.sub (one_sigma_upper mean stdev) (one_sigma_lower mean stdev)
    ci_lower := ci_lower sqrt mean stdev s.samples.length
    ci_upper := ci_upper sqrt mean stdev s.samples.length
    ci_delta := ci_delta sqrt mean stdev s.samples.length
    threads := threads
    speed_v := s.speed_v
    total_games := s.total_games
    elapsed_seconds := Int.tdiv s.elapsed_time ns
    rank_passes := rank_reason points
    letter := rank_letter points }

end Scoring

/-! ## `Benchmark` from its argument -/

/-- The largest allocation that the Go run time accepts on 64-bit Linux (`maxAlloc` of Go 1.11
and later): `2^48` bytes. -/
def max_alloc : Int := 2 ^ 48

/-- The size in bytes of the header of a channel on 64-bit Linux (`hchanSize`). -/
def hchan_size : Int := 96

/-- Line 15: `make([](chan int), threads)`. The run-time function `makeslice` panics when the
length is negative or when the slice, at 8 bytes per entry, would be larger than `max_alloc`;
otherwise the slice has `threads` entries, none of which holds a token. Memory is taken to
suffice for every slice and channel that the run time accepts. -/
def make_channels (threads : Int) : Except String (List (List Int)) :=
  if threads < 0 ∨ 8 * threads > max_alloc then
    .error "panic: runtime error: makeslice: len out of range"
  else .ok (List.replicate threads.toNat [])

/-- Line 221: `make(chan int, size)`. The run-time function `makechan` panics when the
capacity is negative or when the buffer, at 8 bytes per token, would be larger than
`max_alloc - hchan_size`; otherwise the channel holds no token. -/
def make_chan (size : Int) : Except String (List Int) :=
  if size < 0 ∨ 8 * size > max_alloc - hchan_size then
    .error "panic: makechan: size out of range"
  else .ok []

/-- Source `create_threads`: for each `i < threads` a fresh channel of capacity
`threads * 1024` is stored at index `i` and one worker is started. Returns the channels, or
the message of the panic that stopped the loop, and the number of workers started. -/
def create_threads (threads : Int) (channels : List (List Int)) :
    Except String (List (List Int)) × Nat :=
  (List.range threads.toNat).foldl
    (fun (acc : Except String (List (List Int)) × Nat) (i : Nat) =>
      match acc.1 with
      | .error message => (.error message, acc.2)
      | .ok channels =>
        match make_chan (threads * 1024) with
        | .error message => (.error message, acc.2)
        | .ok progress => (.ok (channels.set i progress), acc.2 + 1))
    (.ok channels, 0)

/-- What happens around one iteration of the loop: the tokens each worker sent since the
previous pass of the collector, and the clock reading of the iteration. -/
structure Poll where
  sent : List (List Int)
  now : Int
deriving DecidableEq, Repr

/-- The tokens `sent` are queued at the back of their channels. -/
def deliver : List (List Int) → List (List Int) → List (List Int)
  | [], _ => []
  | q :: qs, [] => q :: qs
  | q :: qs, t :: ts => (q ++ t) :: deliver qs ts

/-- The readings of the loop for a sequence of polls: each iteration calls `collect_progress`
on the channels as the workers left them. -/
def readings (channels : List (List Int)) : List Poll → List Tick
  | [] => []
  | p :: rest =>
    let r := collect_progress (deliver channels p.sent)
    { collected := r.1, now := p.now } :: readings r.2 rest

/-- How a call of `Benchmark` stands after the given polls. -/
inductive Outcome (K : Type) where
  | panicked (workers_started : Nat) (message : String)
  | monitoring (workers_started : Nat) (s : MonitorState K)
  | reported (workers_started : Nat) (r : Report K)

/-- Source `Benchmark`: the channels are made, the workers started, the loop run on the polls
and, once it has left, the report produced. A panic of `make` stops the call. -/
def Benchmark {K : Type} [LinearOrderedField K] (sqrt : K → K) (threads : Int)
    (start_time current_time : Int) (polls : List Poll) : Outcome K :=
  match make_channels threads with
  | .error message => .panicked 0 message
  | .ok progress_channels =>
    match create_threads threads progress_channels with
    | (.error message, started) => .panicked started message
    | (.ok progress_channels, started) =>
      let r := monitor_loop (initial_state start_time current_time)
        (readings progress_channels polls)
      if r.1 then .reported started (final_statistics sqrt threads r.2)
      else .monitoring started r.2

/-! ## Invariant of the monitoring loop -/

/-- The running bounds are finite and every recorded sample is a finite number between them. -/
def SamplesBounded {K : Type} [LinearOrderedField K] (s : MonitorState K) : Prop :=
  ∃ a b : K, s.minimum_speed = F64.fin a ∧ s.maximum_speed = F64.fin b ∧
    ∀ x ∈ s.samples, ∃ r : K, x = F64.fin r ∧ a ≤ r ∧ r ≤ b

/-- What holds between two iterations of the loop: in phase 1 nothing has been recorded; in
phase 2 the priming time has elapsed and the samples are within the bounds; in phases 3 and 4
the samples are within the bounds. -/
def LoopInvariant {K : Type} [LinearOrderedField K] (s : MonitorState K) : Prop :=
  (s.phase = 1 ∧ s.samples = []) ∨
  (s.phase = 2 ∧ prime_time ≤ s.current_time - s.start_time ∧ SamplesBounded s) ∨
  ((s.phase = 3 ∨ s.phase = 4) ∧ SamplesBounded s)

/-! ## Runs of the loop from the start -/

/-- The variables of `Benchmark` after the loop has been given the readings `ticks`, from the
variables as declared with the clock readings `start_time` and `current_time`. Readings that
come after the iteration that breaks are not looked at. -/
def state_after {K : Type} [LinearOrderedField K] (start_time current_time : Int)
    (ticks : List Tick) : MonitorState K :=
  (monitor_loop (initial_state start_time current_time) ticks).2

/-- Follows the spec's words: the instantaneous speeds observed on the ticks from the one that
leaves Priming up to and including the one that closes Sampling, in the order of the ticks.
A tick belongs to them when the loop is in phase 1 and the priming time has elapsed, or when
the loop is in phase 2. -/
def window_speeds {K : Type} [LinearOrderedField K] (s : MonitorState K) :
    List Tick → List (F64 K)
  | [] => []
  | t :: rest =>
    let r := monitor_iteration s t
    let observed : List (F64 K) :=
      if (s.phase = 1 ∧ t.now - s.start_time ≥ prime_time) ∨ s.phase = 2 then
        [(measure_speed s t.collected t.now).speed]
      else []
    if r.1 then observed else observed ++ window_speeds r.2 rest

/-- The larger of a running maximum and a speed, as lines 76-78 choose it. -/
def running_max {K : Type} [LinearOrderedField K] (m v : F64 K) : F64 K :=
  if F64.lt m v then v else m

/-- The smaller of a running minimum and a speed, as lines 80-82 choose it. -/
def running_min {K : Type} [LinearOrderedField K] (m v : F64 K) : F64 K :=
  if F64.lt v m then v else m

/-- What the clock tells about the phase between two iterations, when it never goes back: in
phase 2 the priming time has elapsed, in phases 3 and 4 the sampling time has too. -/
def PhaseClock {K : Type} [LinearOrderedField K] (s : MonitorState K) : Prop :=
  s.phase = 1 ∨
  (s.phase = 2 ∧ prime_time ≤ s.current_time - s.start_time) ∨
  ((s.phase = 3 ∨ s.phase = 4) ∧ end_time ≤ s.current_time - s.start_time)

/-- What the clock tells about the number of samples between two iterations, when it never
goes back: none in phase 1, at most 12000 in all, and in phase 2 the last of `n` samples was
taken no earlier than `prime_time + (n - 1) * 5000001` after the start. -/
def SampleSpacing {K : Type} [LinearOrderedField K] (s : MonitorState K) : Prop :=
  s.samples.length ≤ 12000 ∧
  (s.phase = 1 → s.samples = []) ∧
  (s.phase = 2 → prime_time ≤ s.current_time - s.start_time ∧
    (s.samples = [] ∨
      prime_time + ((s.samples.length : Int) - 1) * 5000001
        ≤ s.last_sample_time - s.start_time))

/-- What relates the running bounds to the speeds `W` observed so far in the window: none in
phase 1; afterwards the first of them is a finite number, `maximum_speed` is the running
maximum and `minimum_speed` the running minimum of them, taken from the first on. -/
def BoundsOfWindow {K : Type} [LinearOrderedField K] (s : MonitorState K) (W : List (F64 K)) :
    Prop :=
  (s.phase = 1 ∧ W = []) ∨
  (s.phase ≠ 1 ∧ ∃ (r : K) (rest : List (F64 K)), W = F64.fin r :: rest ∧
    s.maximum_speed = rest.foldl running_max (F64.fin r) ∧
    s.minimum_speed = rest.foldl running_min (F64.fin r))

/-! ## float64 rounding -/

/-- Rounding to the nearest integer, a tie going to the even neighbour. -/
def roundNE {K : Type} [LinearOrderedField K] [FloorRing K] (y : K) : Int :=
  let f := ⌊y⌋
  if y - f < 1 / 2 then f
  else if 1 / 2 < y - f then f + 1
  else if f % 2 = 0 then f
  else f + 1

namespace F64

variable {K : Type} [LinearOrderedField K] [FloorRing K]

/-- The multiple of `2^(e-52)` nearest to `x`, a tie going to the even multiple: the value a
binary format with 53 significant bits gives to a number of exponent `e`. -/
def nearestAt (e : Int) (x : K) : K :=
  (roundNE (x / (2 : K) ^ (e - 52)) : K) * (2 : K) ^ (e - 52)

/-- The exponent at which float64 rounds `x`: the `e` with `2^e <= |x| < 2^(e+1)`, and `-1022`
for the numbers below `2^-1022`, where the float64 values are evenly spaced by `2^-1074`. -/
def exponent (x : K) : Int := max (Int.log 2 |x|) (-1022)

/-- The float64 value nearest to `x`, a tie going to the value with an even significand, before
the test for overflow. -/
def nearest (x : K) : K := nearestAt (exponent x) x

/-- Rounding of an exact result to float64 (round to nearest, ties to even): a result that
rounds to `2^1024` or beyond is an infinity. -/
def round64 (x : K) : F64 K :=
  let r := nearest x
  if (2 : K) ^ 1024 ≤ r then pinf
  else if r ≤ -(2 : K) ^ 1024 then ninf
  else fin r

/-- Rounding of a number to 53 significant bits whatever its exponent: the product of two
significands in `[1/2, 1)`, before it is scaled. -/
def nearest53 (x : K) : K := nearestAt (Int.log 2 |x|) x

/-- The float64 value of an exact result: a finite one is rounded. -/
def rounded : F64 K → F64 K
  | fin a => round64 a
  | x => x

/-- Conversion `float64(n)` of an integer, rounded. -/
def ofInt64 (n : Int) : F64 K := round64 (n : K)

/-- The float64 sum `x + y`. -/
def add64 (x y : F64 K) : F64 K := rounded (add x y)

/-- The float64 difference `x - y`. -/
def sub64 (x y : F64 K) : F64 K := rounded (sub x y)

/-- The float64 product `x * y`. -/
def mul64 (x y : F64 K) : F64 K := rounded (mul x y)

/-- The float64 quotient `x / y`. -/
def div64 (x y : F64 K) : F64 K := rounded (div x y)

/-- The call `math.Sqrt(x)`, rounded. -/
def sqrt64 (sq : K → K) (x : F64 K) : F64 K := rounded (sqrt sq x)

/-- The call `math.Pow(x, 2)`: the significand of `x` is squared and rounded to 53 bits, and
the result is scaled back, which rounds once more when it falls below `2^-1022`. -/
def square64 : F64 K → F64 K
  | fin a => round64 (nearest53 (a * a))
  | nan => nan
  | _ => pinf

end F64

/-- Source `get_mean` in float64 arithmetic. -/
def get_mean64 {K : Type} [LinearOrderedField K] [FloorRing K] (samples : List (F64 K)) :
    F64 K :=
  let total := samples.foldl (fun total v => F64.add64 total v) (F64.fin 0)
  F64.div64 total (F64.ofInt64 samples.length)

/-- Source `get_standard_deviation` in float64 arithmetic. -/
def get_standard_deviation64 {K : Type} [LinearOrderedField K] [FloorRing K] (sqrt : K → K)
    (samples : List (F64 K)) (mean : F64 K) : F64 K :=
  let total := samples.foldl
    (fun total v => F64.add64 total (F64.square64 (F64.sub64 v mean))) (F64.fin 0)
  F64.sqrt64 sqrt (F64.div64 total (F64.ofInt64 samples.length))

section Loop64

variable {K : Type} [LinearOrderedField K] [FloorRing K]

/-- Lines 58-66 of the loop body in float64 arithmetic: the conversions of the two integers,
the two divisions and the product are each rounded. -/
def measure_speed64 (s : MonitorState K) (collected now : Int) : MonitorState K :=
  let total_games := s.total_games + collected
  let current_time := now
  let elapsed_time := current_time - s.start_time
  let rate : F64 K := F64.div64 (F64.ofInt64 elapsed_time) (F64.ofInt64 total_games)
  let speed : F64 K := F64.div64 (F64.fin 1) rate
  let speed_v : F64 K := F64.mul64 speed (F64.ofInt64 ms)
  { s with
    total_games := total_games
    current_time := current_time
    elapsed_time := elapsed_time
    rate := rate
    speed := speed
    speed_v := speed_v }

/-- One iteration of the loop `monitor` (lines 57-112) in float64 arithmetic. Lines 68-111
compare and copy float64 values and do no arithmetic on them. -/
def monitor_iteration64 (s : MonitorState K) (t : Tick) : Bool × MonitorState K :=
  let r := advance_phase (measure_speed64 s t.collected t.now)
  if r.1 then r else (false, display (record_sample r.2))

/-- The loop `monitor` in float64 arithmetic, run on the readings `ticks`. -/
def monitor_loop64 (s : MonitorState K) : List Tick → Bool × MonitorState K
  | [] => (false, s)
  | t :: rest =>
    let r := monitor_iteration64 s t
    if r.1 then r else monitor_loop64 r.2 rest

/-- Line 131 in float64 arithmetic: `ci_lower`, for `n = len(samples)`. The constant
`t_score` is converted to float64. -/
def ci_lower64 (sqrt : K → K) (mean stdev : F64 K) (n : Nat) : F64 K :=
  F64.mul64
    (F64.sub64 mean
      (F64.mul64 (F64.round64 t_score)
        (F64.div64 stdev (F64.sqrt64 sqrt (F64.ofInt64 n)))))
    (F64.ofInt64 ms)

/-- Line 132 in float64 arithmetic: `ci_upper`, for `n = len(samples)`. -/
def ci_upper64 (sqrt : K → K) (mean stdev : F64 K) (n : Nat) : F64 K :=
  F64.mul64
    (F64.add64 mean
      (F64.mul64 (F64.round64 t_score)
        (F64.div64 stdev (F64.sqrt64 sqrt (F64.ofInt64 n)))))
    (F64.ofInt64 ms)

/-- Line 133 in float64 arithmetic: `ci_delta`. -/
def ci_delta64 (sqrt : K → K) (mean stdev : F64 K) (n : Nat) : F64 K :=
  F64.sub64 (ci_upper64 sqrt mean stdev n) (ci_lower64 sqrt mean stdev n)

end Loop64

/-- The additions of a running total that starts at `t` and takes the values of the list one
after the other are all exact: none of the float64 sums differs from the sum without
rounding. -/
def ExactTotals {K : Type} [LinearOrderedField K] [FloorRing K] (t : F64 K) :
    List (F64 K) → Prop
  | [] => True
  | v :: rest => F64.add64 t v = F64.add t v ∧ ExactTotals (F64.add t v) rest

/-- Two states of the loop agree on what decides its branches: the clock variables, the phase,
the running total and the number of samples. -/
def SameControl {K : Type} (s s' : MonitorState K) : Prop :=
  s.start_time = s'.start_time ∧ s.current_time = s'.current_time ∧
  s.last_display_time = s'.last_display_time ∧ s.last_sample_time = s'.last_sample_time ∧
  s.elapsed_time = s'.elapsed_time ∧ s.phase = s'.phase ∧
  s.total_games = s'.total_games ∧ s.samples.length = s'.samples.length

/-- Once phase 1 is over, the running bounds are finite speeds between `2^-63` and `2^63`, the
range of the speeds that int64 times and counts give. -/
def BoundsInRange {K : Type} [LinearOrderedField K] (s : MonitorState K) : Prop :=
  s.phase = 1 ∨
  ∃ a b : K, s.minimum_speed = F64.fin a ∧ s.maximum_speed = F64.fin b ∧
    (2 : K) ^ (-63 : Int) ≤ a ∧ b ≤ (2 : K) ^ (63 : Int)

/-! ## `rank_letter` -/

/-- C4: `rank_letter` gives A for three passes, B for two, C for one, D for none and X for any
longer list, and two lists of the same length get the same letter. -/
theorem rank_letter_by_length (passes : List String) :
    (passes.length = 3 → rank_letter passes = "A") ∧
    (passes.length = 2 → rank_letter passes = "B") ∧
    (passes.length = 1 → rank_letter passes = "C") ∧
    (passes.length = 0 → rank_letter passes = "D") ∧
    (4 ≤ passes.length → rank_letter passes = "X") ∧
    (∀ other : List String, other.length = passes.length →
      rank_letter other = rank_letter passes) := by
  refine ⟨?_, ?_, ?_, ?_, ?_, ?_⟩
  · intro h; simp [rank_letter, h]
  · intro h; simp [rank_letter, h]
  · intro h; simp [rank_letter, h]
  · intro h; simp [rank_letter, h]
  · intro h
    obtain ⟨k, hk⟩ : ∃ k, passes.length = k + 4 := ⟨passes.length - 4, by omega⟩
    simp [rank_letter, hk]
  · intro other h
    simp [rank_letter, h]

/-- The letters of C4 on concrete lists: three passes in either order, five entries, and
two different lists of length two. -/
theorem rank_letter_by_length_witness :
    rank_letter ["1%cov", "1σ", "99.9%CI"] = "A" ∧
    rank_letter ["1σ", "1σ", "1σ", "1σ", "1σ"] = "X" ∧
    rank_letter ["99.9%CI", "1%cov"] = rank_letter ["1%cov", "1σ"] :=
  ⟨(rank_letter_by_length ["1%cov", "1σ", "99.9%CI"]).1 rfl,
   (rank_letter_by_length ["1σ", "1σ", "1σ", "1σ", "1σ"]).2.2.2.2.1 (by decide),
   (rank_letter_by_length ["1%cov", "1σ"]).2.2.2.2.2 ["99.9%CI", "1%cov"] rfl⟩

/-! ## `collect_progress` -/

/-- The fold of `collect_progress` from any accumulator. -/
theorem collect_progress_fold (channels : List (List Int)) (r : Int) (done : List (List Int)) :
    channels.foldl
      (fun (acc : Int × List (List Int)) (v : List Int) =>
        match v with
        | p :: rest => (acc.1 + p, acc.2 ++ [rest])
        | [] => (acc.1, acc.2 ++ [v]))
      (r, done)
    = (r + (channels.filterMap List.head?).sum, done ++ channels.map List.tail) := by
  induction channels generalizing r done with
  | nil => simp
  | cons q qs ih =>
    cases q with
    | nil => simp [ih]
    | cons p rest => simp [ih, add_assoc]

/-- The value and the channels that `collect_progress` returns. -/
theorem collect_progress_eq (channels : List (List Int)) :
    collect_progress channels
      = ((channels.filterMap List.head?).sum, channels.map List.tail) := by
  unfold collect_progress
  rw [collect_progress_fold]
  simp

/-- C9: one call of `collect_progress` returns the sum of the front tokens of the non-empty
queues and leaves each queue without its front token, an empty queue staying empty; when every
queue is empty it returns 0 and changes nothing. -/
theorem collect_progress_one_pass (channels : List (List Int)) :
    (collect_progress channels).1 = (channels.filterMap List.head?).sum ∧
    (collect_progress channels).2
      = channels.map (fun q => match q with
          | [] => []
          | _ :: rest => rest) ∧
    ((∀ q ∈ channels, q = []) → collect_progress channels = (0, channels)) := by
  rw [collect_progress_eq]
  refine ⟨rfl, ?_, ?_⟩
  · apply List.map_congr_left
    intro q _
    cases q <;> rfl
  · intro h
    have h1 : channels.filterMap List.head? = [] := by
      rw [List.filterMap_eq_nil_iff]
      intro q hq
      rw [h q hq]
      rfl
    have h2 : channels.map List.tail = channels := by
      conv_rhs => rw [← List.map_id channels]
      apply List.map_congr_left
      intro q hq
      rw [h q hq]
      rfl
    rw [h1, h2]
    rfl

/-- The pass of C9 on three queues, the middle one empty, and on two empty queues. -/
theorem collect_progress_one_pass_witness :
    collect_progress [[1, 1], [], [1]] = (2, [[1], [], []]) ∧
    collect_progress [[], []] = (0, [[], []]) :=
  ⟨by
    have h := collect_progress_one_pass [[1, 1], [], [1]]
    exact Prod.ext h.1 h.2.1,
   (collect_progress_one_pass [[], []]).2.2 (by decide)⟩

/-- C10, as stated, fails: a queue holding two tokens is not empty after one call, and the
call returns 1 where 2 tokens were waiting. -/
theorem collect_progress_does_not_drain :
    ¬ ((∀ q ∈ (collect_progress [[1, 1]]).2, q = []) ∧
       (collect_progress [[1, 1]]).1 = ([[1, 1]].map List.sum).sum) := by
  decide

/-- C10, amended: one call takes only the front token of each non-empty queue. Each queue is
one shorter (an empty one stays empty), the returned number is the total that was waiting minus
the total still waiting, and when no queue held more than one token the call leaves every queue
empty and returns the total that was waiting. -/
theorem collect_progress_takes_fronts (channels : List (List Int)) :
    (collect_progress channels).2.map List.length = channels.map (fun q => q.length - 1) ∧
    (collect_progress channels).1 + ((collect_progress channels).2.map List.sum).sum
      = (channels.map List.sum).sum ∧
    ((∀ q ∈ channels, q.length ≤ 1) →
      (∀ q ∈ (collect_progress channels).2, q = []) ∧
      (collect_progress channels).1 = (channels.map List.sum).sum) := by
  rw [collect_progress_eq]
  have hsum : (channels.filterMap List.head?).sum + ((channels.map List.tail).map List.sum).sum
      = (channels.map List.sum).sum := by
    induction channels with
    | nil => simp
    | cons q qs ih =>
      cases q with
      | nil => simpa using ih
      | cons p rest =>
        simp only [List.filterMap_cons, List.head?_cons, List.map_cons, List.tail_cons,
          List.sum_cons] at ih ⊢
        linarith
  refine ⟨?_, hsum, ?_⟩
  · simp [List.map_map, Function.comp_def]
  · intro h
    have hempty : ∀ q ∈ channels.map List.tail, q = [] := by
      intro q hq
      rw [List.mem_map] at hq
      obtain ⟨q0, hq0, rfl⟩ := hq
      have := h q0 hq0
      cases q0 with
      | nil => rfl
      | cons p rest =>
        simp only [List.length_cons] at this
        have : rest.length = 0 := by omega
        simpa using this
    refine ⟨hempty, ?_⟩
    have hz : ((channels.map List.tail).map List.sum).sum = 0 := by
      apply List.sum_eq_zero
      intro x hx
      rw [List.mem_map] at hx
      obtain ⟨q, hq, rfl⟩ := hx
      rw [hempty q hq]
      rfl
    have := hsum
    rw [hz] at this
    simpa using this

/-- The amended C10 on two queues holding one token each and one empty queue. -/
theorem collect_progress_takes_fronts_witness :
    (∀ q ∈ (collect_progress [[1], [], [1]]).2, q = []) ∧
    (collect_progress [[1], [], [1]]).1 = ([[1], [], [1]].map List.sum).sum :=
  (collect_progress_takes_fronts [[1], [], [1]]).2.2 (by decide)

/-! ## Arithmetic of finite float64 values -/

section FiniteArithmetic

variable {K : Type} [LinearOrderedField K]

theorem F64.add_fin_fin (a b : K) : F64.add (F64.fin a) (F64.fin b) = F64.fin (a + b) := rfl

theorem F64.sub_fin_fin (a b : K) : F64.sub (F64.fin a) (F64.fin b) = F64.fin (a - b) := by
  simp [F64.sub, F64.neg, F64.add, sub_eq_add_neg]

theorem F64.mul_fin_fin (a b : K) : F64.mul (F64.fin a) (F64.fin b) = F64.fin (a * b) := rfl

theorem F64.pow_fin (a : K) (n : Nat) : F64.pow (F64.fin a) n = F64.fin (a ^ n) := rfl

theorem F64.div_fin_fin (a b : K) (h : b ≠ 0) :
    F64.div (F64.fin a) (F64.fin b) = F64.fin (a / b) := by
  simp [F64.div, h]

theorem F64.div_fin_zero (a : K) :
    F64.div (F64.fin a) (F64.fin 0) = F64.signedInf a := by
  simp [F64.div]

theorem F64.sqrt_fin (sq : K → K) (a : K) (h : 0 ≤ a) :
    F64.sqrt sq (F64.fin a) = F64.fin (sq a) := by
  simp [F64.sqrt, not_lt.mpr h]

theorem F64.lt_fin_fin (a b : K) : F64.lt (F64.fin a) (F64.fin b) = true ↔ a < b := by
  simp [F64.lt]

theorem F64.le_fin_fin (a b : K) : F64.le (F64.fin a) (F64.fin b) = true ↔ a ≤ b := by
  simp [F64.le]

theorem F64.ofInt_eq (n : Int) : (F64.ofInt n : F64 K) = F64.fin (n : K) := rfl

end FiniteArithmetic

/-! ## Statistics on finite samples -/

section FiniteSamples

variable {K : Type} [LinearOrderedField K]

/-- The running total of `get_mean` over finite samples is their sum. -/
theorem foldl_add_fin (S : List K) (a : K) :
    (S.map F64.fin).foldl (fun total v => F64.add total v) (F64.fin a)
      = F64.fin (a + S.sum) := by
  induction S generalizing a with
  | nil => simp
  | cons x xs ih =>
    simp only [List.map_cons, List.foldl_cons, F64.add_fin_fin, ih, List.sum_cons, add_assoc]

/-- The mean of no samples is `0 / 0`, which is NaN. -/
theorem get_mean_nil : get_mean ([] : List (F64 K)) = F64.nan := by
  simp [get_mean, F64.ofInt_eq, F64.div_fin_zero, F64.signedInf]

/-- The mean of finite samples, when there is at least one. -/
theorem get_mean_fin (S : List K) (h : S ≠ []) :
    get_mean (S.map F64.fin) = F64.fin (S.sum / (S.length : K)) := by
  have hlen : (S.length : K) ≠ 0 := by
    have : S.length ≠ 0 := fun h0 => h (List.length_eq_zero.mp h0)
    exact_mod_cast this
  simp only [get_mean, foldl_add_fin, F64.ofInt_eq, List.length_map, Int.cast_natCast,
    zero_add]
  rw [F64.div_fin_fin _ _ hlen]

/-- The running total of `get_standard_deviation` over finite samples. -/
theorem foldl_sq_fin (S : List K) (m a : K) :
    (S.map F64.fin).foldl
      (fun total v => F64.add total (F64.pow (F64.sub v (F64.fin m)) 2)) (F64.fin a)
      = F64.fin (a + (S.map (fun x => (x - m) ^ 2)).sum) := by
  induction S generalizing a with
  | nil => simp
  | cons x xs ih =>
    simp only [List.map_cons, List.foldl_cons, F64.sub_fin_fin, F64.pow_fin, F64.add_fin_fin,
      ih, List.sum_cons, add_assoc]

/-- A sum of squared distances is not negative. -/
theorem sum_sq_nonneg (S : List K) (m : K) : 0 ≤ (S.map (fun x => (x - m) ^ 2)).sum := by
  apply List.sum_nonneg
  intro y hy
  rw [List.mem_map] at hy
  obtain ⟨x, _, rfl⟩ := hy
  positivity

/-- The standard deviation of finite samples around a finite mean, when there is at least one
sample. -/
theorem get_standard_deviation_fin (sq : K → K) (S : List K) (m : K) (h : S ≠ []) :
    get_standard_deviation sq (S.map F64.fin) (F64.fin m)
      = F64.fin (sq ((S.map (fun x => (x - m) ^ 2)).sum / (S.length : K))) := by
  have hlen : (S.length : K) ≠ 0 := by
    have : S.length ≠ 0 := fun h0 => h (List.length_eq_zero.mp h0)
    exact_mod_cast this
  have hnn : ¬ (S.map (fun x => (x - m) ^ 2)).sum / (S.length : K) < 0 := by
    have := sum_sq_nonneg S m
    have : 0 ≤ (S.map (fun x => (x - m) ^ 2)).sum / (S.length : K) := by positivity
    exact not_lt.mpr this
  simp only [get_standard_deviation, foldl_sq_fin, F64.ofInt_eq, List.length_map,
    Int.cast_natCast, zero_add]
  rw [F64.div_fin_fin _ _ hlen, F64.sqrt_fin _ _ (not_lt.mp hnn)]

end FiniteSamples

/-! ## The scenario 10, 12, 11, 13, 9 -/

/-- C5: for the samples 10, 12, 11, 13, 9 the mean is 11, the standard deviation around it is
`sqrt 2` (about 1.4142: the squared distances sum to 10 and are divided by 5), the coefficient
of variation is `sqrt 2 / 11` (about 0.1286), the test `cov < 0.01` is false and the scoring
awards no `1%cov`, whatever the sample count and final speed it is given. -/
theorem scenario_five_samples :
    get_mean (([10, 12, 11, 13, 9] : List ℝ).map F64.fin) = F64.fin 11 ∧
    get_standard_deviation Real.sqrt (([10, 12, 11, 13, 9] : List ℝ).map F64.fin) (F64.fin 11)
      = F64.fin (Real.sqrt 2) ∧
    get_coefficient_of_variation (F64.fin (11 : ℝ)) (F64.fin (Real.sqrt 2))
      = F64.fin (Real.sqrt 2 / 11) ∧
    |Real.sqrt 2 - 1.4142| < 0.0001 ∧
    |Real.sqrt 2 / 11 - 0.1286| < 0.0001 ∧
    F64.lt (get_coefficient_of_variation (F64.fin (11 : ℝ)) (F64.fin (Real.sqrt 2)))
      (F64.fin one_percent) = false ∧
    (∀ (n : Nat) (speed_v : F64 ℝ),
      "1%cov" ∉ scoring Real.sqrt (F64.fin 11) (F64.fin (Real.sqrt 2)) n speed_v) := by
  have hlo : (1.4142 : ℝ) < Real.sqrt 2 := by
    rw [Real.lt_sqrt (by norm_num)]
    norm_num
  have hhi : Real.sqrt 2 < (1.4143 : ℝ) := by
    rw [Real.sqrt_lt' (by norm_num)]
    norm_num
  have hmean : get_mean (([10, 12, 11, 13, 9] : List ℝ).map F64.fin) = F64.fin 11 := by
    rw [get_mean_fin _ (by simp)]
    norm_num
  have hstd : get_standard_deviation Real.sqrt (([10, 12, 11, 13, 9] : List ℝ).map F64.fin)
      (F64.fin 11) = F64.fin (Real.sqrt 2) := by
    rw [get_standard_deviation_fin _ _ _ (by simp)]
    norm_num
  have hcov : get_coefficient_of_variation (F64.fin (11 : ℝ)) (F64.fin (Real.sqrt 2))
      = F64.fin (Real.sqrt 2 / 11) := by
    rw [get_coefficient_of_variation, F64.div_fin_fin _ _ (by norm_num)]
  have hnot : F64.lt (F64.fin (Real.sqrt 2 / 11)) (F64.fin (one_percent : ℝ)) = false := by
    rw [Bool.eq_false_iff, Ne, F64.lt_fin_fin, one_percent, not_lt]
    have : (0.01 : ℝ) * 11 ≤ Real.sqrt 2 := by linarith
    rw [le_div_iff₀ (by norm_num)]
    exact this
  refine ⟨hmean, hstd, hcov, ?_, ?_, ?_, ?_⟩
  · rw [abs_lt]
    constructor <;> linarith
  · rw [abs_lt]
    constructor
    · rw [lt_sub_iff_add_lt, lt_div_iff₀ (by norm_num)]
      linarith
    · rw [sub_lt_iff_lt_add, div_lt_iff₀ (by norm_num)]
      linarith
  · rw [hcov]
    exact hnot
  · intro n speed_v
    rw [scoring, hcov, award_points]
    simp only [hnot, Bool.false_eq_true, if_false]
    split_ifs <;> simp

/-! ## The confidence interval -/

/-- The confidence bounds of finite statistics over at least one sample. -/
theorem ci_bounds_fin (mean stdev : ℝ) (n : Nat) (hn : 1 ≤ n) :
    ci_lower Real.sqrt (F64.fin mean) (F64.fin stdev) n
      = F64.fin ((mean - 3.291 * (stdev / Real.sqrt n)) * 1000000) ∧
    ci_upper Real.sqrt (F64.fin mean) (F64.fin stdev) n
      = F64.fin ((mean + 3.291 * (stdev / Real.sqrt n)) * 1000000) := by
  have hpos : (0 : ℝ) < Real.sqrt n := by
    rw [Real.sqrt_pos]
    exact_mod_cast hn
  have hcast : ((n : Int) : ℝ) = (n : ℝ) := Int.cast_natCast n
  constructor
  · rw [ci_lower, F64.ofInt_eq, F64.ofInt_eq, hcast,
      F64.sqrt_fin _ _ (Nat.cast_nonneg n), F64.div_fin_fin _ _ (ne_of_gt hpos),
      F64.mul_fin_fin, F64.sub_fin_fin, F64.mul_fin_fin]
    simp [t_score, ms]
  · rw [ci_upper, F64.ofInt_eq, F64.ofInt_eq, hcast,
      F64.sqrt_fin _ _ (Nat.cast_nonneg n), F64.div_fin_fin _ _ (ne_of_gt hpos),
      F64.mul_fin_fin, F64.add_fin_fin, F64.mul_fin_fin]
    simp [t_score, ms]

/-! ## Scoring -/

/-- The list that three tests leave in `points`, its length and its letter. -/
theorem points_of_flags (a b c : Bool) :
    ("1%cov" ∈ (if a then ["1%cov"] else []) ++ (if b then ["1σ"] else [])
      ++ (if c then ["99.9%CI"] else []) ↔ a = true) ∧
    ("1σ" ∈ (if a then ["1%cov"] else []) ++ (if b then ["1σ"] else [])
      ++ (if c then ["99.9%CI"] else []) ↔ b = true) ∧
    ("99.9%CI" ∈ (if a then ["1%cov"] else []) ++ (if b then ["1σ"] else [])
      ++ (if c then ["99.9%CI"] else []) ↔ c = true) ∧
    ((if a then ["1%cov"] else []) ++ (if b then ["1σ"] else [])
      ++ (if c then ["99.9%CI"] else [])).length = a.toNat + b.toNat + c.toNat ∧
    rank_letter ((if a then ["1%cov"] else []) ++ (if b then ["1σ"] else [])
      ++ (if c then ["99.9%CI"] else []))
      = (if a.toNat + b.toNat + c.toNat = 3 then "A"
          else if a.toNat + b.toNat + c.toNat = 2 then "B"
          else if a.toNat + b.toNat + c.toNat = 1 then "C" else "D") ∧
    rank_letter ((if a then ["1%cov"] else []) ++ (if b then ["1σ"] else [])
      ++ (if c then ["99.9%CI"] else [])) ≠ "X" := by
  cases a <;> cases b <;> cases c <;> simp [rank_letter]

/-- C3: whatever the mean, the standard deviation, the sample count and the final speed, the
scoring awards `1%cov` exactly when `stdev / mean < 0.01`, `1σ` exactly when the final speed is
strictly between `mean - stdev` and `mean + stdev`, and `99.9%CI` exactly when it is strictly
between `mean - 3.291 * stdev / sqrt n` and `mean + 3.291 * stdev / sqrt n` (the bounds on the
display scale of the final speed), and nothing else; so the number of passes is the number of
criteria that hold, and the rank letter is A, B, C or D for 3, 2, 1 or 0 of them, never X. -/
theorem scoring_one_point_per_criterion {K : Type} [LinearOrderedField K] (sqrt : K → K)
    (mean stdev : F64 K) (n : Nat) (speed_v : F64 K) :
    let cov_ok : Bool := F64.lt (F64.div stdev mean) (F64.fin 0.01)
    let sigma_ok : Bool :=
      F64.lt (F64.mul (F64.sub mean stdev) (F64.fin 1000000)) speed_v &&
      F64.lt speed_v (F64.mul (F64.add mean stdev) (F64.fin 1000000))
    let half : F64 K :=
      F64.mul (F64.fin 3.291) (F64.div stdev (F64.sqrt sqrt (F64.fin (n : K))))
    let ci_ok : Bool :=
      F64.lt (F64.mul (F64.sub mean half) (F64.fin 1000000)) speed_v &&
      F64.lt speed_v (F64.mul (F64.add mean half) (F64.fin 1000000))
    let count : Nat := cov_ok.toNat + sigma_ok.toNat + ci_ok.toNat
    let passes : List String := scoring sqrt mean stdev n speed_v
    ("1%cov" ∈ passes ↔ cov_ok = true) ∧
    ("1σ" ∈ passes ↔ sigma_ok = true) ∧
    ("99.9%CI" ∈ passes ↔ ci_ok = true) ∧
    passes = (if cov_ok then ["1%cov"] else []) ++ (if sigma_ok then ["1σ"] else [])
      ++ (if ci_ok then ["99.9%CI"] else []) ∧
    passes.length = count ∧
    rank_letter passes
      = (if count = 3 then "A" else if count = 2 then "B" else if count = 1 then "C"
          else "D") ∧
    rank_letter passes ≠ "X" := by
  intro cov_ok sigma_ok half ci_ok count passes
  have hp : passes = (if cov_ok then ["1%cov"] else []) ++ (if sigma_ok then ["1σ"] else [])
      ++ (if ci_ok then ["99.9%CI"] else []) := by
    simp only [passes, scoring, award_points, get_coefficient_of_variation, one_sigma_lower,
      one_sigma_upper, ci_lower, ci_upper, F64.ofInt_eq, ms, t_score, one_percent,
      Int.cast_ofNat, Int.cast_natCast, cov_ok, sigma_ok, ci_ok, half]
    split_ifs <;> rfl
  have h := points_of_flags cov_ok sigma_ok ci_ok
  refine ⟨?_, ?_, ?_, hp, ?_, ?_, ?_⟩
  · rw [hp]; exact h.1
  · rw [hp]; exact h.2.1
  · rw [hp]; exact h.2.2.1
  · rw [hp]; exact h.2.2.2.1
  · rw [hp]; exact h.2.2.2.2.1
  · rw [hp]; exact h.2.2.2.2.2


/-! ## The blocks of the loop body keep the invariant -/

section LoopBounds

variable {K : Type} [LinearOrderedField K]

/-- The speed computed at an iteration is a finite number as soon as some time has elapsed. -/
theorem speed_is_finite (s : MonitorState K) (collected now : Int)
    (h : now - s.start_time ≠ 0) :
    ∃ v : K, (measure_speed s collected now).speed = F64.fin v := by
  have he : ((now - s.start_time : Int) : K) ≠ 0 := by exact_mod_cast h
  simp only [measure_speed, F64.ofInt_eq]
  by_cases ht : ((s.total_games + collected : Int) : K) = 0
  · rw [ht, F64.div_fin_zero]
    unfold F64.signedInf
    split_ifs with h1 h2
    · exact ⟨0, rfl⟩
    · exact ⟨0, rfl⟩
    · exact absurd (le_antisymm (not_lt.mp h1) (not_lt.mp h2)) he
  · rw [F64.div_fin_fin _ _ ht, F64.div_fin_fin _ _ (div_ne_zero he ht)]
    exact ⟨_, rfl⟩

/-- Lines 68-90 keep the invariant, and in phase 2 leave the speed of the iteration finite and
within the bounds. -/
theorem advance_phase_invariant (s : MonitorState K) (hinv : LoopInvariant s)
    (hspeed : prime_time ≤ s.elapsed_time → ∃ v : K, s.speed = F64.fin v)
    (helapsed : s.elapsed_time = s.current_time - s.start_time) :
    LoopInvariant (advance_phase s).2 ∧
    (advance_phase s).2.current_time = s.current_time ∧
    (advance_phase s).2.speed = s.speed ∧
    ((advance_phase s).1 = false → (advance_phase s).2.phase = 2 →
      ∃ v a b : K, s.speed = F64.fin v ∧
        (advance_phase s).2.minimum_speed = F64.fin a ∧
        (advance_phase s).2.maximum_speed = F64.fin b ∧ a ≤ v ∧ v ≤ b) := by
  unfold advance_phase
  by_cases h1 : s.phase = 1 ∧ s.elapsed_time ≥ prime_time
  · rw [if_pos h1]
    obtain ⟨v, hv⟩ := hspeed h1.2
    have hs : s.samples = [] := by
      rcases hinv with h | h | h
      · exact h.2
      · omega
      · omega
    refine ⟨?_, rfl, rfl, ?_⟩
    · right; left
      refine ⟨rfl, ?_, v, v, hv, hv, ?_⟩
      · show prime_time ≤ s.current_time - s.start_time
        rw [← helapsed]; exact h1.2
      · show ∀ x ∈ s.samples, _
        rw [hs]; simp
    · intro _ _
      exact ⟨v, v, v, hv, hv, hv, le_refl v, le_refl v⟩
  · rw [if_neg h1]
    by_cases h2 : s.phase = 2
    · rw [if_pos h2]
      have hinv2 : prime_time ≤ s.current_time - s.start_time ∧ SamplesBounded s := by
        rcases hinv with h | h | h
        · omega
        · exact h.2
        · omega
      obtain ⟨htime, a, b, hmin, hmax, hall⟩ := hinv2
      obtain ⟨v, hv⟩ := hspeed (by rw [helapsed]; exact htime)
      simp only [hmin, hmax, hv, F64.lt_fin_fin]
      by_cases hbv : b < v <;> by_cases hva : v < a <;>
        by_cases h3 : s.elapsed_time ≥ end_time <;>
        simp only [hbv, hva, h3, if_true, if_false, hmin, hmax, hv, F64.lt_fin_fin] <;>
        refine ⟨?_, trivial, trivial, ?_⟩
      all_goals first
        | (intro _ hph; exact absurd hph (by decide))
        | (intro _ _
           refine ⟨v, _, _, rfl, rfl, rfl, ?_, ?_⟩ <;>
           first | exact le_refl _ | exact not_lt.mp hbv | exact not_lt.mp hva)
        | (right; right
           refine ⟨Or.inl rfl, _, _, rfl, rfl, ?_⟩
           intro x hx
           obtain ⟨r, hr, h5, h6⟩ := hall x hx
           refine ⟨r, hr, ?_, ?_⟩ <;> linarith)
        | (right; left
           refine ⟨h2, htime, _, _, (by first | rfl | exact hmin),
             (by first | rfl | exact hmax), ?_⟩
           intro x hx
           obtain ⟨r, hr, h5, h6⟩ := hall x hx
           refine ⟨r, hr, ?_, ?_⟩ <;> linarith)
    · rw [if_neg h2]
      by_cases h4 : s.phase = 4
      · rw [if_pos h4]
        exact ⟨hinv, rfl, rfl, fun hf => Bool.noConfusion hf⟩
      · rw [if_neg h4]
        exact ⟨hinv, rfl, rfl, fun _ hph => absurd hph h2⟩

/-- Lines 92-95 keep the invariant when, in phase 2, the speed is finite and within the
bounds. -/
theorem record_sample_invariant (s : MonitorState K) (hinv : LoopInvariant s)
    (hspeed : s.phase = 2 → ∃ v a b : K, s.speed = F64.fin v ∧
      s.minimum_speed = F64.fin a ∧ s.maximum_speed = F64.fin b ∧ a ≤ v ∧ v ≤ b) :
    LoopInvariant (record_sample s) ∧ (record_sample s).current_time = s.current_time := by
  unfold record_sample
  split_ifs with h
  · refine ⟨?_, rfl⟩
    obtain ⟨v, a, b, hv, hmin, hmax, hav, hvb⟩ := hspeed h.1
    rcases hinv with h1 | h2 | h3
    · omega
    · obtain ⟨_, htime, a0, b0, hmin0, hmax0, hall⟩ := h2
      have ha : a0 = a := F64.fin.inj (hmin0.symm.trans hmin)
      have hb : b0 = b := F64.fin.inj (hmax0.symm.trans hmax)
      subst ha hb
      right; left
      refine ⟨h.1, htime, a0, b0, hmin, hmax, ?_⟩
      intro x hx
      rcases List.mem_append.mp hx with hx | hx
      · exact hall x hx
      · rw [List.mem_singleton] at hx
        exact ⟨v, hx.trans hv, hav, hvb⟩
    · omega
  · exact ⟨hinv, rfl⟩

/-- The invariant passes to a state with the same samples, bounds and clock whose phase is the
same, or is 4 instead of 3. -/
theorem invariant_of_same_data (s s' : MonitorState K)
    (hphase : s'.phase = s.phase ∨ (s.phase = 3 ∧ s'.phase = 4))
    (hsamples : s'.samples = s.samples) (hcurrent : s'.current_time = s.current_time)
    (hstart : s'.start_time = s.start_time) (hmin : s'.minimum_speed = s.minimum_speed)
    (hmax : s'.maximum_speed = s.maximum_speed) (hinv : LoopInvariant s) :
    LoopInvariant s' := by
  unfold LoopInvariant SamplesBounded at *
  rw [hsamples, hcurrent, hstart, hmin, hmax]
  rcases hphase with hp | ⟨h3, h4⟩
  · rw [hp]
    exact hinv
  · rcases hinv with h | h | h
    · omega
    · omega
    · exact Or.inr (Or.inr ⟨Or.inr h4, h.2⟩)

/-- Lines 97-111 keep the invariant. -/
theorem display_invariant (s : MonitorState K) (hinv : LoopInvariant s) :
    LoopInvariant (display s) ∧ (display s).current_time = s.current_time := by
  unfold display
  dsimp only
  split_ifs with _ _ _ h3
  · exact ⟨invariant_of_same_data s _ (Or.inl rfl) rfl rfl rfl rfl rfl hinv, rfl⟩
  · exact ⟨invariant_of_same_data s _ (Or.inl rfl) rfl rfl rfl rfl rfl hinv, rfl⟩
  · exact ⟨invariant_of_same_data s _ (Or.inr ⟨h3, rfl⟩) rfl rfl rfl rfl rfl hinv, rfl⟩
  · exact ⟨invariant_of_same_data s _ (Or.inl rfl) rfl rfl rfl rfl rfl hinv, rfl⟩
  · exact ⟨hinv, rfl⟩

end LoopBounds


/-! ## Final statistics without samples -/

/-- The standard deviation of no samples is the square root of `0 / 0`, which is NaN. -/
theorem stdev_nil {K : Type} [LinearOrderedField K] (sqrt : K → K) (samples : List (F64 K))
    (mean : F64 K) (h : samples = []) :
    get_standard_deviation sqrt samples mean = F64.nan := by
  rw [h]
  simp [get_standard_deviation, F64.ofInt_eq, F64.div_fin_zero, F64.signedInf, F64.sqrt]

/-- A NaN mean and standard deviation pass no test. -/
theorem scoring_nan {K : Type} [LinearOrderedField K] (sqrt : K → K) (n : Nat)
    (speed_v : F64 K) : scoring sqrt F64.nan F64.nan n speed_v = [] := by
  simp [scoring, award_points, get_coefficient_of_variation, one_sigma_lower, one_sigma_upper,
    ci_lower, ci_upper, F64.div, F64.sub, F64.add, F64.neg, F64.mul, F64.lt]

/-- With no samples every statistic of the report is NaN, every test of the scoring is false,
and the report shows no passes and the letter D. -/
theorem final_statistics_nil {K : Type} [LinearOrderedField K] (sqrt : K → K) (threads : Int)
    (s : MonitorState K) (h : s.samples = []) :
    (final_statistics sqrt threads s).samples_collected = 0 ∧
    (final_statistics sqrt threads s).mean = F64.nan ∧
    (final_statistics sqrt threads s).stdev = F64.nan ∧
    (final_statistics sqrt threads s).cov = F64.nan ∧
    (final_statistics sqrt threads s).one_sigma_lower = F64.nan ∧
    (final_statistics sqrt threads s).one_sigma_upper = F64.nan ∧
    (final_statistics sqrt threads s).ci_lower = F64.nan ∧
    (final_statistics sqrt threads s).ci_upper = F64.nan ∧
    (final_statistics sqrt threads s).rank_passes = "none" ∧
    (final_statistics sqrt threads s).letter = "D" := by
  have hm : get_mean s.samples = F64.nan := by rw [h]; exact get_mean_nil
  have hs : get_standard_deviation sqrt s.samples F64.nan = F64.nan :=
    stdev_nil sqrt s.samples F64.nan h
  simp only [final_statistics, hm, hs, scoring_nan]
  simp [h, get_coefficient_of_variation, one_sigma_lower, one_sigma_upper, ci_lower, ci_upper,
    F64.div, F64.sub, F64.add, F64.neg, F64.mul, rank_reason, rank_letter, F64.sqrt,
    F64.ofInt_eq]

/-- C7, as stated, fails: a run of `Benchmark` with one worker whose first clock readings are
ten seconds apart reaches Done with no sample, and the final statistics step does not report
insufficient samples: it computes a NaN mean, standard deviation and coefficient of variation,
scores with them and reports no passes and rank D. -/
theorem no_samples_are_scored :
    ∃ r : Report ℝ,
      Benchmark Real.sqrt 1 0 10000000000
        [⟨[[1]], 10000000000⟩, ⟨[[1]], 70000000000⟩, ⟨[[1]], 70000000000⟩]
        = Outcome.reported 1 r ∧
      r.samples_collected = 0 ∧ r.mean = F64.nan ∧ r.stdev = F64.nan ∧ r.cov = F64.nan ∧
      r.rank_passes = "none" ∧ r.letter = "D" := by
  have hs : (monitor_loop (initial_state 0 10000000000 : MonitorState ℝ)
      [⟨1, 10000000000⟩, ⟨1, 70000000000⟩, ⟨1, 70000000000⟩]).2.samples = [] := by
    norm_num [monitor_loop, monitor_iteration, measure_speed, advance_phase, record_sample,
      display, initial_state, prime_time, end_time, sample_time, sample_frequency,
      display_frequency, ns, Int.tdiv, F64.ofInt_eq, F64.div_fin_fin, F64.lt_fin_fin]
  have h := final_statistics_nil Real.sqrt 1 _ hs
  refine ⟨_, ?_, h.1, h.2.1, h.2.2.1, h.2.2.2.1, h.2.2.2.2.2.2.2.2.1, h.2.2.2.2.2.2.2.2.2⟩
  norm_num [Benchmark, make_channels, create_threads, make_chan, max_alloc, hchan_size,
    List.range_succ, readings,
    collect_progress, deliver, monitor_loop, monitor_iteration, measure_speed, advance_phase,
    record_sample, display, initial_state, prime_time, end_time, sample_time, sample_frequency,
    display_frequency, ns, Int.tdiv, F64.ofInt_eq, F64.div_fin_fin, F64.lt_fin_fin]

/-- C7, amended: when the sample sequence is empty, the final statistics step makes no check.
The mean, the standard deviation, the coefficient of variation, the one-sigma bounds and the
confidence bounds are all NaN, every comparison of the scoring is false, and the report shows
0 samples, no passes and rank D. -/
theorem final_statistics_of_no_samples {K : Type} [LinearOrderedField K] (sqrt : K → K)
    (threads : Int) (s : MonitorState K) (h : s.samples = []) :
    (final_statistics sqrt threads s).samples_collected = 0 ∧
    (final_statistics sqrt threads s).mean = F64.nan ∧
    (final_statistics sqrt threads s).stdev = F64.nan ∧
    (final_statistics sqrt threads s).cov = F64.nan ∧
    (final_statistics sqrt threads s).one_sigma_lower = F64.nan ∧
    (final_statistics sqrt threads s).one_sigma_upper = F64.nan ∧
    (final_statistics sqrt threads s).ci_lower = F64.nan ∧
    (final_statistics sqrt threads s).ci_upper = F64.nan ∧
    scoring sqrt (get_mean s.samples)
      (get_standard_deviation sqrt s.samples (get_mean s.samples))
      s.samples.length s.speed_v = [] ∧
    (final_statistics sqrt threads s).rank_passes = "none" ∧
    (final_statistics sqrt threads s).letter = "D" := by
  obtain ⟨h1, h2, h3, h4, h5, h6, h7, h8, h9, h10⟩ := final_statistics_nil sqrt threads s h
  refine ⟨h1, h2, h3, h4, h5, h6, h7, h8, ?_, h9, h10⟩
  have hm : get_mean s.samples = F64.nan := by rw [h]; exact get_mean_nil
  rw [hm, stdev_nil sqrt s.samples F64.nan h]
  exact scoring_nan sqrt _ _

/-- The amended C7 on the variables as they are before the first iteration, which hold no
sample. -/
theorem final_statistics_of_no_samples_witness :
    (final_statistics Real.sqrt 4 (initial_state 0 0 : MonitorState ℝ)).mean = F64.nan ∧
    (final_statistics Real.sqrt 4 (initial_state 0 0 : MonitorState ℝ)).letter = "D" :=
  ⟨(final_statistics_of_no_samples Real.sqrt 4 (initial_state 0 0) rfl).2.1,
   (final_statistics_of_no_samples Real.sqrt 4 (initial_state 0 0) rfl).2.2.2.2.2.2.2.2.2.2⟩


/-! ## `Benchmark` and its thread count -/

/-- Without channels every pass of the collector returns 0. -/
theorem readings_nil (polls : List Poll) :
    readings [] polls = polls.map (fun p => ({ collected := 0, now := p.now } : Tick)) := by
  induction polls with
  | nil => rfl
  | cons p rest ih =>
    rw [readings]
    simp only [deliver, collect_progress, List.foldl_nil, List.map_cons]
    rw [ih]

/-- C8, as stated, fails: with `threads = 0` nothing is rejected. No worker is started, the
monitoring loop is entered and, three iterations later, `Benchmark` reports one sample and the
rank C. -/
theorem zero_threads_not_rejected :
    ∃ r : Report ℝ,
      Benchmark Real.sqrt 0 0 0 [⟨[], 10000000000⟩, ⟨[], 70000000000⟩, ⟨[], 70000000000⟩]
        = Outcome.reported 0 r ∧
      r.samples_collected = 1 ∧ r.threads = 0 ∧ r.total_games = 1 ∧ r.letter = "C" := by
  refine ⟨final_statistics Real.sqrt 0 (monitor_loop (initial_state 0 0 : MonitorState ℝ)
      [⟨0, 10000000000⟩, ⟨0, 70000000000⟩, ⟨0, 70000000000⟩]).2, ?_, ?_, rfl, ?_, ?_⟩
  · norm_num [Benchmark, make_channels, create_threads, make_chan, max_alloc, hchan_size,
      readings, collect_progress, deliver,
      monitor_loop, monitor_iteration, measure_speed, advance_phase, record_sample, display,
      initial_state, prime_time, end_time, sample_time, sample_frequency, display_frequency, ns,
      Int.tdiv, F64.ofInt_eq, F64.div_fin_fin, F64.lt_fin_fin]
  · norm_num [final_statistics, monitor_loop, monitor_iteration, measure_speed, advance_phase,
      record_sample, display, initial_state, prime_time, end_time, sample_time,
      sample_frequency, display_frequency, ns, Int.tdiv, F64.ofInt_eq, F64.div_fin_fin,
      F64.lt_fin_fin]
  · norm_num [final_statistics, monitor_loop, monitor_iteration, measure_speed, advance_phase,
      record_sample, display, initial_state, prime_time, end_time, sample_time,
      sample_frequency, display_frequency, ns, Int.tdiv, F64.ofInt_eq, F64.div_fin_fin,
      F64.lt_fin_fin]
  · norm_num [final_statistics, scoring, award_points, get_mean, get_standard_deviation,
      get_coefficient_of_variation, one_sigma_lower, one_sigma_upper, ci_lower, ci_upper,
      rank_letter, ms, t_score, one_percent, F64.add, F64.sub, F64.neg, F64.mul, F64.div,
      F64.sqrt, F64.pow, F64.lt, monitor_loop, monitor_iteration, measure_speed, advance_phase,
      record_sample, display, initial_state, prime_time, end_time, sample_time,
      sample_frequency, display_frequency, ns, Int.tdiv, F64.ofInt_eq]

/-! ## One iteration of the loop, field by field -/

section Frames

variable {K : Type}

/-- Lines 92-95 write the samples and the time of the last sample only. -/
theorem record_sample_frame (s : MonitorState K) :
    (record_sample s).phase = s.phase ∧
    (record_sample s).start_time = s.start_time ∧
    (record_sample s).current_time = s.current_time ∧
    (record_sample s).last_display_time = s.last_display_time ∧
    (record_sample s).elapsed_time = s.elapsed_time ∧
    (record_sample s).total_games = s.total_games ∧
    (record_sample s).speed = s.speed ∧
    (record_sample s).speed_v = s.speed_v ∧
    (record_sample s).maximum_speed = s.maximum_speed ∧
    (record_sample s).minimum_speed = s.minimum_speed := by
  unfold record_sample
  split_ifs <;> simp

/-- Lines 97-111 write the phase and the time of the last display only. -/
theorem display_frame (s : MonitorState K) :
    (display s).samples = s.samples ∧
    (display s).start_time = s.start_time ∧
    (display s).current_time = s.current_time ∧
    (display s).last_sample_time = s.last_sample_time ∧
    (display s).elapsed_time = s.elapsed_time ∧
    (display s).total_games = s.total_games ∧
    (display s).speed = s.speed ∧
    (display s).speed_v = s.speed_v ∧
    (display s).maximum_speed = s.maximum_speed ∧
    (display s).minimum_speed = s.minimum_speed := by
  unfold display
  dsimp only
  split_ifs <;> simp

/-- The phase that lines 97-111 leave. -/
theorem display_phase (s : MonitorState K) :
    (display s).phase
      = if s.current_time - s.last_display_time > display_frequency ∧ s.phase = 3 then 4
        else s.phase := by
  unfold display
  dsimp only
  split_ifs <;> simp_all

/-- The samples and the time of the last sample that lines 92-95 leave. -/
theorem record_sample_samples (s : MonitorState K) :
    (record_sample s).samples
      = (if s.phase = 2 ∧ s.current_time - s.last_sample_time > sample_frequency
         then s.samples ++ [s.speed] else s.samples) ∧
    (record_sample s).last_sample_time
      = (if s.phase = 2 ∧ s.current_time - s.last_sample_time > sample_frequency
         then s.current_time else s.last_sample_time) := by
  unfold record_sample
  split_ifs <;> simp

end Frames

section Iteration

variable {K : Type} [LinearOrderedField K]

/-- The iteration breaks exactly in phase 4. -/
theorem advance_phase_exit (s : MonitorState K) : (advance_phase s).1 = true ↔ s.phase = 4 := by
  unfold advance_phase
  dsimp only
  split_ifs with h1 h2 h3 <;> simp <;> omega

/-- The phase that lines 68-90 leave. -/
theorem advance_phase_phase (s : MonitorState K) :
    (advance_phase s).2.phase
      = if s.phase = 1 ∧ s.elapsed_time ≥ prime_time then 2
        else if s.phase = 2 then (if s.elapsed_time ≥ end_time then 3 else 2)
        else s.phase := by
  unfold advance_phase
  dsimp only
  split_ifs <;> simp_all

/-- Lines 68-90 write the phase and the running bounds only. -/
theorem advance_phase_frame (s : MonitorState K) :
    (advance_phase s).2.samples = s.samples ∧
    (advance_phase s).2.start_time = s.start_time ∧
    (advance_phase s).2.current_time = s.current_time ∧
    (advance_phase s).2.last_display_time = s.last_display_time ∧
    (advance_phase s).2.last_sample_time = s.last_sample_time ∧
    (advance_phase s).2.elapsed_time = s.elapsed_time ∧
    (advance_phase s).2.total_games = s.total_games ∧
    (advance_phase s).2.speed = s.speed ∧
    (advance_phase s).2.speed_v = s.speed_v ∧
    (advance_phase s).2.rate = s.rate := by
  unfold advance_phase
  dsimp only
  split_ifs <;> simp

/-- The running bounds that lines 68-90 leave. -/
theorem advance_phase_bounds (s : MonitorState K) :
    (advance_phase s).2.maximum_speed
      = (if s.phase = 1 ∧ s.elapsed_time ≥ prime_time then s.speed
         else if s.phase = 2 then running_max s.maximum_speed s.speed
         else s.maximum_speed) ∧
    (advance_phase s).2.minimum_speed
      = (if s.phase = 1 ∧ s.elapsed_time ≥ prime_time then s.speed
         else if s.phase = 2 then running_min s.minimum_speed s.speed
         else s.minimum_speed) := by
  unfold advance_phase running_max running_min
  dsimp only
  split_ifs <;> simp_all

/-- An iteration breaks exactly when it starts in phase 4. -/
theorem iteration_exit (s : MonitorState K) (t : Tick) :
    (monitor_iteration s t).1 = true ↔ s.phase = 4 := by
  have h := advance_phase_exit (measure_speed s t.collected t.now)
  unfold monitor_iteration
  dsimp only
  by_cases hexit : (advance_phase (measure_speed s t.collected t.now)).1 = true
  · rw [if_pos hexit]
    exact ⟨fun _ => h.mp hexit, fun _ => hexit⟩
  · rw [if_neg hexit]
    constructor
    · intro hf
      exact absurd hf (by simp)
    · intro h4
      exact absurd (h.mpr h4) hexit

/-- What an iteration leaves in the variables of the clock and of the running total. -/
theorem iteration_clock (s : MonitorState K) (t : Tick) :
    (monitor_iteration s t).2.start_time = s.start_time ∧
    (monitor_iteration s t).2.current_time = t.now ∧
    (monitor_iteration s t).2.elapsed_time = t.now - s.start_time ∧
    (monitor_iteration s t).2.total_games = s.total_games + t.collected ∧
    (monitor_iteration s t).2.speed = (measure_speed s t.collected t.now).speed ∧
    (monitor_iteration s t).2.speed_v = (measure_speed s t.collected t.now).speed_v := by
  have ha := advance_phase_frame (measure_speed s t.collected t.now)
  have hr := record_sample_frame (advance_phase (measure_speed s t.collected t.now)).2
  have hd := display_frame (record_sample (advance_phase (measure_speed s t.collected t.now)).2)
  unfold monitor_iteration
  dsimp only
  by_cases hexit : (advance_phase (measure_speed s t.collected t.now)).1 = true
  · rw [if_pos hexit]
    exact ⟨ha.2.1, ha.2.2.1, ha.2.2.2.2.2.1, ha.2.2.2.2.2.2.1, ha.2.2.2.2.2.2.2.1,
      ha.2.2.2.2.2.2.2.2.1⟩
  · rw [if_neg hexit]
    refine ⟨?_, ?_, ?_, ?_, ?_, ?_⟩
    · exact hd.2.1.trans (hr.2.1.trans ha.2.1)
    · exact hd.2.2.1.trans (hr.2.2.1.trans ha.2.2.1)
    · exact hd.2.2.2.2.1.trans (hr.2.2.2.2.1.trans ha.2.2.2.2.2.1)
    · exact hd.2.2.2.2.2.1.trans (hr.2.2.2.2.2.1.trans ha.2.2.2.2.2.2.1)
    · exact hd.2.2.2.2.2.2.1.trans (hr.2.2.2.2.2.2.1.trans ha.2.2.2.2.2.2.2.1)
    · exact hd.2.2.2.2.2.2.2.1.trans (hr.2.2.2.2.2.2.2.1.trans ha.2.2.2.2.2.2.2.2.1)

/-- The phase that an iteration leaves. -/
theorem iteration_phase (s : MonitorState K) (t : Tick) :
    (monitor_iteration s t).2.phase
      = if s.phase = 1 ∧ t.now - s.start_time ≥ prime_time then 2
        else if s.phase = 2 then
          (if t.now - s.start_time ≥ end_time then
            (if t.now - s.last_display_time > display_frequency then 4 else 3)
          else 2)
        else if s.phase = 3 then
          (if t.now - s.last_display_time > display_frequency then 4 else 3)
        else s.phase := by
  have ha := advance_phase_frame (measure_speed s t.collected t.now)
  have hp := advance_phase_phase (measure_speed s t.collected t.now)
  have hr := record_sample_frame (advance_phase (measure_speed s t.collected t.now)).2
  have hd := display_phase (record_sample (advance_phase (measure_speed s t.collected t.now)).2)
  have hph : (measure_speed s t.collected t.now).phase = s.phase := rfl
  have hel : (measure_speed s t.collected t.now).elapsed_time = t.now - s.start_time := rfl
  have hcu : (measure_speed s t.collected t.now).current_time = t.now := rfl
  have hld : (measure_speed s t.collected t.now).last_display_time = s.last_display_time := rfl
  rw [hph, hel] at hp
  rw [hr.1, hr.2.2.1, hr.2.2.2.1, ha.2.2.1, ha.2.2.2.1, hcu, hld, hp] at hd
  unfold monitor_iteration
  dsimp only
  by_cases hexit : (advance_phase (measure_speed s t.collected t.now)).1 = true
  · rw [if_pos hexit, hp]
    have h4 : s.phase = 4 := (advance_phase_exit (measure_speed s t.collected t.now)).mp hexit
    simp [h4]
  · rw [if_neg hexit, hd]
    split_ifs <;> first | rfl | omega

/-- The phase that lines 68-90 leave at an iteration is 2 exactly when the iteration leaves
phase 1 or stays in phase 2. -/
theorem transition_to_sampling (s : MonitorState K) (t : Tick) :
    (advance_phase (measure_speed s t.collected t.now)).2.phase = 2 ↔
      (s.phase = 1 ∧ prime_time ≤ t.now - s.start_time) ∨
      (s.phase = 2 ∧ t.now - s.start_time < end_time) := by
  have hp := advance_phase_phase (measure_speed s t.collected t.now)
  have hph : (measure_speed s t.collected t.now).phase = s.phase := rfl
  have hel : (measure_speed s t.collected t.now).elapsed_time = t.now - s.start_time := rfl
  rw [hph, hel] at hp
  rw [hp]
  split_ifs <;> omega

/-- The samples and the time of the last sample that an iteration leaves. -/
theorem iteration_samples (s : MonitorState K) (t : Tick) :
    (monitor_iteration s t).2.samples
      = (if (advance_phase (measure_speed s t.collected t.now)).2.phase = 2 ∧
            t.now - s.last_sample_time > sample_frequency
         then s.samples ++ [(measure_speed s t.collected t.now).speed] else s.samples) ∧
    (monitor_iteration s t).2.last_sample_time
      = (if (advance_phase (measure_speed s t.collected t.now)).2.phase = 2 ∧
            t.now - s.last_sample_time > sample_frequency
         then t.now else s.last_sample_time) := by
  have ha := advance_phase_frame (measure_speed s t.collected t.now)
  have hp := advance_phase_phase (measure_speed s t.collected t.now)
  have hd := display_frame (record_sample (advance_phase (measure_speed s t.collected t.now)).2)
  have hph : (measure_speed s t.collected t.now).phase = s.phase := rfl
  have hsa : (measure_speed s t.collected t.now).samples = s.samples := rfl
  have hcu : (measure_speed s t.collected t.now).current_time = t.now := rfl
  have hls : (measure_speed s t.collected t.now).last_sample_time = s.last_sample_time := rfl
  unfold monitor_iteration
  dsimp only
  by_cases hexit : (advance_phase (measure_speed s t.collected t.now)).1 = true
  · rw [if_pos hexit]
    have h4 : s.phase = 4 := (advance_phase_exit (measure_speed s t.collected t.now)).mp hexit
    have hne : ¬ ((advance_phase (measure_speed s t.collected t.now)).2.phase = 2 ∧
        t.now - s.last_sample_time > sample_frequency) := by
      rw [transition_to_sampling]
      omega
    rw [if_neg hne, if_neg hne]
    exact ⟨ha.1.trans hsa, ha.2.2.2.2.1.trans hls⟩
  · have hrs := record_sample_samples (advance_phase (measure_speed s t.collected t.now)).2
    rw [ha.2.2.1, ha.2.2.2.2.1, hcu, hls, ha.1, hsa, ha.2.2.2.2.2.2.2.1] at hrs
    rw [if_neg hexit, hd.1, hd.2.2.2.1]
    exact hrs

/-- The running bounds that an iteration leaves. -/
theorem iteration_bounds (s : MonitorState K) (t : Tick) :
    (monitor_iteration s t).2.maximum_speed
      = (if s.phase = 1 ∧ t.now - s.start_time ≥ prime_time then
           (measure_speed s t.collected t.now).speed
         else if s.phase = 2 then
           running_max s.maximum_speed (measure_speed s t.collected t.now).speed
         else s.maximum_speed) ∧
    (monitor_iteration s t).2.minimum_speed
      = (if s.phase = 1 ∧ t.now - s.start_time ≥ prime_time then
           (measure_speed s t.collected t.now).speed
         else if s.phase = 2 then
           running_min s.minimum_speed (measure_speed s t.collected t.now).speed
         else s.minimum_speed) := by
  have hb := advance_phase_bounds (measure_speed s t.collected t.now)
  have hr := record_sample_frame (advance_phase (measure_speed s t.collected t.now)).2
  have hd := display_frame (record_sample (advance_phase (measure_speed s t.collected t.now)).2)
  have hph : (measure_speed s t.collected t.now).phase = s.phase := rfl
  have hel : (measure_speed s t.collected t.now).elapsed_time = t.now - s.start_time := rfl
  have hmx : (measure_speed s t.collected t.now).maximum_speed = s.maximum_speed := rfl
  have hmn : (measure_speed s t.collected t.now).minimum_speed = s.minimum_speed := rfl
  rw [hph, hel, hmx, hmn] at hb
  unfold monitor_iteration
  dsimp only
  by_cases hexit : (advance_phase (measure_speed s t.collected t.now)).1 = true
  · rw [if_pos hexit]
    exact hb
  · rw [if_neg hexit]
    exact ⟨hd.2.2.2.2.2.2.2.2.1.trans (hr.2.2.2.2.2.2.2.2.1.trans hb.1),
      hd.2.2.2.2.2.2.2.2.2.trans (hr.2.2.2.2.2.2.2.2.2.trans hb.2)⟩

end Iteration

/-! ## Runs of the loop, tick after tick -/

section Runs

variable {K : Type} [LinearOrderedField K]

/-- The loop on readings followed by more readings: the later ones are looked at only when no
iteration on the earlier ones has broken. -/
theorem monitor_loop_append (s : MonitorState K) (ticks more : List Tick) :
    monitor_loop s (ticks ++ more)
      = if (monitor_loop s ticks).1 then monitor_loop s ticks
        else monitor_loop (monitor_loop s ticks).2 more := by
  induction ticks generalizing s with
  | nil => simp [monitor_loop]
  | cons t rest ih =>
    simp only [List.cons_append, monitor_loop]
    by_cases hexit : (monitor_iteration s t).1 = true
    · simp [hexit]
    · simp only [hexit]
      exact ih _

/-- The loop on one reading is one iteration. -/
theorem monitor_loop_single (s : MonitorState K) (t : Tick) :
    monitor_loop s [t] = monitor_iteration s t := by
  simp only [monitor_loop]
  split_ifs with h
  · rfl
  · have hf : (monitor_iteration s t).1 = false := by simpa using h
    exact Prod.ext hf.symm rfl

/-- A run that has left the loop is in phase 4. -/
theorem exited_in_phase_four (s : MonitorState K) (ticks : List Tick)
    (h : (monitor_loop s ticks).1 = true) : (monitor_loop s ticks).2.phase = 4 := by
  induction ticks generalizing s with
  | nil => simp [monitor_loop] at h
  | cons t rest ih =>
    simp only [monitor_loop] at h ⊢
    by_cases hexit : (monitor_iteration s t).1 = true
    · simp only [hexit, if_true]
      have h4 := (iteration_exit s t).mp hexit
      rw [iteration_phase]
      simp [h4]
    · simp only [hexit] at h ⊢
      exact ih _ h

/-- An iteration that starts in phase 4 breaks and leaves the phase, the samples, the time of
the last sample and the running bounds as they are. -/
theorem iteration_in_phase_four (s : MonitorState K) (t : Tick) (h4 : s.phase = 4) :
    (monitor_iteration s t).2.phase = s.phase ∧
    (monitor_iteration s t).2.samples = s.samples ∧
    (monitor_iteration s t).2.last_sample_time = s.last_sample_time ∧
    (monitor_iteration s t).2.maximum_speed = s.maximum_speed ∧
    (monitor_iteration s t).2.minimum_speed = s.minimum_speed ∧
    (monitor_iteration s t).2.start_time = s.start_time := by
  have hne : ¬ ((advance_phase (measure_speed s t.collected t.now)).2.phase = 2 ∧
      t.now - s.last_sample_time > sample_frequency) := by
    rw [transition_to_sampling]
    omega
  have h1 : ¬ (s.phase = 1 ∧ t.now - s.start_time ≥ prime_time) := by omega
  have h2 : ¬ s.phase = 2 := by omega
  have h3 : ¬ s.phase = 3 := by omega
  refine ⟨?_, ?_, ?_, ?_, ?_, (iteration_clock s t).1⟩
  · rw [iteration_phase, if_neg h1, if_neg h2, if_neg h3]
  · rw [(iteration_samples s t).1, if_neg hne]
  · rw [(iteration_samples s t).2, if_neg hne]
  · rw [(iteration_bounds s t).1, if_neg h1, if_neg h2]
  · rw [(iteration_bounds s t).2, if_neg h1, if_neg h2]

/-- The state after one more reading is the state that one more iteration leaves, as far as
the phase, the samples, the time of the last sample, the running bounds and the start time
go: these are not written by an iteration that breaks. -/
theorem state_after_snoc (start_time current_time : Int) (ticks : List Tick) (t : Tick) :
    (state_after start_time current_time (ticks ++ [t]) : MonitorState K).phase
      = (monitor_iteration (state_after start_time current_time ticks : MonitorState K)
          t).2.phase ∧
    (state_after start_time current_time (ticks ++ [t]) : MonitorState K).samples
      = (monitor_iteration (state_after start_time current_time ticks : MonitorState K)
          t).2.samples ∧
    (state_after start_time current_time (ticks ++ [t]) : MonitorState K).last_sample_time
      = (monitor_iteration (state_after start_time current_time ticks : MonitorState K)
          t).2.last_sample_time ∧
    (state_after start_time current_time (ticks ++ [t]) : MonitorState K).maximum_speed
      = (monitor_iteration (state_after start_time current_time ticks : MonitorState K)
          t).2.maximum_speed ∧
    (state_after start_time current_time (ticks ++ [t]) : MonitorState K).minimum_speed
      = (monitor_iteration (state_after start_time current_time ticks : MonitorState K)
          t).2.minimum_speed ∧
    (state_after start_time current_time (ticks ++ [t]) : MonitorState K).start_time
      = (monitor_iteration (state_after start_time current_time ticks : MonitorState K)
          t).2.start_time := by
  unfold state_after
  rw [monitor_loop_append]
  by_cases hexit : (monitor_loop (initial_state start_time current_time : MonitorState K)
      ticks).1 = true
  · rw [if_pos hexit]
    have h4 := exited_in_phase_four _ _ hexit
    obtain ⟨h1, h2, h3, h5, h6, h7⟩ := iteration_in_phase_four _ t h4
    exact ⟨h1.symm, h2.symm, h3.symm, h5.symm, h6.symm, h7.symm⟩
  · rw [if_neg hexit, monitor_loop_single]
    exact ⟨rfl, rfl, rfl, rfl, rfl, rfl⟩

/-- An iteration never lowers the phase, and keeps it among 1, 2, 3 and 4. -/
theorem iteration_phase_forward (s : MonitorState K) (t : Tick) :
    s.phase ≤ (monitor_iteration s t).2.phase ∧
    ((s.phase = 1 ∨ s.phase = 2 ∨ s.phase = 3 ∨ s.phase = 4) →
      ((monitor_iteration s t).2.phase = 1 ∨ (monitor_iteration s t).2.phase = 2 ∨
       (monitor_iteration s t).2.phase = 3 ∨ (monitor_iteration s t).2.phase = 4)) := by
  rw [iteration_phase]
  split_ifs <;> omega

/-- The loop never lowers the phase, and keeps it among 1, 2, 3 and 4. -/
theorem loop_phase_forward (s : MonitorState K) (ticks : List Tick) :
    s.phase ≤ (monitor_loop s ticks).2.phase ∧
    ((s.phase = 1 ∨ s.phase = 2 ∨ s.phase = 3 ∨ s.phase = 4) →
      ((monitor_loop s ticks).2.phase = 1 ∨ (monitor_loop s ticks).2.phase = 2 ∨
       (monitor_loop s ticks).2.phase = 3 ∨ (monitor_loop s ticks).2.phase = 4)) := by
  induction ticks generalizing s with
  | nil => exact ⟨le_refl _, fun h => h⟩
  | cons t rest ih =>
    obtain ⟨h1, h2⟩ := iteration_phase_forward s t
    simp only [monitor_loop]
    by_cases hexit : (monitor_iteration s t).1 = true
    · simp only [hexit, if_true]
      exact ⟨h1, h2⟩
    · simp only [hexit]
      obtain ⟨h3, h4⟩ := ih (monitor_iteration s t).2
      exact ⟨le_trans h1 h3, fun h => h4 (h2 h)⟩

/-- The start time is never written. -/
theorem loop_start_time (s : MonitorState K) (ticks : List Tick) :
    (monitor_loop s ticks).2.start_time = s.start_time := by
  induction ticks generalizing s with
  | nil => rfl
  | cons t rest ih =>
    simp only [monitor_loop]
    by_cases hexit : (monitor_iteration s t).1 = true
    · simp only [hexit, if_true]
      exact (iteration_clock s t).1
    · rw [if_neg hexit, ih]
      exact (iteration_clock s t).1

/-- C11: the phase starts at 1 (Priming); after any readings it is one of 1, 2, 3 and 4; and
whatever the timestamps and the collected counts, the phase after one more tick, and after any
number of further ticks, is not lower than the phase before. -/
theorem phase_only_moves_forward (start_time current_time : Int) (ticks : List Tick)
    (t : Tick) (more : List Tick) :
    (state_after start_time current_time [] : MonitorState K).phase = 1 ∧
    ((state_after start_time current_time ticks : MonitorState K).phase = 1 ∨
     (state_after start_time current_time ticks : MonitorState K).phase = 2 ∨
     (state_after start_time current_time ticks : MonitorState K).phase = 3 ∨
     (state_after start_time current_time ticks : MonitorState K).phase = 4) ∧
    (state_after start_time current_time ticks : MonitorState K).phase
      ≤ (state_after start_time current_time (ticks ++ [t]) : MonitorState K).phase ∧
    (state_after start_time current_time ticks : MonitorState K).phase
      ≤ (state_after start_time current_time (ticks ++ more) : MonitorState K).phase := by
  have hstep : ∀ extra : List Tick,
      (state_after start_time current_time ticks : MonitorState K).phase
        ≤ (state_after start_time current_time (ticks ++ extra) : MonitorState K).phase := by
    intro extra
    unfold state_after
    rw [monitor_loop_append]
    split_ifs
    · exact le_refl _
    · exact (loop_phase_forward _ extra).1
  refine ⟨rfl, ?_, hstep [t], hstep more⟩
  exact (loop_phase_forward (initial_state start_time current_time : MonitorState K) ticks).2
    (Or.inl rfl)

/-- While every reading comes before the priming time has elapsed, the loop stays in phase 1
without a sample and without breaking. -/
theorem loop_while_priming (s : MonitorState K) (ticks : List Tick) (hphase : s.phase = 1)
    (hsamples : s.samples = [])
    (hearly : ∀ u ∈ ticks, u.now - s.start_time < prime_time) :
    (monitor_loop s ticks).1 = false ∧ (monitor_loop s ticks).2.phase = 1 ∧
    (monitor_loop s ticks).2.samples = [] := by
  induction ticks generalizing s with
  | nil => exact ⟨rfl, hphase, hsamples⟩
  | cons t rest ih =>
    have ht := hearly t (List.mem_cons_self _ _)
    have hne : ¬ (monitor_iteration s t).1 = true := by
      rw [iteration_exit]
      omega
    have hp : (monitor_iteration s t).2.phase = 1 := by
      rw [iteration_phase]
      have : ¬ (s.phase = 1 ∧ t.now - s.start_time ≥ prime_time) := by omega
      rw [if_neg this, if_neg (by omega), if_neg (by omega)]
      exact hphase
    have hs : (monitor_iteration s t).2.samples = [] := by
      rw [(iteration_samples s t).1]
      have : ¬ ((advance_phase (measure_speed s t.collected t.now)).2.phase = 2 ∧
          t.now - s.last_sample_time > sample_frequency) := by
        rw [transition_to_sampling]
        omega
      rw [if_neg this]
      exact hsamples
    simp only [monitor_loop, hne]
    apply ih _ hp hs
    intro u hu
    rw [(iteration_clock s t).1]
    exact hearly u (List.mem_cons_of_mem _ hu)

/-- C12: on readings whose timestamps never decrease, after every tick that comes before
`prime_time` (10 s) has elapsed the phase is still 1 (Priming) and no sample has been recorded,
and the first tick at which `prime_time` has elapsed leaves the loop in phase 2. -/
theorem priming_lasts_until_prime_time (start_time current_time : Int) (ticks : List Tick)
    (t : Tick) (hsorted : ((ticks ++ [t]).map Tick.now).Pairwise (fun a b => a ≤ b)) :
    (t.now - start_time < prime_time →
      (state_after start_time current_time (ticks ++ [t]) : MonitorState K).phase = 1 ∧
      (state_after start_time current_time (ticks ++ [t]) : MonitorState K).samples = []) ∧
    ((∀ u ∈ ticks, u.now - start_time < prime_time) → prime_time ≤ t.now - start_time →
      (state_after start_time current_time ticks : MonitorState K).phase = 1 ∧
      (state_after start_time current_time (ticks ++ [t]) : MonitorState K).phase = 2) ∧
    prime_time = 10 * ns := by
  refine ⟨?_, ?_, by decide⟩
  · intro ht
    have hall : ∀ u ∈ ticks ++ [t],
        u.now - (initial_state start_time current_time : MonitorState K).start_time
          < prime_time := by
      intro u hu
      rcases List.mem_append.mp hu with hu | hu
      · rw [List.map_append, List.pairwise_append] at hsorted
        have := hsorted.2.2 u.now (List.mem_map_of_mem _ hu) t.now (by simp)
        show u.now - start_time < prime_time
        omega
      · rw [List.mem_singleton] at hu
        rw [hu]
        exact ht
    obtain ⟨_, h2, h3⟩ := loop_while_priming _ (ticks ++ [t]) rfl rfl hall
    exact ⟨h2, h3⟩
  · intro hearly ht
    obtain ⟨_, h2, _⟩ :=
      loop_while_priming (initial_state start_time current_time : MonitorState K) ticks rfl rfl
        hearly
    have hstart :
        (state_after start_time current_time ticks : MonitorState K).start_time = start_time :=
      loop_start_time _ ticks
    refine ⟨h2, ?_⟩
    rw [(state_after_snoc start_time current_time ticks t).1, iteration_phase, hstart]
    have h2' : (state_after start_time current_time ticks : MonitorState K).phase = 1 := h2
    rw [if_pos ⟨h2', ht⟩]

end Runs

/-- C12 on two runs from clock 0: after ticks at 5 s and 9 s the phase is 1 and no sample
is recorded; after ticks at 5 s and 10 s the phase is 2. -/
theorem priming_lasts_until_prime_time_witness :
    ((state_after 0 0 ([⟨3, 5000000000⟩] ++ [⟨2, 9000000000⟩]) : MonitorState ℚ).phase = 1 ∧
     (state_after 0 0 ([⟨3, 5000000000⟩] ++ [⟨2, 9000000000⟩]) : MonitorState ℚ).samples
       = []) ∧
    ((state_after 0 0 [⟨3, 5000000000⟩] : MonitorState ℚ).phase = 1 ∧
     (state_after 0 0 ([⟨3, 5000000000⟩] ++ [⟨2, 10000000000⟩]) : MonitorState ℚ).phase = 2) :=
  ⟨(priming_lasts_until_prime_time 0 0 [⟨3, 5000000000⟩] ⟨2, 9000000000⟩ (by decide)).1
      (by decide),
   (priming_lasts_until_prime_time 0 0 [⟨3, 5000000000⟩] ⟨2, 10000000000⟩ (by decide)).2.1
      (by decide) (by decide)⟩

/-! ## The phase and the clock -/

section Clock

variable {K : Type} [LinearOrderedField K]

/-- An iteration keeps the relation between phase and clock, provided the clock has not gone
back since the previous iteration once phase 1 is over. -/
theorem iteration_phase_clock (s : MonitorState K) (t : Tick) (hinv : PhaseClock s)
    (hclock : s.phase ≠ 1 → s.current_time ≤ t.now) :
    PhaseClock (monitor_iteration s t).2 := by
  obtain ⟨hstart, hcur, -, -, -, -⟩ := iteration_clock s t
  have hp := iteration_phase s t
  have e1 : prime_time = 10000000000 := rfl
  have e2 : end_time = 70000000000 := rfl
  unfold PhaseClock at hinv ⊢
  rw [hstart, hcur, hp]
  split_ifs <;> omega

/-- The loop keeps the relation between phase and clock on readings whose timestamps never
decrease, and once phase 1 is over its clock is not later than any bound of the readings. -/
theorem loop_phase_clock (ticks : List Tick) (s : MonitorState K) (bound : Int)
    (hinv : PhaseClock s)
    (hclock : s.phase ≠ 1 → ∀ u ∈ ticks, s.current_time ≤ u.now)
    (hbound : s.phase ≠ 1 → s.current_time ≤ bound)
    (hticks : ∀ u ∈ ticks, u.now ≤ bound)
    (hsorted : (ticks.map Tick.now).Pairwise (fun a b => a ≤ b)) :
    PhaseClock (monitor_loop s ticks).2 ∧
    ((monitor_loop s ticks).2.phase ≠ 1 → (monitor_loop s ticks).2.current_time ≤ bound) := by
  induction ticks generalizing s with
  | nil => exact ⟨hinv, hbound⟩
  | cons t rest ih =>
    have hi := iteration_phase_clock s t hinv (fun hp => hclock hp t (List.mem_cons_self _ _))
    have hnow := (iteration_clock s t).2.1
    simp only [monitor_loop]
    by_cases hexit : (monitor_iteration s t).1 = true
    · rw [if_pos hexit]
      refine ⟨hi, fun _ => ?_⟩
      rw [hnow]
      exact hticks t (List.mem_cons_self _ _)
    · rw [if_neg hexit]
      rw [List.map_cons, List.pairwise_cons] at hsorted
      apply ih _ hi
      · intro _ u hu
        rw [hnow]
        exact hsorted.1 u.now (List.mem_map_of_mem _ hu)
      · intro _
        rw [hnow]
        exact hticks t (List.mem_cons_self _ _)
      · exact fun u hu => hticks u (List.mem_cons_of_mem _ hu)
      · exact hsorted.2

/-- After readings whose timestamps never decrease, up to a tick `t` that follows them: the
phase and the clock are related, the clock is not later than `t` once phase 1 is over, and
the start time is the one the run began with. -/
theorem state_after_phase_clock (start_time current_time : Int) (ticks : List Tick) (t : Tick)
    (hsorted : ((ticks ++ [t]).map Tick.now).Pairwise (fun a b => a ≤ b)) :
    PhaseClock (state_after start_time current_time ticks : MonitorState K) ∧
    ((state_after start_time current_time ticks : MonitorState K).phase ≠ 1 →
      (state_after start_time current_time ticks : MonitorState K).current_time ≤ t.now) ∧
    (state_after start_time current_time ticks : MonitorState K).start_time = start_time := by
  rw [List.map_append, List.pairwise_append] at hsorted
  have h := loop_phase_clock ticks (initial_state start_time current_time : MonitorState K)
    t.now (Or.inl rfl) (fun h => absurd rfl h) (fun h => absurd rfl h)
    (fun u hu => hsorted.2.2 u.now (List.mem_map_of_mem _ hu) t.now (by simp)) hsorted.1
  exact ⟨h.1, h.2, loop_start_time _ ticks⟩

/-- C13, as stated, fails: a first tick 70 s after the start leaves Priming for Sampling and
records a sample, although `prime_time + sample_time` has elapsed. -/
theorem sampling_entered_after_the_window :
    (state_after 0 0 [⟨0, 70000000000⟩] : MonitorState ℚ).phase = 2 ∧
    (state_after 0 0 [⟨0, 70000000000⟩] : MonitorState ℚ).samples.length = 1 ∧
    ¬ ((state_after 0 0 [⟨0, 70000000000⟩] : MonitorState ℚ).phase = 2 ↔
        prime_time ≤ 70000000000 - 0 ∧ 70000000000 - 0 < prime_time + sample_time) := by
  with_unfolding_all decide

/-- C13, amended: on readings whose timestamps never decrease, the phase after a tick is 2
(Sampling) if and only if `prime_time` has elapsed and either `prime_time + sample_time` has
not, or the tick is the one that leaves phase 1; and a tick at which
`prime_time + sample_time` has elapsed and that does not start in phase 1 neither ends in
phase 2 nor records a sample. -/
theorem sampling_phase_by_elapsed_time (start_time current_time : Int) (ticks : List Tick)
    (t : Tick) (hsorted : ((ticks ++ [t]).map Tick.now).Pairwise (fun a b => a ≤ b)) :
    ((state_after start_time current_time (ticks ++ [t]) : MonitorState K).phase = 2 ↔
      prime_time ≤ t.now - start_time ∧
      (t.now - start_time < prime_time + sample_time ∨
        (state_after start_time current_time ticks : MonitorState K).phase = 1)) ∧
    (prime_time + sample_time ≤ t.now - start_time →
      (state_after start_time current_time ticks : MonitorState K).phase ≠ 1 →
      (state_after start_time current_time (ticks ++ [t]) : MonitorState K).phase ≠ 2 ∧
      (state_after start_time current_time (ticks ++ [t]) : MonitorState K).samples
        = (state_after start_time current_time ticks : MonitorState K).samples) ∧
    (prime_time = 10 * ns ∧ prime_time + sample_time = 70 * ns) := by
  obtain ⟨hinv, hclock, hstart⟩ :=
    @state_after_phase_clock K _ start_time current_time ticks t hsorted
  obtain ⟨hphase, hsamples, -, -, -, -⟩ :=
    @state_after_snoc K _ start_time current_time ticks t
  rw [hphase, hsamples]
  generalize (state_after start_time current_time ticks : MonitorState K) = s
    at hinv hclock hstart ⊢
  have e1 : prime_time = 10000000000 := rfl
  have e2 : end_time = 70000000000 := rfl
  have e3 : sample_time = 60000000000 := rfl
  unfold PhaseClock at hinv
  refine ⟨?_, ?_, by decide⟩
  · rw [iteration_phase, hstart]
    split_ifs <;> omega
  · intro hlate hnot1
    refine ⟨?_, ?_⟩
    · rw [iteration_phase, hstart]
      split_ifs <;> omega
    · rw [(iteration_samples s t).1]
      have hne : ¬ ((advance_phase (measure_speed s t.collected t.now)).2.phase = 2 ∧
          t.now - s.last_sample_time > sample_frequency) := by
        rw [transition_to_sampling, hstart]
        omega
      rw [if_neg hne]

/-- The amended C13 on a run from clock 0 with ticks at 10 s, 30 s and 70 s: the tick at 30 s
ends in phase 2, and the tick at 70 s records no sample. -/
theorem sampling_phase_by_elapsed_time_witness :
    (state_after 0 0 ([⟨1, 10000000000⟩] ++ [⟨1, 30000000000⟩]) : MonitorState ℚ).phase = 2 ∧
    (state_after 0 0 ([⟨1, 10000000000⟩, ⟨1, 30000000000⟩] ++ [⟨1, 70000000000⟩]) :
        MonitorState ℚ).samples
      = (state_after 0 0 [⟨1, 10000000000⟩, ⟨1, 30000000000⟩] : MonitorState ℚ).samples :=
  ⟨(sampling_phase_by_elapsed_time 0 0 [⟨1, 10000000000⟩] ⟨1, 30000000000⟩
      (by decide)).1.mpr ⟨by decide, Or.inl (by decide)⟩,
   ((sampling_phase_by_elapsed_time 0 0 [⟨1, 10000000000⟩, ⟨1, 30000000000⟩]
      ⟨1, 70000000000⟩ (by decide)).2.1 (by decide) (by with_unfolding_all decide)).2⟩

/-- C14, as stated, fails: on ticks at 10 s, 69.99 s, 70 s and 70.001 s from clock 0 the phase
is 3 (Finalizing) after the third tick and still 3 after the fourth, because less than
`display_frequency` has passed since the last progress line. -/
theorem finalizing_lasts_two_ticks :
    (state_after 0 0 [⟨0, 10000000000⟩, ⟨0, 69990000000⟩, ⟨0, 70000000000⟩] :
        MonitorState ℚ).phase = 3 ∧
    (state_after 0 0
        [⟨0, 10000000000⟩, ⟨0, 69990000000⟩, ⟨0, 70000000000⟩, ⟨0, 70001000000⟩] :
        MonitorState ℚ).phase = 3 := by
  with_unfolding_all decide

/-- C14, amended: if the phase after a tick is 3 (Finalizing), then the phase after the next
tick is 4 (Done) when more than `display_frequency` has passed since the last progress line,
and is still 3 otherwise. -/
theorem finalizing_until_next_display (start_time current_time : Int) (ticks : List Tick)
    (t : Tick)
    (hfinalizing : (state_after start_time current_time ticks : MonitorState K).phase = 3) :
    (state_after start_time current_time (ticks ++ [t]) : MonitorState K).phase
      = (if t.now
            - (state_after start_time current_time ticks : MonitorState K).last_display_time
            > display_frequency
         then 4 else 3) ∧
    display_frequency = 66666666 := by
  refine ⟨?_, by decide⟩
  rw [(state_after_snoc start_time current_time ticks t).1, iteration_phase]
  have h1 : ¬ ((state_after start_time current_time ticks : MonitorState K).phase = 1 ∧
      t.now - (state_after start_time current_time ticks : MonitorState K).start_time
        ≥ prime_time) := by
    rw [hfinalizing]
    omega
  have h2 : ¬ (state_after start_time current_time ticks : MonitorState K).phase = 2 := by
    rw [hfinalizing]
    decide
  rw [if_neg h1, if_neg h2, if_pos hfinalizing]

/-- The amended C14 on ticks at 10 s, 69.99 s and 70 s from clock 0, followed by a tick at
70.1 s. -/
theorem finalizing_until_next_display_witness :
    (state_after 0 0
        ([⟨0, 10000000000⟩, ⟨0, 69990000000⟩, ⟨0, 70000000000⟩] ++ [⟨0, 70100000000⟩]) :
        MonitorState ℚ).phase
      = (if (70100000000 : Int)
            - (state_after 0 0 [⟨0, 10000000000⟩, ⟨0, 69990000000⟩, ⟨0, 70000000000⟩] :
                MonitorState ℚ).last_display_time
            > display_frequency
         then 4 else 3) :=
  (finalizing_until_next_display 0 0
    [⟨0, 10000000000⟩, ⟨0, 69990000000⟩, ⟨0, 70000000000⟩] ⟨0, 70100000000⟩
    (by with_unfolding_all decide)).1

/-- C16: at every iteration, from any values of the variables, the samples after it are the
samples before it, followed by the speed of the iteration exactly when the phase after the
transitions of the iteration is 2 (Sampling) and more than `sample_frequency` (5,000,000 ns)
has passed since the last sample; the time of the last sample becomes the timestamp of the
iteration in that case and is unchanged otherwise. So the earlier samples are a prefix of the
later ones, and at most one is added. -/
theorem samples_are_append_only (s : MonitorState K) (t : Tick) :
    (monitor_iteration s t).2.samples
      = (if (advance_phase (measure_speed s t.collected t.now)).2.phase = 2 ∧
            t.now - s.last_sample_time > sample_frequency
         then s.samples ++ [(advance_phase (measure_speed s t.collected t.now)).2.speed]
         else s.samples) ∧
    (monitor_iteration s t).2.last_sample_time
      = (if (advance_phase (measure_speed s t.collected t.now)).2.phase = 2 ∧
            t.now - s.last_sample_time > sample_frequency
         then t.now else s.last_sample_time) ∧
    (advance_phase (measure_speed s t.collected t.now)).2.speed
      = F64.div (F64.fin 1)
          (F64.div (F64.ofInt (t.now - s.start_time))
            (F64.ofInt (s.total_games + t.collected))) ∧
    s.samples <+: (monitor_iteration s t).2.samples ∧
    (monitor_iteration s t).2.samples.length ≤ s.samples.length + 1 ∧
    sample_frequency = 5000000 := by
  have hs := iteration_samples s t
  have hspeed := (advance_phase_frame (measure_speed s t.collected t.now)).2.2.2.2.2.2.2.1
  rw [hspeed]
  refine ⟨hs.1, hs.2, rfl, ?_, ?_, by decide⟩
  · rw [hs.1]
    split_ifs
    · exact List.prefix_append _ _
    · exact List.prefix_refl _
  · rw [hs.1]
    split_ifs
    · simp
    · omega

end Clock

/-! ## The number of samples -/

section SampleCount

variable {K : Type} [LinearOrderedField K]

/-- An iteration keeps the spacing of the samples, provided the clock has not gone back since
the previous iteration once phase 1 is over. -/
theorem iteration_sample_spacing (s : MonitorState K) (t : Tick) (hinv : SampleSpacing s)
    (hclock : s.phase ≠ 1 → s.current_time ≤ t.now) :
    SampleSpacing (monitor_iteration s t).2 := by
  obtain ⟨hstart, hcur, -, -, -, -⟩ := iteration_clock s t
  obtain ⟨hsamples, hlast⟩ := iteration_samples s t
  have hp := iteration_phase s t
  have htr := transition_to_sampling s t
  have e1 : prime_time = 10000000000 := rfl
  have e2 : end_time = 70000000000 := rfl
  have e3 : sample_frequency = 5000000 := rfl
  obtain ⟨hlen, hone, htwo⟩ := hinv
  have hone' : s.phase = 1 → s.samples.length = 0 := fun h => by rw [hone h]; rfl
  have htwo' : s.phase = 2 → prime_time ≤ s.current_time - s.start_time ∧
      (s.samples.length = 0 ∨
        prime_time + ((s.samples.length : Int) - 1) * 5000001
          ≤ s.last_sample_time - s.start_time) := by
    intro h
    obtain ⟨h1, h2⟩ := htwo h
    refine ⟨h1, ?_⟩
    rcases h2 with h2 | h2
    · left; rw [h2]; rfl
    · right; exact h2
  unfold SampleSpacing
  rw [hstart, hcur, hsamples, hlast, hp]
  by_cases hdue : (advance_phase (measure_speed s t.collected t.now)).2.phase = 2 ∧
      t.now - s.last_sample_time > sample_frequency
  · rw [if_pos hdue, if_pos hdue]
    have hwhich := htr.mp hdue.1
    have hgap := hdue.2
    simp only [List.length_append, List.length_singleton, List.append_eq_nil, List.cons_ne_self,
      and_false, false_or, Nat.cast_add, Nat.cast_one]
    refine ⟨?_, ?_, ?_⟩
    · rcases hwhich with h | h
      · have := hone' h.1
        omega
      · have := htwo' h.1
        omega
    · intro h1
      split_ifs at h1 <;> omega
    · intro _
      rcases hwhich with h | h
      · have := hone' h.1
        exact ⟨by omega, by omega⟩
      · have := htwo' h.1
        have := hclock (by omega)
        exact ⟨by omega, by omega⟩
  · rw [if_neg hdue, if_neg hdue]
    refine ⟨hlen, ?_, ?_⟩
    · intro h1
      split_ifs at h1 <;> first | omega | exact hone (by omega)
    · intro h2
      have hw : (s.phase = 1 ∧ t.now - s.start_time ≥ prime_time) ∨
          (s.phase = 2 ∧ t.now - s.start_time < end_time) := by
        split_ifs at h2 <;> omega
      rcases hw with h | h
      · exact ⟨h.2, Or.inl (hone h.1)⟩
      · have h3 := htwo h.1
        have h4 := hclock (by omega)
        exact ⟨by omega, h3.2⟩

/-- The loop keeps the spacing of the samples on readings whose timestamps never decrease. -/
theorem loop_sample_spacing (ticks : List Tick) (s : MonitorState K) (hinv : SampleSpacing s)
    (hclock : s.phase ≠ 1 → ∀ u ∈ ticks, s.current_time ≤ u.now)
    (hsorted : (ticks.map Tick.now).Pairwise (fun a b => a ≤ b)) :
    SampleSpacing (monitor_loop s ticks).2 := by
  induction ticks generalizing s with
  | nil => exact hinv
  | cons t rest ih =>
    have hi := iteration_sample_spacing s t hinv
      (fun hp => hclock hp t (List.mem_cons_self _ _))
    have hnow := (iteration_clock s t).2.1
    simp only [monitor_loop]
    by_cases hexit : (monitor_iteration s t).1 = true
    · rw [if_pos hexit]
      exact hi
    · rw [if_neg hexit]
      rw [List.map_cons, List.pairwise_cons] at hsorted
      apply ih _ hi _ hsorted.2
      intro _ u hu
      rw [hnow]
      exact hsorted.1 u.now (List.mem_map_of_mem _ hu)

/-- C20: on readings whose timestamps never decrease, the number of recorded samples never
exceeds `sample_size = sample_time / sample_frequency = 12000`, the capacity the sample buffer
is made with. -/
theorem samples_fit_the_buffer (start_time current_time : Int) (ticks : List Tick)
    (hsorted : (ticks.map Tick.now).Pairwise (fun a b => a ≤ b)) :
    ((state_after start_time current_time ticks : MonitorState K).samples.length : Int)
      ≤ sample_size ∧
    sample_size = Int.tdiv sample_time sample_frequency ∧ sample_size = 12000 := by
  have h := loop_sample_spacing ticks (initial_state start_time current_time : MonitorState K)
    ⟨by simp [initial_state], fun _ => rfl, fun h => by simp [initial_state] at h⟩
    (fun h => absurd rfl h) hsorted
  have e : sample_size = 12000 := by decide
  refine ⟨?_, rfl, e⟩
  rw [e]
  have := h.1
  unfold state_after
  omega

end SampleCount

/-- C20 on a run from clock 0 with ticks at 10 s, 10.004 s and 10.006 s, which records two
samples. -/
theorem samples_fit_the_buffer_witness :
    ((state_after 0 0 [⟨1, 10000000000⟩, ⟨1, 10004000000⟩, ⟨1, 10006000000⟩] :
        MonitorState ℚ).samples.length : Int) ≤ sample_size :=
  (samples_fit_the_buffer 0 0 [⟨1, 10000000000⟩, ⟨1, 10004000000⟩, ⟨1, 10006000000⟩]
    (by decide)).1

/-! ## The running total -/

/-- While the loop has not broken, `total_games` is its first value plus what the iterations
collected. -/
theorem loop_total_games {K : Type} [LinearOrderedField K] (s : MonitorState K)
    (ticks : List Tick) (h : (monitor_loop s ticks).1 = false) :
    (monitor_loop s ticks).2.total_games = s.total_games + (ticks.map Tick.collected).sum := by
  induction ticks generalizing s with
  | nil => simp [monitor_loop]
  | cons t rest ih =>
    simp only [monitor_loop] at h ⊢
    by_cases hexit : (monitor_iteration s t).1 = true
    · rw [if_pos hexit] at h
      rw [hexit] at h
      exact absurd h (by decide)
    · rw [if_neg hexit] at h ⊢
      rw [ih _ h, (iteration_clock s t).2.2.2.1, List.map_cons, List.sum_cons]
      ring

/-- C17 does not hold of the code: `total_games` is 1 before any reading, and after readings
that collected 1, 0 and 2 units it is 4, one more than the 3 units collected; the speed of
the last iteration, 30 s after the start, is 4 games per 30 s. -/
theorem total_games_counts_one_more :
    (state_after 0 0 [] : MonitorState ℚ).total_games = 1 ∧
    (state_after 0 0 [⟨1, 10000000000⟩, ⟨0, 20000000000⟩, ⟨2, 30000000000⟩] :
        MonitorState ℚ).total_games = 4 ∧
    (([⟨1, 10000000000⟩, ⟨0, 20000000000⟩, ⟨2, 30000000000⟩] : List Tick).map
        Tick.collected).sum = 3 ∧
    (state_after 0 0 [⟨1, 10000000000⟩, ⟨0, 20000000000⟩, ⟨2, 30000000000⟩] :
        MonitorState ℚ).speed = F64.fin (4 / 30000000000) := by
  refine ⟨rfl, by with_unfolding_all decide, by decide, ?_⟩
  norm_num [state_after, monitor_loop, monitor_iteration, measure_speed, advance_phase,
    record_sample, display, initial_state, prime_time, end_time, sample_time, sample_frequency,
    display_frequency, ns, Int.tdiv, F64.ofInt_eq, F64.div_fin_fin, F64.lt_fin_fin]

/-! ## Sums without rounding -/

section Order

variable {K : Type} [LinearOrderedField K]

/-- When no sum is rounded, two terms added to a value can be added in either order. -/
theorem F64.add_add_swap (a b c : F64 K) :
    F64.add (F64.add a b) c = F64.add (F64.add a c) b := by
  cases a <;> cases b <;> cases c <;> simp [F64.add, add_right_comm]

end Order

/-! ## The confidence interval inside the one-sigma band -/

/-- The list that the scoring returns, test by test. -/
theorem scoring_by_tests {K : Type} [LinearOrderedField K] (sqrt : K → K)
    (mean stdev : F64 K) (n : Nat) (speed_v : F64 K) :
    scoring sqrt mean stdev n speed_v
      = (if F64.lt (get_coefficient_of_variation mean stdev) (F64.fin one_percent)
          then ["1%cov"] else [])
        ++ (if F64.lt (one_sigma_lower mean stdev) speed_v &&
              F64.lt speed_v (one_sigma_upper mean stdev) then ["1σ"] else [])
        ++ (if F64.lt (ci_lower sqrt mean stdev n) speed_v &&
              F64.lt speed_v (ci_upper sqrt mean stdev n) then ["99.9%CI"] else []) := by
  simp only [scoring, award_points]
  split_ifs <;> rfl

/-- C19: for a finite mean, a finite standard deviation `>= 0`, at least 11 samples and any
final speed, a speed strictly inside the confidence interval is strictly inside the one-sigma
band, because `3.291 / sqrt n < 1`; so the scoring never awards `99.9%CI` without `1σ`. -/
theorem confidence_interval_within_one_sigma (mean stdev : ℝ) (n : Nat) (speed_v : F64 ℝ)
    (hstdev : 0 ≤ stdev) (hn : 11 ≤ n) :
    (F64.lt (ci_lower Real.sqrt (F64.fin mean) (F64.fin stdev) n) speed_v = true ∧
      F64.lt speed_v (ci_upper Real.sqrt (F64.fin mean) (F64.fin stdev) n) = true →
     F64.lt (one_sigma_lower (F64.fin mean) (F64.fin stdev)) speed_v = true ∧
      F64.lt speed_v (one_sigma_upper (F64.fin mean) (F64.fin stdev)) = true) ∧
    3.291 / Real.sqrt n < 1 ∧
    ("99.9%CI" ∈ scoring Real.sqrt (F64.fin mean) (F64.fin stdev) n speed_v →
      "1σ" ∈ scoring Real.sqrt (F64.fin mean) (F64.fin stdev) n speed_v) := by
  have hroot : (3.291 : ℝ) < Real.sqrt n := by
    rw [Real.lt_sqrt (by norm_num)]
    have : (11 : ℝ) ≤ (n : ℝ) := by exact_mod_cast hn
    norm_num
    linarith
  have hpos : (0 : ℝ) < Real.sqrt n := by linarith
  have hratio : 3.291 / Real.sqrt n < 1 := by
    rw [div_lt_one hpos]
    exact hroot
  have hhalf : 3.291 * (stdev / Real.sqrt n) ≤ stdev := by
    have : 3.291 * (stdev / Real.sqrt n) = stdev * (3.291 / Real.sqrt n) := by ring
    rw [this]
    calc stdev * (3.291 / Real.sqrt n) ≤ stdev * 1 :=
          mul_le_mul_of_nonneg_left (le_of_lt hratio) hstdev
      _ = stdev := mul_one _
  obtain ⟨hlow, hup⟩ := ci_bounds_fin mean stdev n (by omega)
  have hsl : one_sigma_lower (F64.fin mean) (F64.fin stdev)
      = F64.fin ((mean - stdev) * 1000000) := by
    rw [one_sigma_lower, F64.sub_fin_fin, F64.ofInt_eq, F64.mul_fin_fin]
    simp [ms]
  have hsu : one_sigma_upper (F64.fin mean) (F64.fin stdev)
      = F64.fin ((mean + stdev) * 1000000) := by
    rw [one_sigma_upper, F64.add_fin_fin, F64.ofInt_eq, F64.mul_fin_fin]
    simp [ms]
  have himp : F64.lt (ci_lower Real.sqrt (F64.fin mean) (F64.fin stdev) n) speed_v = true ∧
      F64.lt speed_v (ci_upper Real.sqrt (F64.fin mean) (F64.fin stdev) n) = true →
     F64.lt (one_sigma_lower (F64.fin mean) (F64.fin stdev)) speed_v = true ∧
      F64.lt speed_v (one_sigma_upper (F64.fin mean) (F64.fin stdev)) = true := by
    rw [hlow, hup, hsl, hsu]
    cases speed_v with
    | nan => simp [F64.lt]
    | ninf => simp [F64.lt]
    | pinf => simp [F64.lt]
    | fin v =>
      simp only [F64.lt_fin_fin]
      rintro ⟨h1, h2⟩
      constructor <;> nlinarith
  refine ⟨himp, hratio, ?_⟩
  rw [scoring_by_tests]
  intro hci
  have hci' : (F64.lt (ci_lower Real.sqrt (F64.fin mean) (F64.fin stdev) n) speed_v &&
      F64.lt speed_v (ci_upper Real.sqrt (F64.fin mean) (F64.fin stdev) n)) = true :=
    (points_of_flags _ _ _).2.2.1.mp hci
  rw [Bool.and_eq_true] at hci'
  obtain ⟨h1, h2⟩ := himp hci'
  apply (points_of_flags _ _ _).2.1.mpr
  rw [Bool.and_eq_true]
  exact ⟨h1, h2⟩

/-- C19 for mean 11, standard deviation 2, 16 samples and the displayed final speed
11.5 million: inside the confidence interval, hence inside the one-sigma band. -/
theorem confidence_interval_within_one_sigma_witness :
    F64.lt (one_sigma_lower (F64.fin (11 : ℝ)) (F64.fin 2)) (F64.fin 11500000) = true ∧
    F64.lt (F64.fin 11500000) (one_sigma_upper (F64.fin (11 : ℝ)) (F64.fin 2)) = true :=
  (confidence_interval_within_one_sigma 11 2 16 (F64.fin 11500000) (by norm_num)
    (by norm_num)).1
    (by
      have h := ci_bounds_fin 11 2 16 (by norm_num)
      have h4 : Real.sqrt ((16 : ℕ) : ℝ) = 4 := by
        rw [show ((16 : ℕ) : ℝ) = 4 ^ 2 by norm_num]
        exact Real.sqrt_sq (by norm_num)
      rw [h.1, h.2, h4, F64.lt_fin_fin, F64.lt_fin_fin]
      constructor <;> norm_num)

/-! ## Order of float64 values -/

section FloatOrder

variable {K : Type} [LinearOrderedField K]

/-- A value that is not NaN is `<=` itself. -/
theorem F64.le_refl_of_ne_nan (x : F64 K) (h : x ≠ F64.nan) : F64.le x x = true := by
  cases x <;> simp [F64.le] at h ⊢

/-- The comparison `<=` is transitive. -/
theorem F64.le_chain (x y z : F64 K) (h1 : F64.le x y = true) (h2 : F64.le y z = true) :
    F64.le x z = true := by
  cases x <;> cases y <;> cases z <;> simp [F64.le] at h1 h2 ⊢
  exact le_trans h1 h2

/-- A value `<` another is `<=` it. -/
theorem F64.lt_imp_le (x y : F64 K) (h : F64.lt x y = true) : F64.le x y = true := by
  cases x <;> cases y <;> simp [F64.lt, F64.le] at h ⊢
  exact h.le

/-- Of two values that are not NaN, the first is `<=` the second when the second is not `<`
the first. -/
theorem F64.le_of_lt_false (x y : F64 K) (hx : x ≠ F64.nan) (hy : y ≠ F64.nan)
    (h : F64.lt y x = false) : F64.le x y = true := by
  cases x <;> cases y <;> simp [F64.lt, F64.le] at hx hy h ⊢
  exact h

/-- A value `<` another is not NaN, and neither is the other. -/
theorem F64.not_nan_of_lt (x y : F64 K) (h : F64.lt x y = true) :
    x ≠ F64.nan ∧ y ≠ F64.nan := by
  cases x <;> cases y <;> simp [F64.lt] at h ⊢

/-- The quotient `1 / x` is never minus infinity. -/
theorem F64.one_div_ne_ninf (x : F64 K) : F64.div (F64.fin 1) x ≠ F64.ninf := by
  cases x with
  | nan => simp [F64.div]
  | ninf => simp [F64.div]
  | pinf => simp [F64.div]
  | fin b =>
    by_cases hb : b = 0
    · simp [F64.div, hb, F64.signedInf]
    · simp [F64.div, hb]

/-- The running maximum of speeds, from an accumulator that is not NaN: it is not NaN, not
below the accumulator, not below any speed that is not NaN, and it is the accumulator or one
of the speeds. -/
theorem running_max_fold (rest : List (F64 K)) (acc : F64 K) (hacc : acc ≠ F64.nan) :
    rest.foldl running_max acc ≠ F64.nan ∧
    F64.le acc (rest.foldl running_max acc) = true ∧
    (∀ v ∈ rest, v = F64.nan ∨ F64.le v (rest.foldl running_max acc) = true) ∧
    (rest.foldl running_max acc = acc ∨ rest.foldl running_max acc ∈ rest) := by
  induction rest generalizing acc with
  | nil => exact ⟨hacc, F64.le_refl_of_ne_nan acc hacc, by simp, Or.inl rfl⟩
  | cons v tl ih =>
    have hnext : running_max acc v ≠ F64.nan ∧ F64.le acc (running_max acc v) = true ∧
        (v = F64.nan ∨ F64.le v (running_max acc v) = true) ∧
        (running_max acc v = acc ∨ running_max acc v = v) := by
      unfold running_max
      by_cases hlt : F64.lt acc v = true
      · rw [if_pos hlt]
        have hv := (F64.not_nan_of_lt acc v hlt).2
        exact ⟨hv, F64.lt_imp_le acc v hlt, Or.inr (F64.le_refl_of_ne_nan v hv), Or.inr rfl⟩
      · rw [if_neg hlt]
        refine ⟨hacc, F64.le_refl_of_ne_nan acc hacc, ?_, Or.inl rfl⟩
        by_cases hv : v = F64.nan
        · exact Or.inl hv
        · exact Or.inr (F64.le_of_lt_false v acc hv hacc (by simpa using hlt))
    obtain ⟨h1, h2, h3, h4⟩ := hnext
    obtain ⟨i1, i2, i3, i4⟩ := ih (running_max acc v) h1
    rw [List.foldl_cons]
    refine ⟨i1, F64.le_chain _ _ _ h2 i2, ?_, ?_⟩
    · intro w hw
      rcases List.mem_cons.mp hw with rfl | hw
      · rcases h3 with h3 | h3
        · exact Or.inl h3
        · exact Or.inr (F64.le_chain _ _ _ h3 i2)
      · exact i3 w hw
    · rcases i4 with i4 | i4
      · rcases h4 with h4 | h4
        · left; rw [i4, h4]
        · right; rw [i4, h4]; exact List.mem_cons_self _ _
      · right; exact List.mem_cons_of_mem _ i4

/-- The running minimum of speeds, from an accumulator that is not NaN: it is not NaN, not
above the accumulator, not above any speed that is not NaN, and it is the accumulator or one
of the speeds. -/
theorem running_min_fold (rest : List (F64 K)) (acc : F64 K) (hacc : acc ≠ F64.nan) :
    rest.foldl running_min acc ≠ F64.nan ∧
    F64.le (rest.foldl running_min acc) acc = true ∧
    (∀ v ∈ rest, v = F64.nan ∨ F64.le (rest.foldl running_min acc) v = true) ∧
    (rest.foldl running_min acc = acc ∨ rest.foldl running_min acc ∈ rest) := by
  induction rest generalizing acc with
  | nil => exact ⟨hacc, F64.le_refl_of_ne_nan acc hacc, by simp, Or.inl rfl⟩
  | cons v tl ih =>
    have hnext : running_min acc v ≠ F64.nan ∧ F64.le (running_min acc v) acc = true ∧
        (v = F64.nan ∨ F64.le (running_min acc v) v = true) ∧
        (running_min acc v = acc ∨ running_min acc v = v) := by
      unfold running_min
      by_cases hlt : F64.lt v acc = true
      · rw [if_pos hlt]
        have hv := (F64.not_nan_of_lt v acc hlt).1
        exact ⟨hv, F64.lt_imp_le v acc hlt, Or.inr (F64.le_refl_of_ne_nan v hv), Or.inr rfl⟩
      · rw [if_neg hlt]
        refine ⟨hacc, F64.le_refl_of_ne_nan acc hacc, ?_, Or.inl rfl⟩
        by_cases hv : v = F64.nan
        · exact Or.inl hv
        · exact Or.inr (F64.le_of_lt_false acc v hacc hv (by simpa using hlt))
    obtain ⟨h1, h2, h3, h4⟩ := hnext
    obtain ⟨i1, i2, i3, i4⟩ := ih (running_min acc v) h1
    rw [List.foldl_cons]
    refine ⟨i1, F64.le_chain _ _ _ i2 h2, ?_, ?_⟩
    · intro w hw
      rcases List.mem_cons.mp hw with rfl | hw
      · rcases h3 with h3 | h3
        · exact Or.inl h3
        · exact Or.inr (F64.le_chain _ _ _ i2 h3)
      · exact i3 w hw
    · rcases i4 with i4 | i4
      · rcases h4 with h4 | h4
        · left; rw [i4, h4]
        · right; rw [i4, h4]; exact List.mem_cons_self _ _
      · right; exact List.mem_cons_of_mem _ i4

/-- The difference of a maximum that is not NaN and a minimum that is neither NaN nor minus
infinity, with a finite number between them, is `>= 0`. -/
theorem difference_nonneg (M m : F64 K) (r : K) (h1 : F64.le m (F64.fin r) = true)
    (h2 : F64.le (F64.fin r) M = true) (hm : m ≠ F64.ninf) :
    F64.le (F64.fin 0) (F64.sub M m) = true := by
  cases M <;> cases m <;> simp [F64.le, F64.sub, F64.neg, F64.add] at h1 h2 hm ⊢
  linarith

end FloatOrder

/-! ## The running bounds and the window of observed speeds -/

section Window

variable {K : Type} [LinearOrderedField K]

/-- The speed of an iteration is never minus infinity. -/
theorem speed_ne_ninf (s : MonitorState K) (collected now : Int) :
    (measure_speed s collected now).speed ≠ F64.ninf :=
  F64.one_div_ne_ninf _

/-- No speed of the window is minus infinity. -/
theorem window_speeds_ne_ninf (ticks : List Tick) (s : MonitorState K) :
    ∀ v ∈ window_speeds s ticks, v ≠ F64.ninf := by
  induction ticks generalizing s with
  | nil => simp [window_speeds]
  | cons t rest ih =>
    intro v hv
    simp only [window_speeds] at hv
    split_ifs at hv
    · rw [List.mem_singleton] at hv
      rw [hv]
      exact speed_ne_ninf s t.collected t.now
    · simp at hv
    · rcases List.mem_append.mp hv with hv | hv
      · rw [List.mem_singleton] at hv
        rw [hv]
        exact speed_ne_ninf s t.collected t.now
      · exact ih _ v hv
    · rcases List.mem_append.mp hv with hv | hv
      · simp at hv
      · exact ih _ v hv

/-- An iteration keeps the relation between the running bounds and the window, the window
growing by the speed of the iteration when the iteration leaves phase 1 or starts in
phase 2. -/
theorem iteration_window (s : MonitorState K) (t : Tick) (W : List (F64 K))
    (hinv : BoundsOfWindow s W) :
    BoundsOfWindow (monitor_iteration s t).2
      (W ++ (if (s.phase = 1 ∧ t.now - s.start_time ≥ prime_time) ∨ s.phase = 2
        then [(measure_speed s t.collected t.now).speed] else [])) := by
  obtain ⟨hmax, hmin⟩ := iteration_bounds s t
  have hp := iteration_phase s t
  have e1 : prime_time = 10000000000 := rfl
  unfold BoundsOfWindow at hinv ⊢
  rw [hmax, hmin, hp]
  by_cases hexitprime : s.phase = 1 ∧ t.now - s.start_time ≥ prime_time
  · have hW : W = [] := by
      rcases hinv with h | h
      · exact h.2
      · exact absurd hexitprime.1 h.1
    obtain ⟨r, hr⟩ := speed_is_finite s t.collected t.now (by omega)
    rw [if_pos hexitprime, if_pos hexitprime, if_pos hexitprime, if_pos (Or.inl hexitprime), hW,
      hr]
    right
    exact ⟨by decide, r, [], rfl, rfl, rfl⟩
  · rw [if_neg hexitprime, if_neg hexitprime, if_neg hexitprime]
    by_cases h2 : s.phase = 2
    · rw [if_pos h2, if_pos h2, if_pos h2, if_pos (Or.inr h2)]
      rcases hinv with h | h
      · omega
      · obtain ⟨-, r, rest, hW, hM, hm⟩ := h
        right
        refine ⟨by split_ifs <;> decide, r, rest ++ [(measure_speed s t.collected t.now).speed],
          by rw [hW]; rfl, ?_, ?_⟩
        · rw [List.foldl_append, ← hM]
          rfl
        · rw [List.foldl_append, ← hm]
          rfl
    · have hno : ¬ ((s.phase = 1 ∧ t.now - s.start_time ≥ prime_time) ∨ s.phase = 2) := by
        omega
      rw [if_neg h2, if_neg h2, if_neg h2, if_neg hno, List.append_nil]
      rcases hinv with h | h
      · left
        refine ⟨?_, h.2⟩
        split_ifs <;> omega
      · right
        refine ⟨?_, h.2⟩
        split_ifs <;> omega

/-- The loop keeps the relation between the running bounds and the window. -/
theorem loop_window (ticks : List Tick) (s : MonitorState K) (W : List (F64 K))
    (hinv : BoundsOfWindow s W) :
    BoundsOfWindow (monitor_loop s ticks).2 (W ++ window_speeds s ticks) := by
  induction ticks generalizing s W with
  | nil =>
    rw [window_speeds, List.append_nil]
    exact hinv
  | cons t rest ih =>
    have hi := iteration_window s t W hinv
    simp only [monitor_loop, window_speeds]
    by_cases hexit : (monitor_iteration s t).1 = true
    · rw [if_pos hexit, if_pos hexit]
      exact hi
    · rw [if_neg hexit, if_neg hexit, ← List.append_assoc]
      exact ih _ _ hi

/-- On readings whose timestamps never decrease, every speed of the window is a finite
number. -/
theorem window_speeds_finite (ticks : List Tick) (s : MonitorState K) (hinv : PhaseClock s)
    (hclock : s.phase ≠ 1 → ∀ u ∈ ticks, s.current_time ≤ u.now)
    (hsorted : (ticks.map Tick.now).Pairwise (fun a b => a ≤ b)) :
    ∀ v ∈ window_speeds s ticks, ∃ r : K, v = F64.fin r := by
  induction ticks generalizing s with
  | nil => simp [window_speeds]
  | cons t rest ih =>
    have hi := iteration_phase_clock s t hinv (fun hp => hclock hp t (List.mem_cons_self _ _))
    have hnow := (iteration_clock s t).2.1
    have e1 : prime_time = 10000000000 := rfl
    have hobs : ∀ w ∈ (if (s.phase = 1 ∧ t.now - s.start_time ≥ prime_time) ∨ s.phase = 2
        then [(measure_speed s t.collected t.now).speed] else []), ∃ r : K, w = F64.fin r := by
      intro w hw
      split_ifs at hw with hc
      · rw [List.mem_singleton] at hw
        rw [hw]
        apply speed_is_finite
        unfold PhaseClock at hinv
        rcases hc with hc | hc
        · omega
        · have := hclock (by omega) t (List.mem_cons_self _ _)
          omega
      · simp at hw
    rw [List.map_cons, List.pairwise_cons] at hsorted
    have hrest := ih (monitor_iteration s t).2 hi
      (fun _ u hu => by rw [hnow]; exact hsorted.1 u.now (List.mem_map_of_mem _ hu)) hsorted.2
    intro v hv
    simp only [window_speeds] at hv
    by_cases hexit : (monitor_iteration s t).1 = true
    · rw [if_pos hexit] at hv
      exact hobs v hv
    · rw [if_neg hexit] at hv
      rcases List.mem_append.mp hv with hv | hv
      · exact hobs v hv
      · exact hrest v hv

/-- C15: at the end of every run that has left phase 1 (Priming), the window of speeds observed
from the tick that leaves phase 1 up to and including the tick that closes phase 2 is not
empty; `maximum_speed` and `minimum_speed` are the running maximum and minimum of the window
taken from its first speed on (values from before the window are discarded, and neither the
samples nor the speeds of other ticks enter); both are speeds of the window; no speed of the
window that is not NaN is above the maximum or below the minimum, and when the timestamps
never decrease none is NaN; and `min_max_delta = maximum_speed - minimum_speed >= 0`. -/
theorem bounds_are_extremes_of_window (start_time current_time : Int) (ticks : List Tick)
    (hleft : (state_after start_time current_time ticks : MonitorState K).phase ≠ 1) :
    let W : List (F64 K) := window_speeds (initial_state start_time current_time) ticks
    let M : F64 K := (state_after start_time current_time ticks : MonitorState K).maximum_speed
    let m : F64 K := (state_after start_time current_time ticks : MonitorState K).minimum_speed
    (∃ (first : F64 K) (rest : List (F64 K)), W = first :: rest ∧
      M = rest.foldl running_max first ∧ m = rest.foldl running_min first) ∧
    M ∈ W ∧ m ∈ W ∧
    (∀ v ∈ W, v = F64.nan ∨ (F64.le v M = true ∧ F64.le m v = true)) ∧
    ((ticks.map Tick.now).Pairwise (fun a b => a ≤ b) →
      ∀ v ∈ W, F64.le v M = true ∧ F64.le m v = true) ∧
    F64.le (F64.fin 0) (F64.sub M m) = true := by
  intro W M m
  have hinv := loop_window ticks (initial_state start_time current_time : MonitorState K) []
    (Or.inl ⟨rfl, rfl⟩)
  rw [List.nil_append] at hinv
  have hbounds : ∃ (r : K) (rest : List (F64 K)), W = F64.fin r :: rest ∧
      M = rest.foldl running_max (F64.fin r) ∧ m = rest.foldl running_min (F64.fin r) := by
    rcases hinv with h | h
    · exact absurd h.1 hleft
    · exact h.2
  obtain ⟨r, rest, hW, hM, hm⟩ := hbounds
  have hfin : (F64.fin r : F64 K) ≠ F64.nan := by simp
  obtain ⟨a1, a2, a3, a4⟩ := running_max_fold rest (F64.fin r) hfin
  obtain ⟨b1, b2, b3, b4⟩ := running_min_fold rest (F64.fin r) hfin
  rw [← hM] at a1 a2 a3 a4
  rw [← hm] at b1 b2 b3 b4
  have hMW : M ∈ W := by
    rw [hW]
    rcases a4 with h | h
    · rw [h]; exact List.mem_cons_self _ _
    · exact List.mem_cons_of_mem _ h
  have hmW : m ∈ W := by
    rw [hW]
    rcases b4 with h | h
    · rw [h]; exact List.mem_cons_self _ _
    · exact List.mem_cons_of_mem _ h
  have hall : ∀ v ∈ W, v = F64.nan ∨ (F64.le v M = true ∧ F64.le m v = true) := by
    intro v hv
    rw [hW] at hv
    rcases List.mem_cons.mp hv with rfl | hv
    · exact Or.inr ⟨a2, b2⟩
    · rcases a3 v hv with h | h
      · exact Or.inl h
      · rcases b3 v hv with h' | h'
        · exact Or.inl h'
        · exact Or.inr ⟨h, h'⟩
  refine ⟨⟨F64.fin r, rest, hW, hM, hm⟩, hMW, hmW, hall, ?_, ?_⟩
  · intro hsorted v hv
    obtain ⟨q, hq⟩ := window_speeds_finite ticks
      (initial_state start_time current_time : MonitorState K) (Or.inl rfl)
      (fun h => absurd rfl h) hsorted v hv
    rcases hall v hv with h | h
    · rw [hq] at h
      exact absurd h (by simp)
    · exact h
  · exact difference_nonneg M m r b2 a2 (window_speeds_ne_ninf ticks _ m hmW)

end Window

/-- C15 on a run from clock 0 with ticks at 5 s, 10 s, 20 s and 30 s that collected 3, 5, 1
and 9 units: the difference of the bounds is `>= 0`. -/
theorem bounds_are_extremes_of_window_witness :
    F64.le (F64.fin 0)
      (F64.sub
        (state_after 0 0
          [⟨3, 5000000000⟩, ⟨5, 10000000000⟩, ⟨1, 20000000000⟩, ⟨9, 30000000000⟩] :
          MonitorState ℚ).maximum_speed
        (state_after 0 0
          [⟨3, 5000000000⟩, ⟨5, 10000000000⟩, ⟨1, 20000000000⟩, ⟨9, 30000000000⟩] :
          MonitorState ℚ).minimum_speed) = true :=
  (bounds_are_extremes_of_window 0 0
    [⟨3, 5000000000⟩, ⟨5, 10000000000⟩, ⟨1, 20000000000⟩, ⟨9, 30000000000⟩]
    (by with_unfolding_all decide)).2.2.2.2.2

/-! ## Rounding to the nearest integer -/

section RoundNE

variable {K : Type} [LinearOrderedField K] [FloorRing K]

/-- Rounding leaves an integer as it is. -/
theorem roundNE_intCast (n : Int) : roundNE (n : K) = n := by
  simp [roundNE]

/-- Rounding gives the floor or the integer after it. -/
theorem roundNE_floor_or (y : K) : roundNE y = ⌊y⌋ ∨ roundNE y = ⌊y⌋ + 1 := by
  unfold roundNE
  dsimp only
  split_ifs <;> simp

/-- A number less than half away from an integer rounds to it. -/
theorem roundNE_eq_of_near (y : K) (n : Int) (h : |y - n| < 1 / 2) : roundNE y = n := by
  rw [abs_lt] at h
  obtain ⟨h1, h2⟩ := h
  by_cases hn : (n : K) ≤ y
  · have hf : ⌊y⌋ = n := by
      rw [Int.floor_eq_iff]
      constructor
      · exact hn
      · linarith
    unfold roundNE
    dsimp only
    rw [hf, if_pos h2]
  · have hf : ⌊y⌋ = n - 1 := by
      rw [Int.floor_eq_iff]
      push_cast
      constructor <;> linarith
    unfold roundNE
    dsimp only
    rw [hf]
    push_cast
    rw [if_neg (by linarith), if_pos (by linarith)]
    ring

/-- A number half way between two integers rounds to the even one. -/
theorem roundNE_tie (n : Int) :
    roundNE ((n : K) + 1 / 2) = if n % 2 = 0 then n else n + 1 := by
  have hf : ⌊(n : K) + 1 / 2⌋ = n := by
    rw [Int.floor_eq_iff]
    constructor <;> linarith
  unfold roundNE
  dsimp only
  rw [hf]
  have h1 : ¬ ((n : K) + 1 / 2 - n < 1 / 2) := by
    rw [add_sub_cancel_left]
    exact lt_irrefl _
  have h2 : ¬ ((1 : K) / 2 < (n : K) + 1 / 2 - n) := by
    rw [add_sub_cancel_left]
    exact lt_irrefl _
  rw [if_neg h1, if_neg h2]

/-- Rounding never moves a number by more than a half. -/
theorem roundNE_near (y : K) : |y - roundNE y| ≤ 1 / 2 := by
  have h1 := Int.floor_le y
  have h2 := Int.lt_floor_add_one y
  unfold roundNE
  dsimp only
  rw [abs_le]
  split_ifs with ha hb hc
  · constructor <;> linarith
  · push_cast
    constructor <;> linarith
  · constructor <;> linarith
  · push_cast
    constructor <;> linarith

/-- Rounding keeps the order. -/
theorem roundNE_mono {x y : K} (h : x ≤ y) : roundNE x ≤ roundNE y := by
  have hfl : ⌊x⌋ ≤ ⌊y⌋ := Int.floor_mono h
  rcases lt_or_eq_of_le hfl with hlt | heq
  · have h1 : roundNE x ≤ ⌊x⌋ + 1 := by
      rcases roundNE_floor_or x with h | h <;> omega
    have h2 : ⌊y⌋ ≤ roundNE y := by
      rcases roundNE_floor_or y with h | h <;> omega
    omega
  · unfold roundNE
    dsimp only
    rw [← heq]
    split_ifs with a1 a2 a3 a4 a5 a6 a7 a8 a9 <;>
      first
        | omega
        | (exfalso; linarith)

/-- Rounding commutes with the change of sign. -/
theorem roundNE_neg (y : K) : roundNE (-y) = -roundNE y := by
  by_cases hint : (⌊y⌋ : K) = y
  · rw [← hint, ← Int.cast_neg, roundNE_intCast, roundNE_intCast]
  · have hlt : (⌊y⌋ : K) < y := lt_of_le_of_ne (Int.floor_le y) hint
    have h2 := Int.lt_floor_add_one y
    have hf : ⌊-y⌋ = -⌊y⌋ - 1 := by
      rw [Int.floor_eq_iff]
      push_cast
      constructor <;> linarith
    unfold roundNE
    dsimp only
    rw [hf]
    push_cast
    have hpar : ((-⌊y⌋ - 1) % 2 = 0) ↔ ¬ (⌊y⌋ % 2 = 0) := by omega
    split_ifs with a1 a2 a3 a4 a5 a6 a7 a8 a9 <;>
      first
        | omega
        | (exfalso; linarith)

/-- A number that is not negative does not round to a negative integer. -/
theorem roundNE_nonneg {y : K} (h : 0 ≤ y) : 0 ≤ roundNE y := by
  have := roundNE_mono h
  rwa [show (0 : K) = ((0 : Int) : K) by simp, roundNE_intCast] at this

end RoundNE

/-! ## Rounding to 53 significant bits -/

section PowersOfTwo

variable {K : Type} [LinearOrderedField K]

theorem F64.two_zpow_pos (e : Int) : (0 : K) < (2 : K) ^ e := zpow_pos (by norm_num) e

theorem F64.two_zpow_le {a b : Int} (h : a ≤ b) : (2 : K) ^ a ≤ (2 : K) ^ b :=
  zpow_le_zpow_right₀ (by norm_num) h

theorem F64.two_zpow_lt {a b : Int} (h : a < b) : (2 : K) ^ a < (2 : K) ^ b :=
  (zpow_lt_zpow_iff_right₀ (by norm_num)).mpr h

/-- A power of two as a multiple of a smaller one. -/
theorem F64.two_zpow_split (e j : Int) (h : j ≤ e) :
    (2 : K) ^ e = (((2 : Int) ^ (e - j).toNat : Int) : K) * (2 : K) ^ j := by
  have h2 : (2 : K) ≠ 0 := by norm_num
  have hn : ((e - j).toNat : Int) = e - j := Int.toNat_of_nonneg (by omega)
  push_cast
  rw [← zpow_natCast, hn, ← zpow_add₀ h2]
  congr 1
  ring

end PowersOfTwo

section Nearest

variable {K : Type} [LinearOrderedField K] [FloorRing K]

/-- For a fixed exponent the rounding keeps the order. -/
theorem F64.nearestAt_mono (e : Int) {x y : K} (h : x ≤ y) :
    F64.nearestAt e x ≤ F64.nearestAt e y := by
  have hu : (0 : K) < (2 : K) ^ (e - 52) := F64.two_zpow_pos _
  unfold F64.nearestAt
  apply mul_le_mul_of_nonneg_right _ hu.le
  exact_mod_cast roundNE_mono (div_le_div_of_nonneg_right h hu.le)

/-- For a fixed exponent the rounding commutes with the change of sign. -/
theorem F64.nearestAt_neg (e : Int) (x : K) :
    F64.nearestAt e (-x) = -F64.nearestAt e x := by
  unfold F64.nearestAt
  rw [neg_div, roundNE_neg]
  push_cast
  ring

/-- A multiple of the spacing is not moved. -/
theorem F64.nearestAt_multiple (e : Int) (n : Int) :
    F64.nearestAt e ((n : K) * (2 : K) ^ (e - 52)) = (n : K) * (2 : K) ^ (e - 52) := by
  have hu : (0 : K) < (2 : K) ^ (e - 52) := F64.two_zpow_pos _
  unfold F64.nearestAt
  rw [mul_div_assoc, div_self (ne_of_gt hu), mul_one, roundNE_intCast]

/-- A number less than half a spacing away from a multiple of the spacing rounds to it. -/
theorem F64.nearestAt_of_near (e : Int) (x : K) (n : Int)
    (h : |x / (2 : K) ^ (e - 52) - n| < 1 / 2) :
    F64.nearestAt e x = (n : K) * (2 : K) ^ (e - 52) := by
  unfold F64.nearestAt
  rw [roundNE_eq_of_near _ n h]

/-- A number half way between two multiples of the spacing rounds to the even one. -/
theorem F64.nearestAt_of_tie (e : Int) (x : K) (n : Int)
    (h : x / (2 : K) ^ (e - 52) = (n : K) + 1 / 2) :
    F64.nearestAt e x = (((if n % 2 = 0 then n else n + 1 : Int)) : K) * (2 : K) ^ (e - 52) := by
  unfold F64.nearestAt
  rw [h, roundNE_tie]

/-- The rounding of a number is within half a spacing of it. -/
theorem F64.nearestAt_near (e : Int) (x : K) :
    |x - F64.nearestAt e x| ≤ (2 : K) ^ (e - 52) / 2 := by
  have hu : (0 : K) < (2 : K) ^ (e - 52) := F64.two_zpow_pos _
  have h := roundNE_near (x / (2 : K) ^ (e - 52))
  unfold F64.nearestAt
  have hx : x - (roundNE (x / (2 : K) ^ (e - 52)) : K) * (2 : K) ^ (e - 52)
      = (x / (2 : K) ^ (e - 52) - (roundNE (x / (2 : K) ^ (e - 52)) : K))
        * (2 : K) ^ (e - 52) := by
    rw [sub_mul, div_mul_cancel₀ _ (ne_of_gt hu)]
  rw [hx, abs_mul, abs_of_pos hu]
  calc |x / (2 : K) ^ (e - 52) - (roundNE (x / (2 : K) ^ (e - 52)) : K)| * (2 : K) ^ (e - 52)
      ≤ 1 / 2 * (2 : K) ^ (e - 52) := mul_le_mul_of_nonneg_right h hu.le
    _ = (2 : K) ^ (e - 52) / 2 := by ring

/-- A number that is not negative does not round to a negative one. -/
theorem F64.nearestAt_nonneg (e : Int) {x : K} (h : 0 ≤ x) : 0 ≤ F64.nearestAt e x := by
  have := F64.nearestAt_mono e h
  have h0 : F64.nearestAt e (0 : K) = 0 := by
    have h1 : F64.nearestAt e (((0 : Int) : K) * (2 : K) ^ (e - 52))
        = ((0 : Int) : K) * (2 : K) ^ (e - 52) := F64.nearestAt_multiple e 0
    simpa using h1
  rwa [h0] at this

/-- A number between `2^e` and `2^(e+1)` rounds, at the exponent `e`, to a number between
them. -/
theorem F64.nearestAt_bracket (e : Int) (x : K) (h1 : (2 : K) ^ e ≤ x)
    (h2 : x ≤ (2 : K) ^ (e + 1)) :
    (2 : K) ^ e ≤ F64.nearestAt e x ∧ F64.nearestAt e x ≤ (2 : K) ^ (e + 1) := by
  have hlo : F64.nearestAt e ((2 : K) ^ e) = (2 : K) ^ e := by
    rw [F64.two_zpow_split e (e - 52) (by omega)]
    exact F64.nearestAt_multiple e _
  have hhi : F64.nearestAt e ((2 : K) ^ (e + 1)) = (2 : K) ^ (e + 1) := by
    rw [F64.two_zpow_split (e + 1) (e - 52) (by omega)]
    exact F64.nearestAt_multiple e _
  constructor
  · rw [← hlo]
    exact F64.nearestAt_mono e h1
  · rw [← hhi]
    exact F64.nearestAt_mono e h2

/-- A number between 0 and `2^(e+1)` rounds, at the exponent `e`, to a number between them. -/
theorem F64.nearestAt_below (e : Int) (x : K) (h1 : 0 ≤ x) (h2 : x ≤ (2 : K) ^ (e + 1)) :
    0 ≤ F64.nearestAt e x ∧ F64.nearestAt e x ≤ (2 : K) ^ (e + 1) := by
  have hhi : F64.nearestAt e ((2 : K) ^ (e + 1)) = (2 : K) ^ (e + 1) := by
    rw [F64.two_zpow_split (e + 1) (e - 52) (by omega)]
    exact F64.nearestAt_multiple e _
  refine ⟨F64.nearestAt_nonneg e h1, ?_⟩
  rw [← hhi]
  exact F64.nearestAt_mono e h2

/-- The binary logarithm of a number between `2^e` and `2^(e+1)`. -/
theorem F64.log_eq_of (x : K) (e : Int) (h1 : (2 : K) ^ e ≤ x) (h2 : x < (2 : K) ^ (e + 1)) :
    Int.log 2 x = e := by
  have hx : 0 < x := lt_of_lt_of_le (F64.two_zpow_pos e) h1
  have a : e ≤ Int.log 2 x :=
    (Int.zpow_le_iff_le_log (by norm_num) hx).mp (by exact_mod_cast h1)
  have b : Int.log 2 x < e + 1 :=
    (Int.lt_zpow_iff_log_lt (by norm_num) hx).mp (by exact_mod_cast h2)
  omega

/-- A positive number lies between the powers of two that its logarithm names. -/
theorem F64.log_bounds {x : K} (hx : 0 < x) :
    (2 : K) ^ Int.log 2 x ≤ x ∧ x < (2 : K) ^ (Int.log 2 x + 1) := by
  have h1 : ((2 : Nat) : K) ^ Int.log 2 x ≤ x := Int.zpow_log_le_self (by norm_num) hx
  have h2 : x < ((2 : Nat) : K) ^ (Int.log 2 x + 1) :=
    Int.lt_zpow_succ_log_self (by norm_num) x
  constructor
  · exact_mod_cast h1
  · exact_mod_cast h2

theorem F64.exponent_neg (x : K) : F64.exponent (-x) = F64.exponent x := by
  unfold F64.exponent
  rw [abs_neg]

theorem F64.exponent_ge (x : K) : -1022 ≤ F64.exponent x := le_max_right _ _

/-- The exponent of a number between `2^e` and `2^(e+1)`, for `e` from `-1022` on. -/
theorem F64.exponent_eq_of (x : K) (e : Int) (he : -1022 ≤ e) (h1 : (2 : K) ^ e ≤ |x|)
    (h2 : |x| < (2 : K) ^ (e + 1)) : F64.exponent x = e := by
  unfold F64.exponent
  rw [F64.log_eq_of _ e h1 h2]
  exact max_eq_left he

/-- The exponent of a number below `2^-1022`. -/
theorem F64.exponent_eq_of_small (x : K) (h0 : x ≠ 0) (h : |x| < (2 : K) ^ (-1022 : Int)) :
    F64.exponent x = -1022 := by
  have hx : 0 < |x| := abs_pos.mpr h0
  have hl : Int.log 2 |x| < -1022 :=
    (Int.lt_zpow_iff_log_lt (by norm_num) hx).mp (by exact_mod_cast h)
  unfold F64.exponent
  exact max_eq_right hl.le

/-- Among positive numbers the exponent grows with the number. -/
theorem F64.exponent_mono {x y : K} (hx : 0 < x) (h : x ≤ y) :
    F64.exponent x ≤ F64.exponent y := by
  unfold F64.exponent
  rw [abs_of_pos hx, abs_of_pos (lt_of_lt_of_le hx h)]
  exact max_le_max (Int.log_mono_right hx h) (le_refl _)

theorem F64.nearest_zero : F64.nearest (0 : K) = 0 := by
  unfold F64.nearest F64.nearestAt
  simp [roundNE]

theorem F64.nearest_neg (x : K) : F64.nearest (-x) = -F64.nearest x := by
  unfold F64.nearest
  rw [F64.exponent_neg, F64.nearestAt_neg]

theorem F64.nearest_nonneg {x : K} (h : 0 ≤ x) : 0 ≤ F64.nearest x :=
  F64.nearestAt_nonneg _ h

theorem F64.nearest_nonpos {x : K} (h : x ≤ 0) : F64.nearest x ≤ 0 := by
  have := F64.nearest_nonneg (neg_nonneg.mpr h)
  rw [F64.nearest_neg] at this
  linarith

/-- A positive number rounds to at most the power of two after its exponent. -/
theorem F64.nearest_upper {x : K} (hx : 0 < x) :
    F64.nearest x ≤ (2 : K) ^ (F64.exponent x + 1) := by
  obtain ⟨_, h2⟩ := F64.log_bounds hx
  have hle : x ≤ (2 : K) ^ (F64.exponent x + 1) := by
    refine le_trans h2.le (F64.two_zpow_le ?_)
    have : Int.log 2 x ≤ F64.exponent x := by
      unfold F64.exponent
      rw [abs_of_pos hx]
      exact le_max_left _ _
    omega
  exact (F64.nearestAt_below _ x hx.le hle).2

/-- A number from `2^-1022` on rounds to at least the power of two of its exponent. -/
theorem F64.nearest_lower {x : K} (hx : 0 < x) (hn : -1022 ≤ Int.log 2 x) :
    (2 : K) ^ F64.exponent x ≤ F64.nearest x := by
  obtain ⟨h1, h2⟩ := F64.log_bounds hx
  have he : F64.exponent x = Int.log 2 x := by
    unfold F64.exponent
    rw [abs_of_pos hx]
    exact max_eq_left hn
  unfold F64.nearest
  rw [he]
  exact (F64.nearestAt_bracket _ x h1 h2.le).1

/-- Rounding keeps the order of positive numbers. -/
theorem F64.nearest_mono_pos {x y : K} (hx : 0 < x) (h : x ≤ y) :
    F64.nearest x ≤ F64.nearest y := by
  have hy : 0 < y := lt_of_lt_of_le hx h
  rcases lt_or_eq_of_le (F64.exponent_mono hx h) with hlt | heq
  · have hlog : -1022 ≤ Int.log 2 y := by
      by_contra hcon
      have : F64.exponent y = -1022 := by
        unfold F64.exponent
        rw [abs_of_pos hy]
        exact max_eq_right (by omega)
      have := F64.exponent_ge x
      omega
    calc F64.nearest x ≤ (2 : K) ^ (F64.exponent x + 1) := F64.nearest_upper hx
      _ ≤ (2 : K) ^ F64.exponent y := F64.two_zpow_le (by omega)
      _ ≤ F64.nearest y := F64.nearest_lower hy hlog
  · unfold F64.nearest
    rw [heq]
    exact F64.nearestAt_mono _ h

/-- Rounding keeps the order. -/
theorem F64.nearest_mono {x y : K} (h : x ≤ y) : F64.nearest x ≤ F64.nearest y := by
  rcases lt_trichotomy x 0 with hx | hx | hx
  · rcases le_or_lt 0 y with hy | hy
    · exact le_trans (F64.nearest_nonpos hx.le) (F64.nearest_nonneg hy)
    · have := F64.nearest_mono_pos (neg_pos.mpr hy) (neg_le_neg h)
      rw [F64.nearest_neg, F64.nearest_neg] at this
      linarith
  · rw [hx, F64.nearest_zero]
    exact F64.nearest_nonneg (hx ▸ h)
  · exact F64.nearest_mono_pos hx h

/-- A number with a significand below `2^53` and an exponent from `-1074` on is a float64
value: rounding does not move it. -/
theorem F64.nearest_scaled (m k : Int) (hm : |m| < 2 ^ 53) (hk : -1074 ≤ k) :
    F64.nearest ((m : K) * (2 : K) ^ k) = (m : K) * (2 : K) ^ k := by
  by_cases h0 : m = 0
  · rw [h0]
    simp [F64.nearest_zero]
  have hu : (0 : K) < (2 : K) ^ k := F64.two_zpow_pos k
  have habs : |(m : K) * (2 : K) ^ k| = (|m| : Int) * (2 : K) ^ k := by
    rw [abs_mul, abs_of_pos hu]
    push_cast
    rfl
  have hpos : 0 < |(m : K) * (2 : K) ^ k| := by
    rw [habs]
    apply mul_pos _ hu
    exact_mod_cast abs_pos.mpr h0
  have hlt : |(m : K) * (2 : K) ^ k| < (2 : K) ^ (k + 53) := by
    rw [habs, show k + 53 = 53 + k by ring, zpow_add₀ (by norm_num : (2 : K) ≠ 0)]
    apply mul_lt_mul_of_pos_right _ hu
    exact_mod_cast hm
  have hlog : Int.log 2 |(m : K) * (2 : K) ^ k| < k + 53 :=
    (Int.lt_zpow_iff_log_lt (by norm_num) hpos).mp (by exact_mod_cast hlt)
  have hexp : F64.exponent ((m : K) * (2 : K) ^ k) ≤ k + 52 := by
    unfold F64.exponent
    exact max_le (by omega) (by omega)
  unfold F64.nearest
  generalize F64.exponent ((m : K) * (2 : K) ^ k) = e at hexp
  rw [F64.two_zpow_split k (e - 52) (by omega), ← mul_assoc, ← Int.cast_mul]
  exact F64.nearestAt_multiple e _

/-- Rounding does not move a power of two from `2^-1074` on. -/
theorem F64.nearest_zpow (a : Int) (ha : -1074 ≤ a) : F64.nearest ((2 : K) ^ a) = (2 : K) ^ a := by
  have h1 : F64.nearest (((1 : Int) : K) * (2 : K) ^ a) = ((1 : Int) : K) * (2 : K) ^ a :=
    F64.nearest_scaled 1 a (by norm_num) ha
  simpa using h1

/-- The rounding of a number from `2^-1022` on, from its exponent and the multiple of the
spacing nearest to it. -/
theorem F64.nearest_of_near (x : K) (e n : Int) (he : -1022 ≤ e) (h1 : (2 : K) ^ e ≤ |x|)
    (h2 : |x| < (2 : K) ^ (e + 1)) (h : |x / (2 : K) ^ (e - 52) - n| < 1 / 2) :
    F64.nearest x = (n : K) * (2 : K) ^ (e - 52) := by
  unfold F64.nearest
  rw [F64.exponent_eq_of x e he h1 h2]
  exact F64.nearestAt_of_near e x n h

/-- The rounding of a number from `2^-1022` on that is half way between two float64 values. -/
theorem F64.nearest_of_tie (x : K) (e n : Int) (he : -1022 ≤ e) (h1 : (2 : K) ^ e ≤ |x|)
    (h2 : |x| < (2 : K) ^ (e + 1)) (h : x / (2 : K) ^ (e - 52) = (n : K) + 1 / 2) :
    F64.nearest x = (((if n % 2 = 0 then n else n + 1 : Int)) : K) * (2 : K) ^ (e - 52) := by
  unfold F64.nearest
  rw [F64.exponent_eq_of x e he h1 h2]
  exact F64.nearestAt_of_tie e x n h

/-- The rounding of a number below `2^-1022`. -/
theorem F64.nearest_of_small (x : K) (n : Int) (hx : |x| < (2 : K) ^ (-1022 : Int))
    (h : |x / (2 : K) ^ (-1074 : Int) - n| < 1 / 2) :
    F64.nearest x = (n : K) * (2 : K) ^ (-1074 : Int) := by
  by_cases h0 : x = 0
  · rw [h0, F64.nearest_zero]
    rw [h0, zero_div, zero_sub, abs_neg] at h
    have hn : n = 0 := by
      by_contra hne
      have h1 : (1 : K) ≤ |(n : K)| := by
        have : (1 : Int) ≤ |n| := Int.one_le_abs hne
        exact_mod_cast this
      linarith
    rw [hn]
    simp
  · unfold F64.nearest
    rw [F64.exponent_eq_of_small x h0 hx]
    exact F64.nearestAt_of_near (-1022) x n h

end Nearest

/-! ## Rounding to float64 -/

section Round64

variable {K : Type} [LinearOrderedField K] [FloorRing K]

/-- Rounding never gives NaN. -/
theorem F64.round64_ne_nan (x : K) : F64.round64 x ≠ F64.nan := by
  unfold F64.round64
  dsimp only
  split_ifs <;> exact fun h => F64.noConfusion h

/-- Rounding gives a finite value when the nearest float64 value is below `2^1024`. -/
theorem F64.round64_fin (x : K) (h1 : -(2 : K) ^ 1024 < F64.nearest x)
    (h2 : F64.nearest x < (2 : K) ^ 1024) : F64.round64 x = F64.fin (F64.nearest x) := by
  unfold F64.round64
  dsimp only
  rw [if_neg (not_le.mpr h2), if_neg (not_le.mpr h1)]

theorem F64.round64_zero : F64.round64 (0 : K) = F64.fin 0 := by
  rw [F64.round64_fin] <;> rw [F64.nearest_zero]
  · exact neg_lt_zero.mpr (pow_pos (by norm_num) _)
  · exact pow_pos (by norm_num) _

/-- Rounding keeps the order. -/
theorem F64.round64_mono {x y : K} (h : x ≤ y) :
    F64.le (F64.round64 x) (F64.round64 y) = true := by
  have hn := F64.nearest_mono h
  have hp : (0 : K) < (2 : K) ^ 1024 := pow_pos (by norm_num) _
  unfold F64.round64
  dsimp only
  split_ifs <;> simp only [F64.le, decide_eq_true_eq] <;> first | rfl | linarith

/-- A number up to `2^1023` in size rounds to a finite value. -/
theorem F64.round64_of_abs_le (x : K) (h : |x| ≤ (2 : K) ^ (1023 : Int)) :
    F64.round64 x = F64.fin (F64.nearest x) := by
  have hz : F64.nearest ((2 : K) ^ (1023 : Int)) = (2 : K) ^ (1023 : Int) :=
    F64.nearest_zpow 1023 (by norm_num)
  have hlt : (2 : K) ^ (1023 : Int) < (2 : K) ^ 1024 := by
    rw [← zpow_natCast]
    exact F64.two_zpow_lt (by norm_num)
  rw [abs_le] at h
  have h1 := F64.nearest_mono h.2
  have h2 := F64.nearest_mono h.1
  rw [hz] at h1
  rw [F64.nearest_neg, hz] at h2
  apply F64.round64_fin <;> linarith

/-- A number between two powers of two that are float64 values rounds to a finite value
between them. -/
theorem F64.round64_bracket (x : K) (a b : Int) (ha : -1074 ≤ a) (hb : b ≤ 1023)
    (h1 : (2 : K) ^ a ≤ x) (h2 : x ≤ (2 : K) ^ b) :
    ∃ r : K, F64.round64 x = F64.fin r ∧ (2 : K) ^ a ≤ r ∧ r ≤ (2 : K) ^ b := by
  have hab : a ≤ b := by
    by_contra hcon
    have hba : (2 : K) ^ b < (2 : K) ^ a := F64.two_zpow_lt (not_le.mp hcon)
    linarith
  have hx : |x| ≤ (2 : K) ^ (1023 : Int) := by
    rw [abs_of_pos (lt_of_lt_of_le (F64.two_zpow_pos a) h1)]
    exact le_trans h2 (F64.two_zpow_le hb)
  refine ⟨F64.nearest x, F64.round64_of_abs_le x hx, ?_, ?_⟩
  · rw [← F64.nearest_zpow a ha]
    exact F64.nearest_mono h1
  · rw [← F64.nearest_zpow b (by omega)]
    exact F64.nearest_mono h2

/-- A number that is not negative rounds to a value that is not negative, or to `+Inf`. -/
theorem F64.round64_nonneg {x : K} (h : 0 ≤ x) :
    F64.le (F64.fin 0) (F64.round64 x) = true := by
  have := F64.round64_mono h
  rwa [F64.round64_zero] at this

/-- A number with a significand below `2^53` and an exponent from `-1074` to `970` is a float64
value. -/
theorem F64.round64_scaled (m k : Int) (hm : |m| < 2 ^ 53) (hk : -1074 ≤ k) (hk2 : k ≤ 970) :
    F64.round64 ((m : K) * (2 : K) ^ k) = F64.fin ((m : K) * (2 : K) ^ k) := by
  have hu : (0 : K) < (2 : K) ^ k := F64.two_zpow_pos k
  have hx : |(m : K) * (2 : K) ^ k| ≤ (2 : K) ^ (1023 : Int) := by
    rw [abs_mul, abs_of_pos hu]
    have h1 : |(m : K)| ≤ (2 : K) ^ (52 : Int) * 2 := by
      have : ((|m| : Int) : K) < (2 : K) ^ 53 := by exact_mod_cast hm
      rw [Int.cast_abs] at this
      have h53 : (2 : K) ^ 53 = (2 : K) ^ (52 : Int) * 2 := by
        rw [← zpow_natCast, ← zpow_add_one₀ (by norm_num : (2 : K) ≠ 0)]
        norm_num
      linarith
    calc |(m : K)| * (2 : K) ^ k ≤ ((2 : K) ^ (52 : Int) * 2) * (2 : K) ^ k :=
          mul_le_mul_of_nonneg_right h1 hu.le
      _ = (2 : K) ^ (k + 53) := by
          rw [show k + 53 = 52 + 1 + k by ring, zpow_add₀ (by norm_num : (2 : K) ≠ 0),
            zpow_add_one₀ (by norm_num : (2 : K) ≠ 0)]
      _ ≤ (2 : K) ^ (1023 : Int) := F64.two_zpow_le (by omega)
  rw [F64.round64_of_abs_le _ hx, F64.nearest_scaled m k hm hk]

/-- An integer below `2^53` in size is a float64 value. -/
theorem F64.round64_int (n : Int) (h : |n| < 2 ^ 53) :
    F64.round64 (n : K) = F64.fin (n : K) := by
  have h1 : F64.round64 ((n : K) * (2 : K) ^ (0 : Int)) = F64.fin ((n : K) * (2 : K) ^ (0 : Int)) :=
    F64.round64_scaled n 0 h (by norm_num) (by norm_num)
  simpa using h1

/-- The conversion of an integer below `2^53` in size is exact. -/
theorem F64.ofInt64_eq (n : Int) (h : |n| < 2 ^ 53) : (F64.ofInt64 n : F64 K) = F64.fin (n : K) :=
  F64.round64_int n h

/-- The float64 value of a number from `2^-1022` on, from its exponent and the multiple of the
spacing nearest to it. -/
theorem F64.round64_of_near (x : K) (e n : Int) (he : -1022 ≤ e) (he2 : e ≤ 1022)
    (h1 : (2 : K) ^ e ≤ |x|) (h2 : |x| < (2 : K) ^ (e + 1))
    (h : |x / (2 : K) ^ (e - 52) - n| < 1 / 2) :
    F64.round64 x = F64.fin ((n : K) * (2 : K) ^ (e - 52)) := by
  have hx : |x| ≤ (2 : K) ^ (1023 : Int) := le_trans h2.le (F64.two_zpow_le (by omega))
  rw [F64.round64_of_abs_le x hx, F64.nearest_of_near x e n he h1 h2 h]

/-- The float64 value of a number from `2^-1022` on that is half way between two float64
values: the one with the even significand. -/
theorem F64.round64_of_tie (x : K) (e n : Int) (he : -1022 ≤ e) (he2 : e ≤ 1022)
    (h1 : (2 : K) ^ e ≤ |x|) (h2 : |x| < (2 : K) ^ (e + 1))
    (h : x / (2 : K) ^ (e - 52) = (n : K) + 1 / 2) :
    F64.round64 x
      = F64.fin ((((if n % 2 = 0 then n else n + 1 : Int)) : K) * (2 : K) ^ (e - 52)) := by
  have hx : |x| ≤ (2 : K) ^ (1023 : Int) := le_trans h2.le (F64.two_zpow_le (by omega))
  rw [F64.round64_of_abs_le x hx, F64.nearest_of_tie x e n he h1 h2 h]

/-- The float64 value of a number below `2^-1022`. -/
theorem F64.round64_of_small (x : K) (n : Int) (hx : |x| < (2 : K) ^ (-1022 : Int))
    (h : |x / (2 : K) ^ (-1074 : Int) - n| < 1 / 2) :
    F64.round64 x = F64.fin ((n : K) * (2 : K) ^ (-1074 : Int)) := by
  have hx2 : |x| ≤ (2 : K) ^ (1023 : Int) := le_trans hx.le (F64.two_zpow_le (by norm_num))
  rw [F64.round64_of_abs_le x hx2, F64.nearest_of_small x n hx h]

end Round64

/-! ## float64 operations on finite values -/

section Ops64

variable {K : Type} [LinearOrderedField K] [FloorRing K]

theorem F64.add64_fin_fin (a b : K) :
    F64.add64 (F64.fin a) (F64.fin b) = F64.round64 (a + b) := rfl

theorem F64.sub64_fin_fin (a b : K) :
    F64.sub64 (F64.fin a) (F64.fin b) = F64.round64 (a - b) := by
  rw [F64.sub64, F64.sub_fin_fin]
  rfl

theorem F64.mul64_fin_fin (a b : K) :
    F64.mul64 (F64.fin a) (F64.fin b) = F64.round64 (a * b) := rfl

theorem F64.div64_fin_fin (a b : K) (h : b ≠ 0) :
    F64.div64 (F64.fin a) (F64.fin b) = F64.round64 (a / b) := by
  rw [F64.div64, F64.div_fin_fin _ _ h]
  rfl

theorem F64.sqrt64_fin (sq : K → K) (a : K) (h : 0 ≤ a) :
    F64.sqrt64 sq (F64.fin a) = F64.round64 (sq a) := by
  rw [F64.sqrt64, F64.sqrt_fin _ _ h]
  rfl

theorem F64.square64_fin (a : K) :
    F64.square64 (F64.fin a) = F64.round64 (F64.nearest53 (a * a)) := rfl

/-- The quotient of two integers below `2^53` that divide exactly is exact. -/
theorem F64.div64_of_multiple (a b q : Int) (ha : |a| < 2 ^ 53) (hb : |b| < 2 ^ 53)
    (hq : |q| < 2 ^ 53) (hb0 : b ≠ 0) (h : a = q * b) :
    F64.div64 (F64.ofInt64 a) (F64.ofInt64 b) = (F64.fin (q : K) : F64 K) := by
  have hbK : (b : K) ≠ 0 := by exact_mod_cast hb0
  rw [F64.ofInt64_eq a ha, F64.ofInt64_eq b hb, F64.div64_fin_fin _ _ hbK, h]
  push_cast
  rw [mul_div_assoc, div_self hbK, mul_one]
  exact F64.round64_int q hq

end Ops64

/-! ## Certificates for single roundings -/

section Certificates

variable {K : Type} [LinearOrderedField K] [FloorRing K]

theorem F64.nearest53_zero : F64.nearest53 (0 : K) = 0 := by
  unfold F64.nearest53 F64.nearestAt
  simp [roundNE]

/-- The rounding to 53 bits of a number, from its exponent and the multiple of the spacing
nearest to it. -/
theorem F64.nearest53_of_near (x : K) (e n : Int) (h1 : (2 : K) ^ e ≤ |x|)
    (h2 : |x| < (2 : K) ^ (e + 1)) (h : |x / (2 : K) ^ (e - 52) - n| < 1 / 2) :
    F64.nearest53 x = (n : K) * (2 : K) ^ (e - 52) := by
  unfold F64.nearest53
  rw [F64.log_eq_of _ e h1 h2]
  exact F64.nearestAt_of_near e x n h

/-- The rounding to 53 bits of a number half way between two multiples of the spacing. -/
theorem F64.nearest53_of_tie (x : K) (e n : Int) (h1 : (2 : K) ^ e ≤ |x|)
    (h2 : |x| < (2 : K) ^ (e + 1)) (h : x / (2 : K) ^ (e - 52) = (n : K) + 1 / 2) :
    F64.nearest53 x = (((if n % 2 = 0 then n else n + 1 : Int)) : K) * (2 : K) ^ (e - 52) := by
  unfold F64.nearest53
  rw [F64.log_eq_of _ e h1 h2]
  exact F64.nearestAt_of_tie e x n h

end Certificates

/-! ## The float64 loop keeps its samples within the running bounds -/

section LoopBounds64

variable {K : Type} [LinearOrderedField K] [FloorRing K]

/-- The conversion of a positive int64 value is a finite number from 1 to `2^63`. -/
theorem F64.ofInt64_bracket (n : Int) (h1 : 1 ≤ n) (h2 : n ≤ 2 ^ 63) :
    ∃ r : K, (F64.ofInt64 n : F64 K) = F64.fin r ∧ 1 ≤ r ∧ r ≤ (2 : K) ^ (63 : Int) := by
  have hlo : (2 : K) ^ (0 : Int) ≤ (n : K) := by
    rw [zpow_zero]
    exact_mod_cast h1
  have hhi : (n : K) ≤ (2 : K) ^ (63 : Int) := by
    have h : (n : K) ≤ (2 : K) ^ 63 := by exact_mod_cast h2
    rw [← zpow_natCast] at h
    exact_mod_cast h
  obtain ⟨r, hr, ha, hb⟩ := F64.round64_bracket (n : K) 0 63 (by norm_num) (by norm_num) hlo hhi
  rw [zpow_zero] at ha
  exact ⟨r, hr, ha, hb⟩

/-- The float64 speed of an iteration is a finite number between `2^-63` and `2^63` when the
elapsed time and the number of games are positive int64 values. -/
theorem speed64_is_finite (s : MonitorState K) (collected now : Int)
    (h1 : 1 ≤ now - s.start_time) (h2 : now - s.start_time ≤ 2 ^ 63)
    (h3 : 1 ≤ s.total_games + collected) (h4 : s.total_games + collected ≤ 2 ^ 63) :
    ∃ v : K, (measure_speed64 s collected now).speed = F64.fin v ∧
      (2 : K) ^ (-63 : Int) ≤ v ∧ v ≤ (2 : K) ^ (63 : Int) := by
  obtain ⟨re, hre, he1, he2⟩ := @F64.ofInt64_bracket K _ _ (now - s.start_time) h1 h2
  obtain ⟨rt, hrt, ht1, ht2⟩ := @F64.ofInt64_bracket K _ _ (s.total_games + collected) h3 h4
  have hp63 : (0 : K) < (2 : K) ^ (63 : Int) := F64.two_zpow_pos 63
  have hrt0 : rt ≠ 0 := by linarith
  have hq1 : (2 : K) ^ (-63 : Int) ≤ re / rt := by
    rw [zpow_neg, le_div_iff₀ (by linarith), inv_mul_le_iff₀ hp63]
    nlinarith
  have hq2 : re / rt ≤ (2 : K) ^ (63 : Int) := by
    rw [div_le_iff₀ (by linarith)]
    nlinarith
  obtain ⟨q, hq, hqa, hqb⟩ :=
    F64.round64_bracket (re / rt) (-63) 63 (by norm_num) (by norm_num) hq1 hq2
  have hqpos : 0 < q := lt_of_lt_of_le (F64.two_zpow_pos (-63)) hqa
  have hv1 : (2 : K) ^ (-63 : Int) ≤ 1 / q := by
    rw [zpow_neg, le_div_iff₀ hqpos, inv_mul_le_iff₀ hp63]
    linarith
  have hv2 : 1 / q ≤ (2 : K) ^ (63 : Int) := by
    rw [div_le_iff₀ hqpos]
    have : (2 : K) ^ (63 : Int) * (2 : K) ^ (-63 : Int) = 1 := by
      rw [← zpow_add₀ (by norm_num : (2 : K) ≠ 0)]
      norm_num
    nlinarith
  obtain ⟨v, hv, hva, hvb⟩ :=
    F64.round64_bracket (1 / q) (-63) 63 (by norm_num) (by norm_num) hv1 hv2
  refine ⟨v, ?_, hva, hvb⟩
  simp only [measure_speed64]
  rw [hre, hrt, F64.div64_fin_fin _ _ hrt0, hq, F64.div64_fin_fin _ _ (ne_of_gt hqpos), hv]

/-- One iteration of the float64 loop keeps the invariant, provided the clock has not gone
back once phase 1 is over and the elapsed time and the number of games are int64 values. -/
theorem monitor_iteration64_invariant (s : MonitorState K) (t : Tick) (hinv : LoopInvariant s)
    (hclock : s.phase ≠ 1 → s.current_time ≤ t.now)
    (hrange : t.now - s.start_time ≤ 2 ^ 63)
    (hgames : 1 ≤ s.total_games + t.collected ∧ s.total_games + t.collected ≤ 2 ^ 63) :
    LoopInvariant (monitor_iteration64 s t).2 ∧
    (monitor_iteration64 s t).2.current_time = t.now ∧
    (monitor_iteration64 s t).2.start_time = s.start_time ∧
    (monitor_iteration64 s t).2.total_games = s.total_games + t.collected := by
  have hm : LoopInvariant (measure_speed64 s t.collected t.now) := by
    rcases hinv with h1 | h2 | h3
    · exact Or.inl h1
    · right; left
      refine ⟨h2.1, ?_, h2.2.2⟩
      have h5 := h2.2.1
      have h6 := hclock (by rw [h2.1]; decide)
      show prime_time ≤ t.now - s.start_time
      omega
    · exact Or.inr (Or.inr h3)
  have hsp : prime_time ≤ (measure_speed64 s t.collected t.now).elapsed_time →
      ∃ v : K, (measure_speed64 s t.collected t.now).speed = F64.fin v := by
    intro h
    have h' : prime_time ≤ t.now - s.start_time := h
    have hp : (0 : Int) < prime_time := by decide
    obtain ⟨v, hv, _⟩ := speed64_is_finite s t.collected t.now (by omega) hrange hgames.1 hgames.2
    exact ⟨v, hv⟩
  obtain ⟨ha, hat, has, hab⟩ :=
    advance_phase_invariant (measure_speed64 s t.collected t.now) hm hsp rfl
  have hfa := advance_phase_frame (measure_speed64 s t.collected t.now)
  unfold monitor_iteration64
  by_cases hexit : (advance_phase (measure_speed64 s t.collected t.now)).1 = true
  · simp only [hexit, if_true]
    exact ⟨ha, hat, hfa.2.1, hfa.2.2.2.2.2.2.1⟩
  · simp only [hexit]
    have hf : (advance_phase (measure_speed64 s t.collected t.now)).1 = false := by
      simpa using hexit
    have hr := record_sample_invariant (advance_phase (measure_speed64 s t.collected t.now)).2 ha
      (fun hp => by
        obtain ⟨v, a, b, hv, h1, h2, h3, h4⟩ := hab hf hp
        exact ⟨v, a, b, has.trans hv, h1, h2, h3, h4⟩)
    have hd := display_invariant _ hr.1
    have hfr := record_sample_frame (advance_phase (measure_speed64 s t.collected t.now)).2
    have hfd := display_frame
      (record_sample (advance_phase (measure_speed64 s t.collected t.now)).2)
    refine ⟨hd.1, hd.2.trans (hr.2.trans hat), ?_, ?_⟩
    · exact hfd.2.1.trans (hfr.2.1.trans hfa.2.1)
    · exact hfd.2.2.2.2.2.1.trans (hfr.2.2.2.2.2.1.trans hfa.2.2.2.2.2.2.1)

/-- The float64 loop keeps the invariant on readings whose timestamps never decrease, as long
as the elapsed time and the number of games are int64 values. -/
theorem monitor_loop64_invariant (ticks : List Tick) (s : MonitorState K)
    (hinv : LoopInvariant s)
    (hclock : s.phase ≠ 1 → ∀ u ∈ ticks, s.current_time ≤ u.now)
    (hsorted : (ticks.map Tick.now).Pairwise (fun a b => a ≤ b))
    (hcollected : ∀ u ∈ ticks, 0 ≤ u.collected)
    (hgames : 1 ≤ s.total_games)
    (htotal : s.total_games + (ticks.map Tick.collected).sum < 2 ^ 63)
    (hrange : ∀ u ∈ ticks, u.now - s.start_time < 2 ^ 63) :
    LoopInvariant (monitor_loop64 s ticks).2 := by
  induction ticks generalizing s with
  | nil => exact hinv
  | cons t rest ih =>
    have hc := hcollected t (List.mem_cons_self _ _)
    have hsum : 0 ≤ (rest.map Tick.collected).sum := by
      apply List.sum_nonneg
      intro x hx
      rw [List.mem_map] at hx
      obtain ⟨u, hu, rfl⟩ := hx
      exact hcollected u (List.mem_cons_of_mem _ hu)
    rw [List.map_cons, List.sum_cons] at htotal
    obtain ⟨hi, hnow, hstart, hg⟩ := monitor_iteration64_invariant s t hinv
      (fun hp => hclock hp t (List.mem_cons_self _ _))
      (le_of_lt (hrange t (List.mem_cons_self _ _)))
      ⟨by omega, by omega⟩
    rw [monitor_loop64]
    by_cases hexit : (monitor_iteration64 s t).1 = true
    · simp only [hexit, if_true]
      exact hi
    · simp only [hexit]
      rw [List.map_cons, List.pairwise_cons] at hsorted
      apply ih _ hi _ hsorted.2
      · intro u hu
        exact hcollected u (List.mem_cons_of_mem _ hu)
      · rw [hg]
        omega
      · rw [hg]
        omega
      · intro u hu
        rw [hstart]
        exact hrange u (List.mem_cons_of_mem _ hu)
      · intro _ u hu
        rw [hnow]
        exact hsorted.1 u.now (List.mem_map_of_mem _ hu)

end LoopBounds64

/-! ## The float64 loop takes the branches of the loop without rounding -/

/-- Lines 68-90 take the same branch in two states that agree on the phase and the clock. -/
theorem advance_phase_control {K : Type} [LinearOrderedField K] (s s' : MonitorState K)
    (h : SameControl s s') :
    (advance_phase s).1 = (advance_phase s').1 ∧
    SameControl (advance_phase s).2 (advance_phase s').2 := by
  obtain ⟨h1, h2, h3, h4, h5, h6, h7, h8⟩ := h
  have e := advance_phase_exit s
  have e' := advance_phase_exit s'
  have p := advance_phase_phase s
  have p' := advance_phase_phase s'
  have f := advance_phase_frame s
  have f' := advance_phase_frame s'
  constructor
  · rw [Bool.eq_iff_iff, e, e', h6]
  · refine ⟨?_, ?_, ?_, ?_, ?_, ?_, ?_, ?_⟩
    · rw [f.2.1, f'.2.1, h1]
    · rw [f.2.2.1, f'.2.2.1, h2]
    · rw [f.2.2.2.1, f'.2.2.2.1, h3]
    · rw [f.2.2.2.2.1, f'.2.2.2.2.1, h4]
    · rw [f.2.2.2.2.2.1, f'.2.2.2.2.2.1, h5]
    · rw [p, p', h5, h6]
    · rw [f.2.2.2.2.2.2.1, f'.2.2.2.2.2.2.1, h7]
    · rw [f.1, f'.1, h8]

section Control

variable {K : Type} [LinearOrderedField K] [FloorRing K]

/-- Lines 58-66 write the same clock variables and running total with and without rounding. -/
theorem measure_speed64_control (s s' : MonitorState K) (collected now : Int)
    (h : SameControl s s') :
    SameControl (measure_speed s collected now) (measure_speed64 s' collected now) := by
  obtain ⟨h1, h2, h3, h4, h5, h6, h7, h8⟩ := h
  refine ⟨h1, rfl, h3, h4, ?_, h6, ?_, h8⟩
  · show now - s.start_time = now - s'.start_time
    rw [h1]
  · show s.total_games + collected = s'.total_games + collected
    rw [h7]

end Control

section ControlFrames

variable {K : Type}

/-- Lines 92-95 take the same branch in two states that agree on the phase and the clock. -/
theorem record_sample_control (s s' : MonitorState K) (h : SameControl s s') :
    SameControl (record_sample s) (record_sample s') := by
  obtain ⟨h1, h2, h3, h4, h5, h6, h7, h8⟩ := h
  have f := record_sample_frame s
  have f' := record_sample_frame s'
  have q := record_sample_samples s
  have q' := record_sample_samples s'
  refine ⟨?_, ?_, ?_, ?_, ?_, ?_, ?_, ?_⟩
  · rw [f.2.1, f'.2.1, h1]
  · rw [f.2.2.1, f'.2.2.1, h2]
  · rw [f.2.2.2.1, f'.2.2.2.1, h3]
  · rw [q.2, q'.2, h2, h4, h6]
  · rw [f.2.2.2.2.1, f'.2.2.2.2.1, h5]
  · rw [f.1, f'.1, h6]
  · rw [f.2.2.2.2.2.1, f'.2.2.2.2.2.1, h7]
  · rw [q.1, q'.1, h2, h4, h6]
    split_ifs
    · rw [List.length_append, List.length_append, h8]
      rfl
    · exact h8

/-- Lines 97-111 take the same branch in two states that agree on the phase and the clock. -/
theorem display_control (s s' : MonitorState K) (h : SameControl s s') :
    SameControl (display s) (display s') := by
  obtain ⟨h1, h2, h3, h4, h5, h6, h7, h8⟩ := h
  have f := display_frame s
  have f' := display_frame s'
  have p := display_phase s
  have p' := display_phase s'
  have hd : (display s).last_display_time = (display s').last_display_time := by
    unfold display
    dsimp only
    rw [h2, h3, h6]
    split_ifs <;> first | rfl | exact h3
  refine ⟨?_, ?_, hd, ?_, ?_, ?_, ?_, ?_⟩
  · rw [f.2.1, f'.2.1, h1]
  · rw [f.2.2.1, f'.2.2.1, h2]
  · rw [f.2.2.2.1, f'.2.2.2.1, h4]
  · rw [f.2.2.2.2.1, f'.2.2.2.2.1, h5]
  · rw [p, p', h2, h3, h6]
  · rw [f.2.2.2.2.2.1, f'.2.2.2.2.2.1, h7]
  · rw [f.1, f'.1, h8]

end ControlFrames

section ControlOfRuns

variable {K : Type} [LinearOrderedField K] [FloorRing K]

/-- One iteration with rounding breaks exactly when the iteration without rounding does, and
leaves the same clock variables, phase, running total and number of samples. -/
theorem monitor_iteration64_control (s s' : MonitorState K) (t : Tick) (h : SameControl s s') :
    (monitor_iteration s t).1 = (monitor_iteration64 s' t).1 ∧
    SameControl (monitor_iteration s t).2 (monitor_iteration64 s' t).2 := by
  obtain ⟨ha, hb⟩ := advance_phase_control _ _
    (measure_speed64_control s s' t.collected t.now h)
  unfold monitor_iteration monitor_iteration64
  dsimp only
  rw [← ha]
  by_cases hexit : (advance_phase (measure_speed s t.collected t.now)).1 = true
  · rw [if_pos hexit, if_pos hexit]
    exact ⟨ha, hb⟩
  · rw [if_neg hexit, if_neg hexit]
    exact ⟨rfl, display_control _ _ (record_sample_control _ _ hb)⟩

/-- The loop with rounding breaks exactly when the loop without rounding does, and leaves the
same clock variables, phase, running total and number of samples. -/
theorem monitor_loop64_control (ticks : List Tick) (s s' : MonitorState K)
    (h : SameControl s s') :
    (monitor_loop s ticks).1 = (monitor_loop64 s' ticks).1 ∧
    SameControl (monitor_loop s ticks).2 (monitor_loop64 s' ticks).2 := by
  induction ticks generalizing s s' with
  | nil => exact ⟨rfl, h⟩
  | cons t rest ih =>
    obtain ⟨ha, hb⟩ := monitor_iteration64_control s s' t h
    simp only [monitor_loop, monitor_loop64]
    rw [← ha]
    by_cases hexit : (monitor_iteration s t).1 = true
    · rw [if_pos hexit, if_pos hexit]
      exact ⟨ha, hb⟩
    · rw [if_neg hexit, if_neg hexit]
      exact ih _ _ hb

/-- On readings whose timestamps never decrease the float64 loop records at most 12000
samples. -/
theorem loop64_sample_count (start_time current_time : Int) (ticks : List Tick)
    (hsorted : (ticks.map Tick.now).Pairwise (fun a b => a ≤ b)) :
    (monitor_loop64 (initial_state start_time current_time : MonitorState K)
      ticks).2.samples.length ≤ 12000 := by
  have h := loop_sample_spacing ticks (initial_state start_time current_time : MonitorState K)
    ⟨by simp [initial_state], fun _ => rfl, fun h => by simp [initial_state] at h⟩
    (fun h => absurd rfl h) hsorted
  have hc := (monitor_loop64_control ticks
    (initial_state start_time current_time : MonitorState K)
    (initial_state start_time current_time) ⟨rfl, rfl, rfl, rfl, rfl, rfl, rfl, rfl⟩).2
  rw [← hc.2.2.2.2.2.2.2]
  exact h.1

end ControlOfRuns

/-! ## The rounding error of the float64 mean -/

/-- A count up to `2^52` times `2^-53` is at most one half. -/
theorem F64.count_mul_le {K : Type} [LinearOrderedField K] (k : Nat) (hk : k ≤ 2 ^ 52) :
    2 * (k : K) * (2 : K) ^ (-53 : Int) ≤ 1 := by
  have he : (0 : K) < (2 : K) ^ (-53 : Int) := F64.two_zpow_pos _
  have h52 : (k : K) ≤ (2 : K) ^ (52 : Int) := by
    have h : (k : K) ≤ (2 : K) ^ 52 := by exact_mod_cast hk
    rw [← zpow_natCast] at h
    exact_mod_cast h
  have hprod : (2 : K) * (2 : K) ^ (52 : Int) * (2 : K) ^ (-53 : Int) = 1 := by
    rw [mul_assoc, ← zpow_add₀ (by norm_num : (2 : K) ≠ 0)]
    norm_num
  generalize (2 : K) ^ (-53 : Int) = u at he hprod ⊢
  generalize (2 : K) ^ (52 : Int) = w at h52 hprod
  nlinarith

/-- Factors `1 + u` multiply to at most `1 + 2 k u` as long as `2 k u <= 1`. -/
theorem pow_one_add_le_of_small {K : Type} [LinearOrderedField K] (u : K) (hu : 0 ≤ u)
    (k : Nat) (hk : 2 * (k : K) * u ≤ 1) : (1 + u) ^ k ≤ 1 + 2 * (k : K) * u := by
  induction k with
  | zero => simp
  | succ i ih =>
    push_cast at hk
    have hi : 2 * (i : K) * u ≤ 1 := by nlinarith
    have hi' := ih hi
    rw [pow_succ]
    push_cast
    nlinarith [mul_le_mul_of_nonneg_right hi' (by linarith : (0 : K) ≤ 1 + u)]

/-- Factors `1 - u` multiply to at least `1 - k u`. -/
theorem pow_one_sub_ge_of_small {K : Type} [LinearOrderedField K] (u : K) (hu : u ≤ 1)
    (k : Nat) : 1 - (k : K) * u ≤ (1 - u) ^ k := by
  have hb := one_add_mul_le_pow (by linarith : (-2 : K) ≤ -u) k
  have hform : (1 : K) + -u = 1 - u := by ring
  have hform2 : (1 : K) + (k : K) * -u = 1 - (k : K) * u := by ring
  rw [hform, hform2] at hb
  exact hb

section RelativeError

variable {K : Type} [LinearOrderedField K] [FloorRing K]

/-- From `2^-1022` on, rounding moves a number by at most `2^-53` of its size. -/
theorem F64.nearest_rel (x : K) (hx : (2 : K) ^ (-1022 : Int) ≤ |x|) :
    |x - F64.nearest x| ≤ (2 : K) ^ (-53 : Int) * |x| := by
  have hpos : 0 < |x| := lt_of_lt_of_le (F64.two_zpow_pos _) hx
  obtain ⟨h1, _⟩ := F64.log_bounds hpos
  have hlog : -1022 ≤ Int.log 2 |x| :=
    (Int.zpow_le_iff_le_log (by norm_num) hpos).mp (by exact_mod_cast hx)
  have he : F64.exponent x = Int.log 2 |x| := max_eq_left hlog
  have hn := F64.nearestAt_near (Int.log 2 |x|) x
  have hsp : (2 : K) ^ (Int.log 2 |x| - 52) / 2
      = (2 : K) ^ (-53 : Int) * (2 : K) ^ Int.log 2 |x| := by
    rw [← zpow_add₀ (by norm_num : (2 : K) ≠ 0), div_eq_iff (by norm_num : (2 : K) ≠ 0),
      ← zpow_add_one₀ (by norm_num : (2 : K) ≠ 0)]
    congr 1
    ring
  unfold F64.nearest
  rw [he]
  calc |x - F64.nearestAt (Int.log 2 |x|) x| ≤ (2 : K) ^ (Int.log 2 |x| - 52) / 2 := hn
    _ = (2 : K) ^ (-53 : Int) * (2 : K) ^ Int.log 2 |x| := hsp
    _ ≤ (2 : K) ^ (-53 : Int) * |x| :=
        mul_le_mul_of_nonneg_left h1 (F64.two_zpow_pos _).le

/-- A positive number between `2^-1022` and `2^1023` rounds to a finite value within `2^-53`
of it, relatively. -/
theorem F64.round64_rel (x : K) (h1 : (2 : K) ^ (-1022 : Int) ≤ x)
    (h2 : x ≤ (2 : K) ^ (1023 : Int)) :
    ∃ r : K, F64.round64 x = F64.fin r ∧ x * (1 - (2 : K) ^ (-53 : Int)) ≤ r ∧
      r ≤ x * (1 + (2 : K) ^ (-53 : Int)) := by
  have hpos : 0 < x := lt_of_lt_of_le (F64.two_zpow_pos _) h1
  have habs : |x| = x := abs_of_pos hpos
  have hrel := F64.nearest_rel x (by rw [habs]; exact h1)
  rw [habs, abs_le] at hrel
  refine ⟨F64.nearest x, F64.round64_of_abs_le x (by rw [habs]; exact h2), ?_, ?_⟩
  · linarith [hrel.2]
  · linarith [hrel.1]

/-- Up to `2^52` factors `1 + 2^-53` multiply to at most 2, and at least 1. -/
theorem F64.pow_one_add_le (k : Nat) (hk : k ≤ 2 ^ 52) :
    1 ≤ (1 + (2 : K) ^ (-53 : Int)) ^ k ∧ (1 + (2 : K) ^ (-53 : Int)) ^ k ≤ 2 := by
  have he : (0 : K) < (2 : K) ^ (-53 : Int) := F64.two_zpow_pos _
  have hk' : 2 * (k : K) * (2 : K) ^ (-53 : Int) ≤ 1 := F64.count_mul_le k hk
  have h := pow_one_add_le_of_small ((2 : K) ^ (-53 : Int)) he.le k hk'
  constructor
  · exact one_le_pow₀ (by linarith)
  · generalize (2 : K) ^ (-53 : Int) = u at he hk' h ⊢
    linarith

/-- Up to `2^52` factors `1 - 2^-53` multiply to at least one half, and at most 1. -/
theorem F64.pow_one_sub_ge (k : Nat) (hk : k ≤ 2 ^ 52) :
    1 / 2 ≤ (1 - (2 : K) ^ (-53 : Int)) ^ k ∧ (1 - (2 : K) ^ (-53 : Int)) ^ k ≤ 1 := by
  have he : (0 : K) < (2 : K) ^ (-53 : Int) := F64.two_zpow_pos _
  have he1 : (2 : K) ^ (-53 : Int) ≤ 1 := by
    have h : (2 : K) ^ (-53 : Int) ≤ (2 : K) ^ (0 : Int) := F64.two_zpow_le (by norm_num)
    simpa using h
  have hk' : 2 * (k : K) * (2 : K) ^ (-53 : Int) ≤ 1 := F64.count_mul_le k hk
  have h := pow_one_sub_ge_of_small ((2 : K) ^ (-53 : Int)) he1 k
  constructor
  · generalize (2 : K) ^ (-53 : Int) = u at he he1 hk' h ⊢
    linarith
  · exact pow_le_one₀ (by linarith) (by linarith)

end RelativeError

section MeanError

variable {K : Type} [LinearOrderedField K] [FloorRing K]

/-- One addition of the running total: from a total within the error bound of `k` samples to
a total within the error bound of `k + 1` samples. -/
theorem add64_within (a b v τ : K) (k : Nat) (hk : k + 1 ≤ 2 ^ 52)
    (ha : (2 : K) ^ (-63 : Int) ≤ a) (hb : b ≤ (2 : K) ^ (63 : Int)) (hv : a ≤ v ∧ v ≤ b)
    (hlo : (k : K) * a * (1 - (2 : K) ^ (-53 : Int)) ^ k ≤ τ)
    (hhi : τ ≤ (k : K) * b * (1 + (2 : K) ^ (-53 : Int)) ^ k) :
    ∃ r : K, F64.add64 (F64.fin τ) (F64.fin v) = F64.fin r ∧
      ((k + 1 : Nat) : K) * a * (1 - (2 : K) ^ (-53 : Int)) ^ (k + 1) ≤ r ∧
      r ≤ ((k + 1 : Nat) : K) * b * (1 + (2 : K) ^ (-53 : Int)) ^ (k + 1) := by
  obtain ⟨hP1, hP2⟩ := @F64.pow_one_add_le K _ _ k (by omega)
  obtain ⟨hQ1, hQ2⟩ := @F64.pow_one_sub_ge K _ _ k (by omega)
  have he : (0 : K) < (2 : K) ^ (-53 : Int) := F64.two_zpow_pos _
  have he1 : (2 : K) ^ (-53 : Int) ≤ 1 := by
    have h : (2 : K) ^ (-53 : Int) ≤ (2 : K) ^ (0 : Int) := F64.two_zpow_le (by norm_num)
    simpa using h
  have ha0 : 0 < a := lt_of_lt_of_le (F64.two_zpow_pos _) ha
  have hb0 : 0 < b := by linarith [hv.1, hv.2]
  have hk0 : (0 : K) ≤ (k : K) := Nat.cast_nonneg k
  have hk52 : (k : K) ≤ (2 : K) ^ (52 : Int) := by
    have h : (k : K) ≤ (2 : K) ^ 52 := by exact_mod_cast (by omega : k ≤ 2 ^ 52)
    rw [← zpow_natCast] at h
    exact_mod_cast h
  have hτ0 : 0 ≤ τ := by
    refine le_trans ?_ hlo
    exact mul_nonneg (mul_nonneg hk0 ha0.le) (le_trans (by norm_num) hQ1)
  have hx1 : (2 : K) ^ (-1022 : Int) ≤ τ + v := by
    have h : (2 : K) ^ (-1022 : Int) ≤ (2 : K) ^ (-63 : Int) := F64.two_zpow_le (by norm_num)
    linarith [hv.1]
  have hkb : (k : K) * b * (1 + (2 : K) ^ (-53 : Int)) ^ k
      ≤ (2 : K) ^ (52 : Int) * (2 : K) ^ (63 : Int) * 2 := by
    have h1 : (k : K) * b ≤ (2 : K) ^ (52 : Int) * (2 : K) ^ (63 : Int) :=
      mul_le_mul hk52 hb hb0.le (F64.two_zpow_pos _).le
    exact mul_le_mul h1 hP2 (by linarith) (mul_pos (F64.two_zpow_pos _) (F64.two_zpow_pos _)).le
  have hx2 : τ + v ≤ (2 : K) ^ (1023 : Int) := by
    have h2 : (2 : K) ^ (52 : Int) * (2 : K) ^ (63 : Int) * 2 + (2 : K) ^ (63 : Int)
        ≤ (2 : K) ^ (1023 : Int) := by
      have h117 : (2 : K) ^ (52 : Int) * (2 : K) ^ (63 : Int) * 2 + (2 : K) ^ (63 : Int)
          ≤ (2 : K) ^ (117 : Int) := by norm_num
      exact le_trans h117 (F64.two_zpow_le (by norm_num))
    linarith [hv.2]
  obtain ⟨r, hr, hr1, hr2⟩ := F64.round64_rel (τ + v) hx1 hx2
  refine ⟨r, by rw [F64.add64_fin_fin, hr], ?_, ?_⟩
  · have hstep : ((k + 1 : Nat) : K) * a * (1 - (2 : K) ^ (-53 : Int)) ^ (k + 1)
        ≤ (τ + v) * (1 - (2 : K) ^ (-53 : Int)) := by
      rw [pow_succ]
      push_cast
      have haQ : a * (1 - (2 : K) ^ (-53 : Int)) ^ k ≤ v := by
        calc a * (1 - (2 : K) ^ (-53 : Int)) ^ k ≤ a * 1 :=
              mul_le_mul_of_nonneg_left hQ2 ha0.le
          _ = a := mul_one a
          _ ≤ v := hv.1
      have hsum : ((k : K) + 1) * a * (1 - (2 : K) ^ (-53 : Int)) ^ k ≤ τ + v := by
        have : ((k : K) + 1) * a * (1 - (2 : K) ^ (-53 : Int)) ^ k
            = (k : K) * a * (1 - (2 : K) ^ (-53 : Int)) ^ k
              + a * (1 - (2 : K) ^ (-53 : Int)) ^ k := by ring
        rw [this]
        linarith
      calc ((k : K) + 1) * a * ((1 - (2 : K) ^ (-53 : Int)) ^ k * (1 - (2 : K) ^ (-53 : Int)))
          = (((k : K) + 1) * a * (1 - (2 : K) ^ (-53 : Int)) ^ k)
              * (1 - (2 : K) ^ (-53 : Int)) := by ring
        _ ≤ (τ + v) * (1 - (2 : K) ^ (-53 : Int)) :=
            mul_le_mul_of_nonneg_right hsum (by linarith)
    exact le_trans hstep hr1
  · have hstep : (τ + v) * (1 + (2 : K) ^ (-53 : Int))
        ≤ ((k + 1 : Nat) : K) * b * (1 + (2 : K) ^ (-53 : Int)) ^ (k + 1) := by
      rw [pow_succ]
      push_cast
      have hbP : v ≤ b * (1 + (2 : K) ^ (-53 : Int)) ^ k := by
        calc v ≤ b := hv.2
          _ = b * 1 := (mul_one b).symm
          _ ≤ b * (1 + (2 : K) ^ (-53 : Int)) ^ k := mul_le_mul_of_nonneg_left hP1 hb0.le
      have hsum : τ + v ≤ ((k : K) + 1) * b * (1 + (2 : K) ^ (-53 : Int)) ^ k := by
        have : ((k : K) + 1) * b * (1 + (2 : K) ^ (-53 : Int)) ^ k
            = (k : K) * b * (1 + (2 : K) ^ (-53 : Int)) ^ k
              + b * (1 + (2 : K) ^ (-53 : Int)) ^ k := by ring
        rw [this]
        linarith
      calc (τ + v) * (1 + (2 : K) ^ (-53 : Int))
          ≤ (((k : K) + 1) * b * (1 + (2 : K) ^ (-53 : Int)) ^ k)
              * (1 + (2 : K) ^ (-53 : Int)) :=
            mul_le_mul_of_nonneg_right hsum (by linarith)
        _ = ((k : K) + 1) * b * ((1 + (2 : K) ^ (-53 : Int)) ^ k * (1 + (2 : K) ^ (-53 : Int))) := by
            ring
    exact le_trans hr2 hstep

/-- The float64 running total of samples between `a` and `b`, themselves between `2^-63` and
`2^63`, is within the error bound of their number. -/
theorem total64_within (S : List K) (a b : K) (ha : (2 : K) ^ (-63 : Int) ≤ a)
    (hb : b ≤ (2 : K) ^ (63 : Int)) (hall : ∀ v ∈ S, a ≤ v ∧ v ≤ b) (k : Nat) (τ : K)
    (hk : k + S.length ≤ 2 ^ 52)
    (hlo : (k : K) * a * (1 - (2 : K) ^ (-53 : Int)) ^ k ≤ τ)
    (hhi : τ ≤ (k : K) * b * (1 + (2 : K) ^ (-53 : Int)) ^ k) :
    ∃ r : K, (S.map F64.fin).foldl (fun total v => F64.add64 total v) (F64.fin τ) = F64.fin r ∧
      ((k + S.length : Nat) : K) * a * (1 - (2 : K) ^ (-53 : Int)) ^ (k + S.length) ≤ r ∧
      r ≤ ((k + S.length : Nat) : K) * b * (1 + (2 : K) ^ (-53 : Int)) ^ (k + S.length) := by
  induction S generalizing k τ with
  | nil => exact ⟨τ, rfl, hlo, hhi⟩
  | cons v rest ih =>
    rw [List.length_cons] at hk
    obtain ⟨r, hr, hr1, hr2⟩ := add64_within a b v τ k (by omega) ha hb
      (hall v (List.mem_cons_self _ _)) hlo hhi
    obtain ⟨r', hr', h1, h2⟩ := ih (fun u hu => hall u (List.mem_cons_of_mem _ hu)) (k + 1) r
      (by omega) hr1 hr2
    have hidx : k + (rest.length + 1) = k + 1 + rest.length := by omega
    refine ⟨r', ?_, ?_, ?_⟩
    · rw [List.map_cons, List.foldl_cons, hr]
      exact hr'
    · rw [List.length_cons, hidx]
      exact h1
    · rw [List.length_cons, hidx]
      exact h2

/-- The float64 mean of `n` samples between `a` and `b`, themselves between `2^-63` and
`2^63`, lies between `a` and `b` up to the rounding of `n` additions and one division. -/
theorem get_mean64_within (S : List K) (a b : K) (hne : S ≠ []) (hlen : S.length < 2 ^ 52)
    (ha : (2 : K) ^ (-63 : Int) ≤ a) (hb : b ≤ (2 : K) ^ (63 : Int))
    (hall : ∀ v ∈ S, a ≤ v ∧ v ≤ b) :
    ∃ m : K, get_mean64 (S.map F64.fin) = F64.fin m ∧
      a * (1 - (2 : K) ^ (-53 : Int)) ^ (S.length + 1) ≤ m ∧
      m ≤ b * (1 + (2 : K) ^ (-53 : Int)) ^ (S.length + 1) := by
  have hn1 : 1 ≤ S.length := List.length_pos.mpr hne
  obtain ⟨r, hr, hr1, hr2⟩ := total64_within S a b ha hb hall 0 0 (by omega) (by simp) (by simp)
  rw [Nat.zero_add] at hr1 hr2
  obtain ⟨hP1, hP2⟩ := @F64.pow_one_add_le K _ _ S.length (by omega)
  obtain ⟨hQ1, hQ2⟩ := @F64.pow_one_sub_ge K _ _ S.length (by omega)
  have he : (0 : K) < (2 : K) ^ (-53 : Int) := F64.two_zpow_pos _
  have he1 : (2 : K) ^ (-53 : Int) ≤ 1 := by
    have h : (2 : K) ^ (-53 : Int) ≤ (2 : K) ^ (0 : Int) := F64.two_zpow_le (by norm_num)
    simpa using h
  have ha0 : 0 < a := lt_of_lt_of_le (F64.two_zpow_pos _) ha
  obtain ⟨v, hv⟩ := List.exists_mem_of_ne_nil S hne
  have hb0 : 0 < b := by linarith [(hall v hv).1, (hall v hv).2]
  have hn0 : (0 : K) < (S.length : K) := by exact_mod_cast hn1
  have hlenK : (F64.ofInt64 (S.length : Int) : F64 K) = F64.fin (S.length : K) := by
    have h := @F64.ofInt64_eq K _ _ (S.length : Int) (by
      rw [abs_of_nonneg (by omega)]
      have : S.length < 2 ^ 53 := by omega
      exact_mod_cast this)
    rw [h]
    simp
  have hy1 : a * (1 - (2 : K) ^ (-53 : Int)) ^ S.length ≤ r / (S.length : K) := by
    rw [le_div_iff₀ hn0]
    calc a * (1 - (2 : K) ^ (-53 : Int)) ^ S.length * (S.length : K)
        = (S.length : K) * a * (1 - (2 : K) ^ (-53 : Int)) ^ S.length := by ring
      _ ≤ r := hr1
  have hy2 : r / (S.length : K) ≤ b * (1 + (2 : K) ^ (-53 : Int)) ^ S.length := by
    rw [div_le_iff₀ hn0]
    calc r ≤ (S.length : K) * b * (1 + (2 : K) ^ (-53 : Int)) ^ S.length := hr2
      _ = b * (1 + (2 : K) ^ (-53 : Int)) ^ S.length * (S.length : K) := by ring
  have hx1 : (2 : K) ^ (-1022 : Int) ≤ r / (S.length : K) := by
    have h64 : (2 : K) ^ (-1022 : Int) ≤ (2 : K) ^ (-64 : Int) := F64.two_zpow_le (by norm_num)
    have hhalf : (2 : K) ^ (-64 : Int) = (2 : K) ^ (-63 : Int) * (1 / 2) := by
      rw [show (-64 : Int) = -63 + -1 by norm_num, zpow_add₀ (by norm_num : (2 : K) ≠ 0)]
      norm_num
    have haQ : (2 : K) ^ (-63 : Int) * (1 / 2) ≤ a * (1 - (2 : K) ^ (-53 : Int)) ^ S.length :=
      mul_le_mul ha hQ1 (by norm_num) ha0.le
    rw [← hhalf] at haQ
    exact le_trans h64 (le_trans haQ hy1)
  have hx2 : r / (S.length : K) ≤ (2 : K) ^ (1023 : Int) := by
    have h64 : (2 : K) ^ (64 : Int) ≤ (2 : K) ^ (1023 : Int) := F64.two_zpow_le (by norm_num)
    have hdbl : (2 : K) ^ (64 : Int) = (2 : K) ^ (63 : Int) * 2 := by
      rw [show (64 : Int) = 63 + 1 by norm_num, zpow_add_one₀ (by norm_num : (2 : K) ≠ 0)]
    have hbP : b * (1 + (2 : K) ^ (-53 : Int)) ^ S.length ≤ (2 : K) ^ (63 : Int) * 2 :=
      mul_le_mul hb hP2 (le_trans (by norm_num) hP1) (F64.two_zpow_pos _).le
    rw [← hdbl] at hbP
    exact le_trans hy2 (le_trans hbP h64)
  obtain ⟨m, hm, hm1, hm2⟩ := F64.round64_rel (r / (S.length : K)) hx1 hx2
  refine ⟨m, ?_, ?_, ?_⟩
  · simp only [get_mean64, List.length_map]
    rw [hr, hlenK, F64.div64_fin_fin _ _ (ne_of_gt hn0), hm]
  · rw [pow_succ]
    calc a * ((1 - (2 : K) ^ (-53 : Int)) ^ S.length * (1 - (2 : K) ^ (-53 : Int)))
        = (a * (1 - (2 : K) ^ (-53 : Int)) ^ S.length) * (1 - (2 : K) ^ (-53 : Int)) := by ring
      _ ≤ (r / (S.length : K)) * (1 - (2 : K) ^ (-53 : Int)) :=
          mul_le_mul_of_nonneg_right hy1 (by linarith)
      _ ≤ m := hm1
  · rw [pow_succ]
    calc m ≤ (r / (S.length : K)) * (1 + (2 : K) ^ (-53 : Int)) := hm2
      _ ≤ (b * (1 + (2 : K) ^ (-53 : Int)) ^ S.length) * (1 + (2 : K) ^ (-53 : Int)) :=
          mul_le_mul_of_nonneg_right hy2 (by linarith)
      _ = b * ((1 + (2 : K) ^ (-53 : Int)) ^ S.length * (1 + (2 : K) ^ (-53 : Int))) := by ring

end MeanError

/-! ## The running bounds of the float64 loop are speeds -/

section Range64

variable {K : Type} [LinearOrderedField K] [FloorRing K]

/-- A list of finite values within bounds is the image of a list of numbers within them. -/
theorem exists_list_of_fin (xs : List (F64 K)) (a b : K)
    (h : ∀ x ∈ xs, ∃ r : K, x = F64.fin r ∧ a ≤ r ∧ r ≤ b) :
    ∃ S : List K, xs = S.map F64.fin ∧ ∀ r ∈ S, a ≤ r ∧ r ≤ b := by
  induction xs with
  | nil => exact ⟨[], rfl, by simp⟩
  | cons x xs ih =>
    obtain ⟨r, hx, hr⟩ := h x (List.mem_cons_self _ _)
    obtain ⟨S, hS, hb⟩ := ih (fun y hy => h y (List.mem_cons_of_mem _ hy))
    refine ⟨r :: S, by simp [hx, hS], ?_⟩
    intro y hy
    rcases List.mem_cons.mp hy with rfl | hy
    · exact hr
    · exact hb y hy

/-- One iteration of the float64 loop keeps the running bounds within the range of the
speeds, under the conditions that keep the invariant. -/
theorem monitor_iteration64_range (s : MonitorState K) (t : Tick) (hinv : LoopInvariant s)
    (hb : BoundsInRange s)
    (hclock : s.phase ≠ 1 → s.current_time ≤ t.now)
    (hrange : t.now - s.start_time ≤ 2 ^ 63)
    (hgames : 1 ≤ s.total_games + t.collected ∧ s.total_games + t.collected ≤ 2 ^ 63) :
    BoundsInRange (monitor_iteration64 s t).2 := by
  have hp : (0 : Int) < prime_time := by decide
  have hm : (measure_speed64 s t.collected t.now).phase = s.phase := rfl
  have hmmax : (measure_speed64 s t.collected t.now).maximum_speed = s.maximum_speed := rfl
  have hmmin : (measure_speed64 s t.collected t.now).minimum_speed = s.minimum_speed := rfl
  have hme : (measure_speed64 s t.collected t.now).elapsed_time = t.now - s.start_time := rfl
  have hsp : prime_time ≤ t.now - s.start_time →
      ∃ v : K, (measure_speed64 s t.collected t.now).speed = F64.fin v ∧
        (2 : K) ^ (-63 : Int) ≤ v ∧ v ≤ (2 : K) ^ (63 : Int) := fun h =>
    speed64_is_finite s t.collected t.now (by omega) hrange hgames.1 hgames.2
  have hadv : BoundsInRange (advance_phase (measure_speed64 s t.collected t.now)).2 := by
    have hph := advance_phase_phase (measure_speed64 s t.collected t.now)
    have hbd := advance_phase_bounds (measure_speed64 s t.collected t.now)
    rw [hm, hme] at hph
    rw [hm, hme, hmmax, hmmin] at hbd
    obtain ⟨hbmax, hbmin⟩ := hbd
    by_cases h1 : s.phase = 1 ∧ t.now - s.start_time ≥ prime_time
    · obtain ⟨v, hv, hv1, hv2⟩ := hsp h1.2
      right
      refine ⟨v, v, ?_, ?_, hv1, hv2⟩
      · rw [hbmin, if_pos h1, hv]
      · rw [hbmax, if_pos h1, hv]
    · rw [if_neg h1] at hph hbmax hbmin
      by_cases h2 : s.phase = 2
      · have htime : prime_time ≤ t.now - s.start_time := by
          rcases hinv with h | h | h
          · omega
          · have h5 := h.2.1
            have h6 := hclock (by rw [h2]; decide)
            omega
          · omega
        obtain ⟨v, hv, hv1, hv2⟩ := hsp htime
        rcases hb with h | ⟨a, b, hmin, hmax, ha, hbb⟩
        · omega
        · right
          rw [if_pos h2] at hbmax hbmin
          rw [hbmax, hbmin, hmin, hmax, hv]
          unfold running_max running_min
          by_cases hbv : F64.lt (F64.fin b) (F64.fin v) = true <;>
            by_cases hva : F64.lt (F64.fin v) (F64.fin a) = true <;>
            simp only [hbv, hva, if_true, if_false]
          · exact ⟨v, v, rfl, rfl, hv1, hv2⟩
          · exact ⟨a, v, rfl, rfl, ha, hv2⟩
          · exact ⟨v, b, rfl, rfl, hv1, hbb⟩
          · exact ⟨a, b, rfl, rfl, ha, hbb⟩
      · rw [if_neg h2] at hph hbmax hbmin
        rcases hb with h | ⟨a, b, hmin, hmax, ha, hbb⟩
        · left
          rw [hph]
          exact h
        · right
          exact ⟨a, b, hbmin.trans hmin, hbmax.trans hmax, ha, hbb⟩
  unfold monitor_iteration64
  dsimp only
  by_cases hexit : (advance_phase (measure_speed64 s t.collected t.now)).1 = true
  · rw [if_pos hexit]
    exact hadv
  · rw [if_neg hexit]
    have hfr := record_sample_frame (advance_phase (measure_speed64 s t.collected t.now)).2
    have hfd := display_frame
      (record_sample (advance_phase (measure_speed64 s t.collected t.now)).2)
    have hpd := display_phase
      (record_sample (advance_phase (measure_speed64 s t.collected t.now)).2)
    rcases hadv with h | ⟨a, b, hmin, hmax, ha, hbb⟩
    · left
      show (display (record_sample (advance_phase
        (measure_speed64 s t.collected t.now)).2)).phase = 1
      rw [hpd, hfr.1, h]
      split_ifs with hc
      · omega
      · rfl
    · right
      refine ⟨a, b, ?_, ?_, ha, hbb⟩
      · exact (hfd.2.2.2.2.2.2.2.2.2.trans hfr.2.2.2.2.2.2.2.2.2).trans hmin
      · exact (hfd.2.2.2.2.2.2.2.2.1.trans hfr.2.2.2.2.2.2.2.2.1).trans hmax

/-- The float64 loop keeps the running bounds within the range of the speeds on readings whose
timestamps never decrease, as long as the elapsed time and the number of games are int64
values. -/
theorem monitor_loop64_range (ticks : List Tick) (s : MonitorState K)
    (hinv : LoopInvariant s) (hb : BoundsInRange s)
    (hclock : s.phase ≠ 1 → ∀ u ∈ ticks, s.current_time ≤ u.now)
    (hsorted : (ticks.map Tick.now).Pairwise (fun a b => a ≤ b))
    (hcollected : ∀ u ∈ ticks, 0 ≤ u.collected)
    (hgames : 1 ≤ s.total_games)
    (htotal : s.total_games + (ticks.map Tick.collected).sum < 2 ^ 63)
    (hrange : ∀ u ∈ ticks, u.now - s.start_time < 2 ^ 63) :
    BoundsInRange (monitor_loop64 s ticks).2 := by
  induction ticks generalizing s with
  | nil => exact hb
  | cons t rest ih =>
    have hc := hcollected t (List.mem_cons_self _ _)
    have hsum : 0 ≤ (rest.map Tick.collected).sum := by
      apply List.sum_nonneg
      intro x hx
      rw [List.mem_map] at hx
      obtain ⟨u, hu, rfl⟩ := hx
      exact hcollected u (List.mem_cons_of_mem _ hu)
    rw [List.map_cons, List.sum_cons] at htotal
    obtain ⟨hi, hnow, hstart, hg⟩ := monitor_iteration64_invariant s t hinv
      (fun hp => hclock hp t (List.mem_cons_self _ _))
      (le_of_lt (hrange t (List.mem_cons_self _ _)))
      ⟨by omega, by omega⟩
    have hbi := monitor_iteration64_range s t hinv hb
      (fun hp => hclock hp t (List.mem_cons_self _ _))
      (le_of_lt (hrange t (List.mem_cons_self _ _)))
      ⟨by omega, by omega⟩
    rw [monitor_loop64]
    by_cases hexit : (monitor_iteration64 s t).1 = true
    · simp only [hexit, if_true]
      exact hbi
    · simp only [hexit]
      rw [List.map_cons, List.pairwise_cons] at hsorted
      apply ih _ hi hbi _ hsorted.2
      · intro u hu
        exact hcollected u (List.mem_cons_of_mem _ hu)
      · rw [hg]
        omega
      · rw [hg]
        omega
      · intro u hu
        rw [hstart]
        exact hrange u (List.mem_cons_of_mem _ hu)
      · intro _ u hu
        rw [hnow]
        exact hsorted.1 u.now (List.mem_map_of_mem _ hu)

end Range64

/-! ## A run of the loop whose mean exceeds the tracked maximum -/

/-- The float64 quotient `1 / 17179869406`. -/
theorem speed_of_rate_17179869406 :
    F64.div64 (F64.fin 1) (F64.fin (17179869406 : ℝ))
      = F64.fin ((9007199138349058 : Int) * (2 : ℝ) ^ (-35 - 52 : Int)) := by
  rw [F64.div64_fin_fin _ _ (by norm_num)]
  apply F64.round64_of_near _ (-35) 9007199138349058 (by norm_num) (by norm_num)
  · rw [abs_of_pos (by norm_num)]
    norm_num
  · rw [abs_of_pos (by norm_num)]
    norm_num
  · rw [abs_lt]
    constructor <;> norm_num

/-- The rates of the run: the elapsed time is each time 17179869406 ns per game. -/
theorem rates_of_the_run :
    F64.div64 (F64.ofInt64 34359738812) (F64.ofInt64 2) = (F64.fin 17179869406 : F64 ℝ) ∧
    F64.div64 (F64.ofInt64 51539608218) (F64.ofInt64 3) = (F64.fin 17179869406 : F64 ℝ) ∧
    F64.div64 (F64.ofInt64 68719477624) (F64.ofInt64 4) = (F64.fin 17179869406 : F64 ℝ) ∧
    F64.div64 (F64.ofInt64 85899347030) (F64.ofInt64 5) = (F64.fin 17179869406 : F64 ℝ) := by
  refine ⟨?_, ?_, ?_, ?_⟩
  · have h := @F64.div64_of_multiple ℝ _ _ 34359738812 2 17179869406 (by norm_num) (by norm_num)
      (by norm_num) (by norm_num) (by norm_num)
    exact_mod_cast h
  · have h := @F64.div64_of_multiple ℝ _ _ 51539608218 3 17179869406 (by norm_num) (by norm_num)
      (by norm_num) (by norm_num) (by norm_num)
    exact_mod_cast h
  · have h := @F64.div64_of_multiple ℝ _ _ 68719477624 4 17179869406 (by norm_num) (by norm_num)
      (by norm_num) (by norm_num) (by norm_num)
    exact_mod_cast h
  · have h := @F64.div64_of_multiple ℝ _ _ 85899347030 5 17179869406 (by norm_num) (by norm_num)
      (by norm_num) (by norm_num) (by norm_num)
    exact_mod_cast h

/-- The run of five iterations at 17179869406 ns per game leaves the loop, has recorded the
same speed three times, and that speed is the tracked maximum and minimum. -/
theorem run_of_equal_speeds :
    (monitor_loop64 (initial_state 0 0 : MonitorState ℝ)
      [⟨1, 34359738812⟩, ⟨1, 51539608218⟩, ⟨1, 68719477624⟩, ⟨1, 85899347030⟩,
        ⟨0, 85899347030⟩]).1 = true ∧
    (monitor_loop64 (initial_state 0 0 : MonitorState ℝ)
      [⟨1, 34359738812⟩, ⟨1, 51539608218⟩, ⟨1, 68719477624⟩, ⟨1, 85899347030⟩,
        ⟨0, 85899347030⟩]).2.samples
      = [F64.fin ((9007199138349058 : Int) * (2 : ℝ) ^ (-35 - 52 : Int)),
         F64.fin ((9007199138349058 : Int) * (2 : ℝ) ^ (-35 - 52 : Int)),
         F64.fin ((9007199138349058 : Int) * (2 : ℝ) ^ (-35 - 52 : Int))] ∧
    (monitor_loop64 (initial_state 0 0 : MonitorState ℝ)
      [⟨1, 34359738812⟩, ⟨1, 51539608218⟩, ⟨1, 68719477624⟩, ⟨1, 85899347030⟩,
        ⟨0, 85899347030⟩]).2.maximum_speed
      = F64.fin ((9007199138349058 : Int) * (2 : ℝ) ^ (-35 - 52 : Int)) ∧
    (monitor_loop64 (initial_state 0 0 : MonitorState ℝ)
      [⟨1, 34359738812⟩, ⟨1, 51539608218⟩, ⟨1, 68719477624⟩, ⟨1, 85899347030⟩,
        ⟨0, 85899347030⟩]).2.minimum_speed
      = F64.fin ((9007199138349058 : Int) * (2 : ℝ) ^ (-35 - 52 : Int)) := by
  obtain ⟨h1, h2, h3, h4⟩ := rates_of_the_run
  have hs := speed_of_rate_17179869406
  refine ⟨?_, ?_, ?_, ?_⟩ <;>
  simp only [monitor_loop64, monitor_iteration64, measure_speed64, advance_phase, record_sample,
      display, initial_state, prime_time, end_time, sample_time, sample_frequency,
      display_frequency, ns, Int.tdiv] <;>
  norm_num [h1, h2, h3, h4, hs, F64.lt_fin_fin]

/-- The float64 mean of three samples equal to `9007199138349058 * 2^-87` is one unit in the
last place above them: the running total `3 x` lies half way between two float64 values and is
rounded up to the even one. -/
theorem mean_of_three_equal_samples :
    get_mean64
      [F64.fin ((9007199138349058 : Int) * (2 : ℝ) ^ (-35 - 52 : Int)),
       F64.fin ((9007199138349058 : Int) * (2 : ℝ) ^ (-35 - 52 : Int)),
       F64.fin ((9007199138349058 : Int) * (2 : ℝ) ^ (-35 - 52 : Int))]
      = F64.fin ((9007199138349059 : Int) * (2 : ℝ) ^ (-35 - 52 : Int)) := by
  have a1 : F64.round64 (0 + (9007199138349058 : Int) * (2 : ℝ) ^ (-35 - 52 : Int))
      = F64.fin ((9007199138349058 : Int) * (2 : ℝ) ^ (-35 - 52 : Int)) := by
    rw [zero_add]
    exact F64.round64_scaled _ _ (by norm_num) (by norm_num) (by norm_num)
  have a2 : F64.round64 ((9007199138349058 : Int) * (2 : ℝ) ^ (-35 - 52 : Int)
        + (9007199138349058 : Int) * (2 : ℝ) ^ (-35 - 52 : Int))
      = F64.fin ((9007199138349058 : Int) * (2 : ℝ) ^ (-86 : Int)) := by
    have h : (9007199138349058 : Int) * (2 : ℝ) ^ (-35 - 52 : Int)
        + (9007199138349058 : Int) * (2 : ℝ) ^ (-35 - 52 : Int)
        = (9007199138349058 : Int) * (2 : ℝ) ^ (-86 : Int) := by norm_num
    rw [h]
    exact F64.round64_scaled _ _ (by norm_num) (by norm_num) (by norm_num)
  have a3 : F64.round64 ((9007199138349058 : Int) * (2 : ℝ) ^ (-86 : Int)
        + (9007199138349058 : Int) * (2 : ℝ) ^ (-35 - 52 : Int))
      = F64.fin ((6755399353761794 : Int) * (2 : ℝ) ^ (-33 - 52 : Int)) := by
    have h := F64.round64_of_tie ((9007199138349058 : Int) * (2 : ℝ) ^ (-86 : Int)
        + (9007199138349058 : Int) * (2 : ℝ) ^ (-35 - 52 : Int)) (-33) 6755399353761793
        (by norm_num) (by norm_num)
        (by rw [abs_of_pos (by norm_num)]; norm_num)
        (by rw [abs_of_pos (by norm_num)]; norm_num)
        (by norm_num)
    rw [h]
    norm_num
  have a4 : F64.round64 ((6755399353761794 : Int) * (2 : ℝ) ^ (-33 - 52 : Int) / ((3 : Int) : ℝ))
      = F64.fin ((9007199138349059 : Int) * (2 : ℝ) ^ (-35 - 52 : Int)) := by
    apply F64.round64_of_near _ (-35) 9007199138349059 (by norm_num) (by norm_num)
    · rw [abs_of_pos (by norm_num)]
      norm_num
    · rw [abs_of_pos (by norm_num)]
      norm_num
    · rw [abs_lt]
      constructor <;> norm_num
  have h3 : (F64.ofInt64 (3 : Int) : F64 ℝ) = F64.fin ((3 : Int) : ℝ) :=
    F64.ofInt64_eq 3 (by norm_num)
  simp only [get_mean64, List.foldl_cons, List.foldl_nil, F64.add64_fin_fin, a1, a2, a3]
  show F64.div64 (F64.fin _) (F64.ofInt64 (3 : Int)) = _
  rw [h3, F64.div64_fin_fin _ _ (by norm_num), a4]

/-- C1, as stated, fails in float64 arithmetic. In the run whose clock readings are 2, 3, 4
and 5 times 17179869406 ns after the start, with one game collected at each of the first four
iterations, every speed is the float64 quotient `1 / 17179869406`; it is recorded three times
and is the tracked maximum. The running total of `get_mean` is rounded up, and the mean is
one unit in the last place above the maximum. -/
theorem mean_above_maximum_speed :
    (([⟨1, 34359738812⟩, ⟨1, 51539608218⟩, ⟨1, 68719477624⟩, ⟨1, 85899347030⟩,
        ⟨0, 85899347030⟩] : List Tick).map Tick.now).Pairwise (fun a b => a ≤ b) ∧
    (monitor_loop64 (initial_state 0 0 : MonitorState ℝ)
      [⟨1, 34359738812⟩, ⟨1, 51539608218⟩, ⟨1, 68719477624⟩, ⟨1, 85899347030⟩,
        ⟨0, 85899347030⟩]).1 = true ∧
    (monitor_loop64 (initial_state 0 0 : MonitorState ℝ)
      [⟨1, 34359738812⟩, ⟨1, 51539608218⟩, ⟨1, 68719477624⟩, ⟨1, 85899347030⟩,
        ⟨0, 85899347030⟩]).2.samples ≠ [] ∧
    F64.lt
      (monitor_loop64 (initial_state 0 0 : MonitorState ℝ)
        [⟨1, 34359738812⟩, ⟨1, 51539608218⟩, ⟨1, 68719477624⟩, ⟨1, 85899347030⟩,
          ⟨0, 85899347030⟩]).2.maximum_speed
      (get_mean64 (monitor_loop64 (initial_state 0 0 : MonitorState ℝ)
        [⟨1, 34359738812⟩, ⟨1, 51539608218⟩, ⟨1, 68719477624⟩, ⟨1, 85899347030⟩,
          ⟨0, 85899347030⟩]).2.samples) = true ∧
    F64.le
      (get_mean64 (monitor_loop64 (initial_state 0 0 : MonitorState ℝ)
        [⟨1, 34359738812⟩, ⟨1, 51539608218⟩, ⟨1, 68719477624⟩, ⟨1, 85899347030⟩,
          ⟨0, 85899347030⟩]).2.samples)
      (monitor_loop64 (initial_state 0 0 : MonitorState ℝ)
        [⟨1, 34359738812⟩, ⟨1, 51539608218⟩, ⟨1, 68719477624⟩, ⟨1, 85899347030⟩,
          ⟨0, 85899347030⟩]).2.maximum_speed = false := by
  obtain ⟨hexit, hsamples, hmax, _⟩ := run_of_equal_speeds
  rw [hsamples, hmax, mean_of_three_equal_samples]
  refine ⟨by decide, hexit, by simp, ?_, ?_⟩
  · rw [F64.lt_fin_fin]
    norm_num
  · rw [Bool.eq_false_iff, Ne, F64.le_fin_fin]
    norm_num

/-- C1, amended: for every run of the monitoring loop in float64 arithmetic on readings whose
timestamps never decrease, with collected counts that are not negative and with elapsed times
and game totals that are int64 values, every recorded sample is a finite number that lies
between the tracked minimum and maximum speeds; and when `n` samples were recorded, `n` at
least 1, the bounds and `get_mean(S)` are finite and
`minimum_speed * (1 - 2^-53)^(n+1) ≤ get_mean(S) ≤ maximum_speed * (1 + 2^-53)^(n+1)`. -/
theorem samples_between_tracked_bounds {K : Type} [LinearOrderedField K] [FloorRing K]
    (start_time current_time : Int) (ticks : List Tick)
    (hsorted : (ticks.map Tick.now).Pairwise (fun a b => a ≤ b))
    (hcollected : ∀ t ∈ ticks, 0 ≤ t.collected)
    (htotal : 1 + (ticks.map Tick.collected).sum < 2 ^ 63)
    (hrange : ∀ t ∈ ticks, t.now - start_time < 2 ^ 63) :
    (∀ x ∈ (monitor_loop64 (initial_state start_time current_time : MonitorState K)
        ticks).2.samples,
      (∃ r : K, x = F64.fin r) ∧
      F64.le
        (monitor_loop64 (initial_state start_time current_time : MonitorState K)
          ticks).2.minimum_speed x = true ∧
      F64.le x
        (monitor_loop64 (initial_state start_time current_time : MonitorState K)
          ticks).2.maximum_speed = true) ∧
    ((monitor_loop64 (initial_state start_time current_time : MonitorState K)
        ticks).2.samples ≠ [] →
      ∃ a b m : K,
        (monitor_loop64 (initial_state start_time current_time : MonitorState K)
          ticks).2.minimum_speed = F64.fin a ∧
        (monitor_loop64 (initial_state start_time current_time : MonitorState K)
          ticks).2.maximum_speed = F64.fin b ∧
        get_mean64 (monitor_loop64 (initial_state start_time current_time : MonitorState K)
          ticks).2.samples = F64.fin m ∧
        a * (1 - (2 : K) ^ (-53 : Int)) ^
            ((monitor_loop64 (initial_state start_time current_time : MonitorState K)
              ticks).2.samples.length + 1) ≤ m ∧
        m ≤ b * (1 + (2 : K) ^ (-53 : Int)) ^
            ((monitor_loop64 (initial_state start_time current_time : MonitorState K)
              ticks).2.samples.length + 1)) := by
  have hinv := monitor_loop64_invariant ticks
    (initial_state start_time current_time : MonitorState K)
    (Or.inl ⟨rfl, rfl⟩) (fun h => absurd rfl h) hsorted hcollected (le_refl (1 : Int)) htotal
    hrange
  have hran := monitor_loop64_range ticks
    (initial_state start_time current_time : MonitorState K)
    (Or.inl ⟨rfl, rfl⟩) (Or.inl rfl) (fun h => absurd rfl h) hsorted hcollected
    (le_refl (1 : Int)) htotal hrange
  have hcount := @loop64_sample_count K _ _ start_time current_time ticks hsorted
  generalize (monitor_loop64 (initial_state start_time current_time : MonitorState K) ticks).2
    = s at hinv hran hcount ⊢
  have hb : s.samples ≠ [] → SamplesBounded s ∧ s.phase ≠ 1 := by
    intro hne
    rcases hinv with h | h | h
    · exact absurd h.2 hne
    · exact ⟨h.2.2, by omega⟩
    · exact ⟨h.2, by omega⟩
  constructor
  · intro x hx
    obtain ⟨a, b, hmin, hmax, hall⟩ := (hb (List.ne_nil_of_mem hx)).1
    obtain ⟨r, hr, h1, h2⟩ := hall x hx
    rw [hmin, hmax, hr, F64.le_fin_fin, F64.le_fin_fin]
    exact ⟨⟨r, rfl⟩, h1, h2⟩
  · intro hne
    obtain ⟨⟨a, b, hmin, hmax, hall⟩, hph⟩ := hb hne
    rcases hran with h | ⟨a', b', hmin', hmax', ha, hbb⟩
    · exact absurd h hph
    · have ea : a' = a := F64.fin.inj (hmin'.symm.trans hmin)
      have eb : b' = b := F64.fin.inj (hmax'.symm.trans hmax)
      subst ea
      subst eb
      obtain ⟨S, hS, hSb⟩ := exists_list_of_fin s.samples a' b' hall
      have hlen : s.samples.length = S.length := by rw [hS, List.length_map]
      have hSne : S ≠ [] := by
        intro h0
        rw [h0] at hS
        exact hne hS
      obtain ⟨m, hm, hm1, hm2⟩ := get_mean64_within S a' b' hSne (by omega) ha hbb hSb
      refine ⟨a', b', m, hmin, hmax, ?_, ?_, ?_⟩
      · rw [hS]
        exact hm
      · rw [hlen]
        exact hm1
      · rw [hlen]
        exact hm2

/-- The amended C1 on the run whose mean exceeds the maximum: the speed that it recorded,
`9007199138349058 * 2^-87`, is within the tracked bounds. -/
theorem samples_between_tracked_bounds_witness :
    F64.le
      (monitor_loop64 (initial_state 0 0 : MonitorState ℝ)
        [⟨1, 34359738812⟩, ⟨1, 51539608218⟩, ⟨1, 68719477624⟩, ⟨1, 85899347030⟩,
          ⟨0, 85899347030⟩]).2.minimum_speed
      (F64.fin ((9007199138349058 : Int) * (2 : ℝ) ^ (-35 - 52 : Int))) = true ∧
    F64.le (F64.fin ((9007199138349058 : Int) * (2 : ℝ) ^ (-35 - 52 : Int)))
      (monitor_loop64 (initial_state 0 0 : MonitorState ℝ)
        [⟨1, 34359738812⟩, ⟨1, 51539608218⟩, ⟨1, 68719477624⟩, ⟨1, 85899347030⟩,
          ⟨0, 85899347030⟩]).2.maximum_speed = true :=
  ((samples_between_tracked_bounds 0 0
    [⟨1, 34359738812⟩, ⟨1, 51539608218⟩, ⟨1, 68719477624⟩, ⟨1, 85899347030⟩,
      ⟨0, 85899347030⟩]
    (by decide) (by decide) (by decide) (by decide)).1
    (F64.fin ((9007199138349058 : Int) * (2 : ℝ) ^ (-35 - 52 : Int)))
    (by rw [run_of_equal_speeds.2.1]; exact List.mem_cons_self _ _)).2

/-! ## The sign of the float64 standard deviation -/

section Sign64

variable {K : Type} [LinearOrderedField K] [FloorRing K]

/-- Rounding does not turn a number into NaN. -/
theorem F64.rounded_ne_nan (x : F64 K) (h : x ≠ F64.nan) : F64.rounded x ≠ F64.nan := by
  cases x with
  | nan => exact absurd rfl h
  | ninf => exact fun h => F64.noConfusion h
  | pinf => exact fun h => F64.noConfusion h
  | fin a => exact F64.round64_ne_nan a

/-- Rounding keeps a value that is not negative so. -/
theorem F64.rounded_nonneg (x : F64 K) (h : F64.le (F64.fin 0) x = true) :
    F64.le (F64.fin 0) (F64.rounded x) = true := by
  cases x with
  | nan => exact h
  | ninf => exact h
  | pinf => exact h
  | fin a =>
    rw [F64.le_fin_fin] at h
    exact F64.round64_nonneg h

/-- Adding a finite sample to a total that is a number gives a number. -/
theorem F64.add64_fin_ne_nan (t : F64 K) (v : K) (h : t ≠ F64.nan) :
    F64.add64 t (F64.fin v) ≠ F64.nan := by
  apply F64.rounded_ne_nan
  cases t with
  | nan => exact absurd rfl h
  | ninf => exact fun h => F64.noConfusion h
  | pinf => exact fun h => F64.noConfusion h
  | fin a => exact fun h => F64.noConfusion h

/-- The running total of finite samples is a number. -/
theorem total64_ne_nan (S : List K) (t : F64 K) (h : t ≠ F64.nan) :
    (S.map F64.fin).foldl (fun total v => F64.add64 total v) t ≠ F64.nan := by
  induction S generalizing t with
  | nil => exact h
  | cons x xs ih =>
    rw [List.map_cons, List.foldl_cons]
    exact ih _ (F64.add64_fin_ne_nan t x h)

/-- A number over a finite positive divisor is a number. -/
theorem F64.div64_pos_ne_nan (t : F64 K) (d : K) (hd : 0 < d) (h : t ≠ F64.nan) :
    F64.div64 t (F64.fin d) ≠ F64.nan := by
  apply F64.rounded_ne_nan
  cases t with
  | nan => exact absurd rfl h
  | ninf => simp [F64.div, not_lt.mpr hd.le]
  | pinf => simp [F64.div, not_lt.mpr hd.le]
  | fin a => simp [F64.div, ne_of_gt hd]

/-- A finite sample minus a mean that is a number is a number. -/
theorem F64.fin_sub64_ne_nan (v : K) (m : F64 K) (h : m ≠ F64.nan) :
    F64.sub64 (F64.fin v) m ≠ F64.nan := by
  apply F64.rounded_ne_nan
  cases m with
  | nan => exact absurd rfl h
  | ninf => simp [F64.sub, F64.neg, F64.add]
  | pinf => simp [F64.sub, F64.neg, F64.add]
  | fin a => simp [F64.sub, F64.neg, F64.add]

/-- The square of a number is not negative. -/
theorem F64.square64_nonneg (d : F64 K) (h : d ≠ F64.nan) :
    F64.le (F64.fin 0) (F64.square64 d) = true := by
  cases d with
  | nan => exact absurd rfl h
  | ninf => rfl
  | pinf => rfl
  | fin a =>
    rw [F64.square64_fin]
    apply F64.round64_nonneg
    exact F64.nearestAt_nonneg _ (mul_self_nonneg a)

/-- The float64 sum of two values that are not negative is not negative. -/
theorem F64.add64_nonneg (x y : F64 K) (hx : F64.le (F64.fin 0) x = true)
    (hy : F64.le (F64.fin 0) y = true) : F64.le (F64.fin 0) (F64.add64 x y) = true := by
  apply F64.rounded_nonneg
  cases x <;> cases y <;> simp_all [F64.le, F64.add]
  exact add_nonneg hx hy

/-- The running total of the squared distances of finite samples to a mean that is a number
is not negative. -/
theorem total_sq64_nonneg (S : List K) (m t : F64 K) (hm : m ≠ F64.nan)
    (ht : F64.le (F64.fin 0) t = true) :
    F64.le (F64.fin 0)
      ((S.map F64.fin).foldl
        (fun total v => F64.add64 total (F64.square64 (F64.sub64 v m))) t) = true := by
  induction S generalizing t with
  | nil => exact ht
  | cons x xs ih =>
    rw [List.map_cons, List.foldl_cons]
    exact ih _ (F64.add64_nonneg _ _ ht (F64.square64_nonneg _ (F64.fin_sub64_ne_nan x m hm)))

/-- A value that is not negative over a finite positive divisor is not negative. -/
theorem F64.div64_pos_nonneg (t : F64 K) (d : K) (hd : 0 < d)
    (h : F64.le (F64.fin 0) t = true) : F64.le (F64.fin 0) (F64.div64 t (F64.fin d)) = true := by
  apply F64.rounded_nonneg
  cases t with
  | nan => exact h
  | ninf => exact absurd h (by simp [F64.le])
  | pinf => simp [F64.div, not_lt.mpr hd.le, F64.le]
  | fin a =>
    rw [F64.le_fin_fin] at h
    rw [F64.div_fin_fin _ _ (ne_of_gt hd), F64.le_fin_fin]
    exact div_nonneg h hd.le

/-- The length of a non-empty slice converts to a finite number from 1 on. -/
theorem F64.ofInt64_length (n : Nat) (h1 : 1 ≤ n) (h2 : n < 2 ^ 63) :
    ∃ d : K, (F64.ofInt64 (n : Int) : F64 K) = F64.fin d ∧ 1 ≤ d := by
  obtain ⟨r, hr, h3, _⟩ := @F64.ofInt64_bracket K _ _ (n : Int) (by exact_mod_cast h1)
    (by exact_mod_cast h2.le)
  exact ⟨r, hr, h3⟩

/-- The float64 mean of finite samples, at least one and fewer than `2^63`, is a number. -/
theorem get_mean64_ne_nan (S : List K) (h : S ≠ []) (hlen : S.length < 2 ^ 63) :
    get_mean64 (S.map F64.fin) ≠ F64.nan := by
  have h1 : 1 ≤ S.length := List.length_pos.mpr h
  obtain ⟨d, hd, hd1⟩ := @F64.ofInt64_length K _ _ S.length h1 hlen
  simp only [get_mean64, List.length_map]
  rw [hd]
  exact F64.div64_pos_ne_nan _ d (by linarith) (total64_ne_nan S _ (fun h => F64.noConfusion h))

end Sign64

/-- The square root of a value that is not negative is not negative. -/
theorem F64.sqrt64_nonneg (x : F64 ℝ) (h : F64.le (F64.fin 0) x = true) :
    F64.le (F64.fin 0) (F64.sqrt64 Real.sqrt x) = true := by
  apply F64.rounded_nonneg
  cases x with
  | nan => exact h
  | ninf => exact h
  | pinf => rfl
  | fin a =>
    rw [F64.le_fin_fin] at h
    rw [F64.sqrt_fin _ _ h, F64.le_fin_fin]
    exact Real.sqrt_nonneg a

/-! ## Samples whose float64 standard deviation contradicts their spread -/

/-- The float64 standard deviation of three samples equal to `9007199138349058 * 2^-87` is
`2^-87`, not 0: their float64 mean is one unit in the last place above them. -/
theorem stdev_of_three_equal_samples :
    get_standard_deviation64 Real.sqrt
      [F64.fin (9007199138349058 * (2 : ℝ) ^ (-87 : Int)),
       F64.fin (9007199138349058 * (2 : ℝ) ^ (-87 : Int)),
       F64.fin (9007199138349058 * (2 : ℝ) ^ (-87 : Int))]
      (get_mean64
      [F64.fin (9007199138349058 * (2 : ℝ) ^ (-87 : Int)),
       F64.fin (9007199138349058 * (2 : ℝ) ^ (-87 : Int)),
       F64.fin (9007199138349058 * (2 : ℝ) ^ (-87 : Int))])
      = F64.fin ((2 : ℝ) ^ (-87 : Int)) := by
  have r1 : F64.round64 (4503599569174529 / 77371252455336267181195264 : ℝ) = F64.fin (4503599569174529 / 77371252455336267181195264) := by
    have h := F64.round64_of_near (4503599569174529 / 77371252455336267181195264 : ℝ) (-35) 9007199138349058
      (by norm_num) (by norm_num)
      (by rw [abs_of_pos (by norm_num)]; norm_num)
      (by rw [abs_of_pos (by norm_num)]; norm_num)
      (by rw [abs_lt]; constructor <;> norm_num)
    rw [h]
    norm_num
  have r2 : F64.round64 (4503599569174529 / 38685626227668133590597632 : ℝ) = F64.fin (4503599569174529 / 38685626227668133590597632) := by
    have h := F64.round64_of_near (4503599569174529 / 38685626227668133590597632 : ℝ) (-34) 9007199138349058
      (by norm_num) (by norm_num)
      (by rw [abs_of_pos (by norm_num)]; norm_num)
      (by rw [abs_of_pos (by norm_num)]; norm_num)
      (by rw [abs_lt]; constructor <;> norm_num)
    rw [h]
    norm_num
  have r3 : F64.round64 (13510798707523587 / 77371252455336267181195264 : ℝ) = F64.fin (3377699676880897 / 19342813113834066795298816) := by
    have h := F64.round64_of_tie (13510798707523587 / 77371252455336267181195264 : ℝ) (-33) 6755399353761793
      (by norm_num) (by norm_num)
      (by rw [abs_of_pos (by norm_num)]; norm_num)
      (by rw [abs_of_pos (by norm_num)]; norm_num)
      (by norm_num)
    rw [h]
    norm_num
  have r4 : F64.round64 (3 : ℝ) = F64.fin (3) := by
    have h := F64.round64_of_near (3 : ℝ) 1 6755399441055744
      (by norm_num) (by norm_num)
      (by rw [abs_of_pos (by norm_num)]; norm_num)
      (by rw [abs_of_pos (by norm_num)]; norm_num)
      (by rw [abs_lt]; constructor <;> norm_num)
    rw [h]
    norm_num
  have r5 : F64.round64 (3377699676880897 / 58028439341502200385896448 : ℝ) = F64.fin (9007199138349059 / 154742504910672534362390528) := by
    have h := F64.round64_of_near (3377699676880897 / 58028439341502200385896448 : ℝ) (-35) 9007199138349059
      (by norm_num) (by norm_num)
      (by rw [abs_of_pos (by norm_num)]; norm_num)
      (by rw [abs_of_pos (by norm_num)]; norm_num)
      (by rw [abs_lt]; constructor <;> norm_num)
    rw [h]
    norm_num
  have r6 : F64.round64 (-(1 / 154742504910672534362390528) : ℝ) = F64.fin (-(1 / 154742504910672534362390528)) := by
    have h := F64.round64_of_near (-(1 / 154742504910672534362390528) : ℝ) (-87) (-4503599627370496)
      (by norm_num) (by norm_num)
      (by rw [abs_of_neg (by norm_num)]; norm_num)
      (by rw [abs_of_neg (by norm_num)]; norm_num)
      (by rw [abs_lt]; constructor <;> norm_num)
    rw [h]
    norm_num
  have r7 : F64.nearest53 (1 / 23945242826029513411849172299223580994042798784118784 : ℝ) = 1 / 23945242826029513411849172299223580994042798784118784 := by
    have h := F64.nearest53_of_near (1 / 23945242826029513411849172299223580994042798784118784 : ℝ) (-174) 4503599627370496
      (by rw [abs_of_pos (by norm_num)]; norm_num)
      (by rw [abs_of_pos (by norm_num)]; norm_num)
      (by rw [abs_lt]; constructor <;> norm_num)
    rw [h]
    norm_num
  have r8 : F64.round64 (1 / 23945242826029513411849172299223580994042798784118784 : ℝ) = F64.fin (1 / 23945242826029513411849172299223580994042798784118784) := by
    have h := F64.round64_of_near (1 / 23945242826029513411849172299223580994042798784118784 : ℝ) (-174) 4503599627370496
      (by norm_num) (by norm_num)
      (by rw [abs_of_pos (by norm_num)]; norm_num)
      (by rw [abs_of_pos (by norm_num)]; norm_num)
      (by rw [abs_lt]; constructor <;> norm_num)
    rw [h]
    norm_num
  have r9 : F64.round64 (1 / 11972621413014756705924586149611790497021399392059392 : ℝ) = F64.fin (1 / 11972621413014756705924586149611790497021399392059392) := by
    have h := F64.round64_of_near (1 / 11972621413014756705924586149611790497021399392059392 : ℝ) (-173) 4503599627370496
      (by norm_num) (by norm_num)
      (by rw [abs_of_pos (by norm_num)]; norm_num)
      (by rw [abs_of_pos (by norm_num)]; norm_num)
      (by rw [abs_lt]; constructor <;> norm_num)
    rw [h]
    norm_num
  have r10 : F64.round64 (3 / 23945242826029513411849172299223580994042798784118784 : ℝ) = F64.fin (3 / 23945242826029513411849172299223580994042798784118784) := by
    have h := F64.round64_of_near (3 / 23945242826029513411849172299223580994042798784118784 : ℝ) (-173) 6755399441055744
      (by norm_num) (by norm_num)
      (by rw [abs_of_pos (by norm_num)]; norm_num)
      (by rw [abs_of_pos (by norm_num)]; norm_num)
      (by rw [abs_lt]; constructor <;> norm_num)
    rw [h]
    norm_num
  have r11 : Real.sqrt (1 / 23945242826029513411849172299223580994042798784118784 : ℝ) = 1 / 154742504910672534362390528 := by
    rw [Real.sqrt_eq_iff_mul_self_eq (by norm_num) (by norm_num)]
    norm_num
  have r12 : F64.round64 (1 / 154742504910672534362390528 : ℝ) = F64.fin (1 / 154742504910672534362390528) := by
    have h := F64.round64_of_near (1 / 154742504910672534362390528 : ℝ) (-87) 4503599627370496
      (by norm_num) (by norm_num)
      (by rw [abs_of_pos (by norm_num)]; norm_num)
      (by rw [abs_of_pos (by norm_num)]; norm_num)
      (by rw [abs_lt]; constructor <;> norm_num)
    rw [h]
    norm_num
  have hlen : (F64.ofInt64 (3 : Int) : F64 ℝ) = F64.fin 3 := by
    rw [F64.ofInt64]
    exact_mod_cast r4
  simp only [get_standard_deviation64, get_mean64, List.foldl_cons, List.foldl_nil,
    List.length_cons, List.length_nil]
  norm_num [F64.add64_fin_fin, F64.sub64_fin_fin, F64.div64_fin_fin, F64.square64_fin,
    F64.sqrt64_fin, hlen, r1, r2, r3, r4, r5, r6, r7, r8, r9, r10, r11, r12]

/-- The float64 standard deviation of the two samples `2^-565` and `3 * 2^-565` is 0: their
mean is `2^-564`, and the squares `2^-1130` of the two distances are rounded to 0. -/
theorem stdev_of_two_tiny_samples :
    get_standard_deviation64 Real.sqrt
      [F64.fin ((2 : ℝ) ^ (-565 : Int)), F64.fin (3 * (2 : ℝ) ^ (-565 : Int))]
      (get_mean64 [F64.fin ((2 : ℝ) ^ (-565 : Int)), F64.fin (3 * (2 : ℝ) ^ (-565 : Int))])
      = F64.fin 0 := by
  have r1 : F64.round64 (1 / 120766797594289323271729746591624604509341479053326093708038601607859973196548763266756055205685080561326988000984443036792658708157593364241965896045846273396780650463232 : ℝ) = F64.fin (1 / 120766797594289323271729746591624604509341479053326093708038601607859973196548763266756055205685080561326988000984443036792658708157593364241965896045846273396780650463232) := by
    have h := F64.round64_of_near (1 / 120766797594289323271729746591624604509341479053326093708038601607859973196548763266756055205685080561326988000984443036792658708157593364241965896045846273396780650463232 : ℝ) (-565) 4503599627370496
      (by norm_num) (by norm_num)
      (by rw [abs_of_pos (by norm_num)]; norm_num)
      (by rw [abs_of_pos (by norm_num)]; norm_num)
      (by rw [abs_lt]; constructor <;> norm_num)
    rw [h]
    norm_num
  have r2 : F64.round64 (1 / 30191699398572330817932436647906151127335369763331523427009650401964993299137190816689013801421270140331747000246110759198164677039398341060491474011461568349195162615808 : ℝ) = F64.fin (1 / 30191699398572330817932436647906151127335369763331523427009650401964993299137190816689013801421270140331747000246110759198164677039398341060491474011461568349195162615808) := by
    have h := F64.round64_of_near (1 / 30191699398572330817932436647906151127335369763331523427009650401964993299137190816689013801421270140331747000246110759198164677039398341060491474011461568349195162615808 : ℝ) (-563) 4503599627370496
      (by norm_num) (by norm_num)
      (by rw [abs_of_pos (by norm_num)]; norm_num)
      (by rw [abs_of_pos (by norm_num)]; norm_num)
      (by rw [abs_lt]; constructor <;> norm_num)
    rw [h]
    norm_num
  have r3 : F64.round64 (2 : ℝ) = F64.fin (2) := by
    have h := F64.round64_of_near (2 : ℝ) 1 4503599627370496
      (by norm_num) (by norm_num)
      (by rw [abs_of_pos (by norm_num)]; norm_num)
      (by rw [abs_of_pos (by norm_num)]; norm_num)
      (by rw [abs_lt]; constructor <;> norm_num)
    rw [h]
    norm_num
  have r4 : F64.round64 (1 / 60383398797144661635864873295812302254670739526663046854019300803929986598274381633378027602842540280663494000492221518396329354078796682120982948022923136698390325231616 : ℝ) = F64.fin (1 / 60383398797144661635864873295812302254670739526663046854019300803929986598274381633378027602842540280663494000492221518396329354078796682120982948022923136698390325231616) := by
    have h := F64.round64_of_near (1 / 60383398797144661635864873295812302254670739526663046854019300803929986598274381633378027602842540280663494000492221518396329354078796682120982948022923136698390325231616 : ℝ) (-564) 4503599627370496
      (by norm_num) (by norm_num)
      (by rw [abs_of_pos (by norm_num)]; norm_num)
      (by rw [abs_of_pos (by norm_num)]; norm_num)
      (by rw [abs_lt]; constructor <;> norm_num)
    rw [h]
    norm_num
  have r5 : F64.round64 (-(1 / 120766797594289323271729746591624604509341479053326093708038601607859973196548763266756055205685080561326988000984443036792658708157593364241965896045846273396780650463232) : ℝ) = F64.fin (-(1 / 120766797594289323271729746591624604509341479053326093708038601607859973196548763266756055205685080561326988000984443036792658708157593364241965896045846273396780650463232)) := by
    have h := F64.round64_of_near (-(1 / 120766797594289323271729746591624604509341479053326093708038601607859973196548763266756055205685080561326988000984443036792658708157593364241965896045846273396780650463232) : ℝ) (-565) (-4503599627370496)
      (by norm_num) (by norm_num)
      (by rw [abs_of_neg (by norm_num)]; norm_num)
      (by rw [abs_of_neg (by norm_num)]; norm_num)
      (by rw [abs_lt]; constructor <;> norm_num)
    rw [h]
    norm_num
  have r6 : F64.nearest53 (1 / 14584619401180045478828524045754844381603196559772681963490342514734196137450208263823238358058445880965195776670815717350115539635428464567740825865318924352184408419485240472104497718099583244231236651454407673379926151770313667914640458144259458266472778789967242210298729563597596168068181445257646378865849073688706050697488336183885824 : ℝ) = 1 / 14584619401180045478828524045754844381603196559772681963490342514734196137450208263823238358058445880965195776670815717350115539635428464567740825865318924352184408419485240472104497718099583244231236651454407673379926151770313667914640458144259458266472778789967242210298729563597596168068181445257646378865849073688706050697488336183885824 := by
    have h := F64.nearest53_of_near (1 / 14584619401180045478828524045754844381603196559772681963490342514734196137450208263823238358058445880965195776670815717350115539635428464567740825865318924352184408419485240472104497718099583244231236651454407673379926151770313667914640458144259458266472778789967242210298729563597596168068181445257646378865849073688706050697488336183885824 : ℝ) (-1130) 4503599627370496
      (by rw [abs_of_pos (by norm_num)]; norm_num)
      (by rw [abs_of_pos (by norm_num)]; norm_num)
      (by rw [abs_lt]; constructor <;> norm_num)
    rw [h]
    norm_num
  have r7 : F64.round64 (1 / 14584619401180045478828524045754844381603196559772681963490342514734196137450208263823238358058445880965195776670815717350115539635428464567740825865318924352184408419485240472104497718099583244231236651454407673379926151770313667914640458144259458266472778789967242210298729563597596168068181445257646378865849073688706050697488336183885824 : ℝ) = F64.fin (0) := by
    have h := F64.round64_of_small (1 / 14584619401180045478828524045754844381603196559772681963490342514734196137450208263823238358058445880965195776670815717350115539635428464567740825865318924352184408419485240472104497718099583244231236651454407673379926151770313667914640458144259458266472778789967242210298729563597596168068181445257646378865849073688706050697488336183885824 : ℝ) 0
      (by rw [abs_of_pos (by norm_num)]; norm_num)
      (by rw [abs_lt]; constructor <;> norm_num)
    rw [h]
    norm_num
  have r8 : F64.round64 (0 : ℝ) = F64.fin (0) := by
    exact F64.round64_zero
  have r9 : Real.sqrt (0 : ℝ) = 0 := by
    exact Real.sqrt_zero
  have hlen : (F64.ofInt64 (2 : Int) : F64 ℝ) = F64.fin 2 := by
    rw [F64.ofInt64]
    exact_mod_cast r3
  simp only [get_standard_deviation64, get_mean64, List.foldl_cons, List.foldl_nil,
    List.length_cons, List.length_nil]
  norm_num [F64.add64_fin_fin, F64.sub64_fin_fin, F64.div64_fin_fin, F64.square64_fin,
    F64.sqrt64_fin, hlen, r1, r2, r3, r4, r5, r6, r7, r8, r9]

/-- The float64 mean and standard deviation of no samples are NaN. -/
theorem stdev64_of_no_samples :
    get_mean64 ([] : List (F64 ℝ)) = F64.nan ∧
    get_standard_deviation64 Real.sqrt ([] : List (F64 ℝ)) (get_mean64 []) = F64.nan := by
  have h0 : (F64.ofInt64 (0 : Int) : F64 ℝ) = F64.fin 0 := by
    rw [F64.ofInt64]
    exact_mod_cast (F64.round64_zero : F64.round64 (0 : ℝ) = F64.fin 0)
  simp [get_standard_deviation64, get_mean64, h0, F64.div64, F64.div, F64.signedInf,
    F64.rounded, F64.sqrt64, F64.sqrt]

/-- C2, as stated, fails in float64 arithmetic, in three ways. For no samples the standard
deviation is NaN, which is not `>= 0`. For three samples equal to `9007199138349058 * 2^-87`
it is `2^-87`, not 0, although all samples are equal. For the two samples `2^-565` and
`3 * 2^-565` it is 0, although they differ. -/
theorem stdev64_sign_and_zero_fail :
    ¬ (F64.le (F64.fin 0)
        (get_standard_deviation64 Real.sqrt ([] : List (F64 ℝ)) (get_mean64 [])) = true) ∧
    ((∀ a ∈ ([F64.fin (9007199138349058 * (2 : ℝ) ^ (-87 : Int)),
       F64.fin (9007199138349058 * (2 : ℝ) ^ (-87 : Int)),
       F64.fin (9007199138349058 * (2 : ℝ) ^ (-87 : Int))] : List (F64 ℝ)),
      ∀ b ∈ ([F64.fin (9007199138349058 * (2 : ℝ) ^ (-87 : Int)),
       F64.fin (9007199138349058 * (2 : ℝ) ^ (-87 : Int)),
       F64.fin (9007199138349058 * (2 : ℝ) ^ (-87 : Int))] : List (F64 ℝ)), a = b) ∧
     get_standard_deviation64 Real.sqrt
      [F64.fin (9007199138349058 * (2 : ℝ) ^ (-87 : Int)),
       F64.fin (9007199138349058 * (2 : ℝ) ^ (-87 : Int)),
       F64.fin (9007199138349058 * (2 : ℝ) ^ (-87 : Int))]
      (get_mean64
      [F64.fin (9007199138349058 * (2 : ℝ) ^ (-87 : Int)),
       F64.fin (9007199138349058 * (2 : ℝ) ^ (-87 : Int)),
       F64.fin (9007199138349058 * (2 : ℝ) ^ (-87 : Int))])
      ≠ F64.fin 0) ∧
    (get_standard_deviation64 Real.sqrt
      [F64.fin ((2 : ℝ) ^ (-565 : Int)), F64.fin (3 * (2 : ℝ) ^ (-565 : Int))]
      (get_mean64 [F64.fin ((2 : ℝ) ^ (-565 : Int)), F64.fin (3 * (2 : ℝ) ^ (-565 : Int))])
      = F64.fin 0 ∧
     ¬ (∀ a ∈ ([F64.fin ((2 : ℝ) ^ (-565 : Int)), F64.fin (3 * (2 : ℝ) ^ (-565 : Int))] : List (F64 ℝ)),
        ∀ b ∈ ([F64.fin ((2 : ℝ) ^ (-565 : Int)), F64.fin (3 * (2 : ℝ) ^ (-565 : Int))] : List (F64 ℝ)), a = b)) := by
  refine ⟨?_, ⟨?_, ?_⟩, stdev_of_two_tiny_samples, ?_⟩
  · rw [stdev64_of_no_samples.2]
    simp [F64.le]
  · intro a ha b hb
    simp only [List.mem_cons, List.mem_singleton, List.not_mem_nil, or_false, or_self] at ha hb
    rw [ha, hb]
  · rw [stdev_of_three_equal_samples, Ne, F64.fin.injEq]
    exact ne_of_gt (F64.two_zpow_pos _)
  · intro hall
    have h := hall _ (List.mem_cons_self _ _) _ (List.mem_cons_of_mem _ (List.mem_cons_self _ _))
    rw [F64.fin.injEq] at h
    have hp : (0 : ℝ) < (2 : ℝ) ^ (-565 : Int) := F64.two_zpow_pos _
    linarith

/-- The running total of the squared distances of samples that all equal the mean stays 0. -/
theorem total_sq64_at_mean (S : List ℝ) (c : ℝ) (hall : ∀ x ∈ S, x = c) :
    (S.map F64.fin).foldl
      (fun total v => F64.add64 total (F64.square64 (F64.sub64 v (F64.fin c)))) (F64.fin 0)
      = F64.fin 0 := by
  induction S with
  | nil => rfl
  | cons x xs ih =>
    have hx : x = c := hall x (List.mem_cons_self _ _)
    have hstep : F64.add64 (F64.fin 0) (F64.square64 (F64.sub64 (F64.fin x) (F64.fin c)))
        = F64.fin 0 := by
      rw [hx, F64.sub64_fin_fin, sub_self, F64.round64_zero, F64.square64_fin, mul_zero,
        F64.nearest53_zero, F64.round64_zero, F64.add64_fin_fin, add_zero, F64.round64_zero]
    rw [List.map_cons, List.foldl_cons, hstep]
    exact ih (fun y hy => hall y (List.mem_cons_of_mem _ hy))

/-- C2, amended: in float64 arithmetic, for every non-empty sequence of finite samples (fewer
than `2^63` of them), the standard deviation around their mean is `>= 0`: a number that is not
negative, or `+Inf`, never NaN; and it is 0 when all the samples equal that mean. -/
theorem stdev64_nonneg (S : List ℝ) (h : S ≠ []) (hlen : S.length < 2 ^ 63) :
    F64.le (F64.fin 0)
      (get_standard_deviation64 Real.sqrt (S.map F64.fin) (get_mean64 (S.map F64.fin)))
      = true ∧
    ((∀ x ∈ S, F64.fin x = get_mean64 (S.map F64.fin)) →
      get_standard_deviation64 Real.sqrt (S.map F64.fin) (get_mean64 (S.map F64.fin))
        = F64.fin 0) := by
  have h1 : 1 ≤ S.length := List.length_pos.mpr h
  obtain ⟨d, hd, hd1⟩ := @F64.ofInt64_length ℝ _ _ S.length h1 hlen
  have hm := get_mean64_ne_nan S h hlen
  constructor
  · simp only [get_standard_deviation64, List.length_map]
    rw [hd]
    apply F64.sqrt64_nonneg
    apply F64.div64_pos_nonneg _ d (by linarith)
    exact total_sq64_nonneg S _ _ hm (by simp [F64.le])
  · intro hall
    obtain ⟨y, hy⟩ := List.exists_mem_of_ne_nil S h
    have hmean : get_mean64 (S.map F64.fin) = F64.fin y := (hall y hy).symm
    rw [hmean] at hall ⊢
    have hc : ∀ x ∈ S, x = y := fun x hx => F64.fin.inj (hall x hx)
    simp only [get_standard_deviation64, List.length_map]
    rw [hd, total_sq64_at_mean S y hc, F64.div64_fin_fin _ _ (by linarith), zero_div,
      F64.round64_zero, F64.sqrt64_fin _ _ (le_refl 0), Real.sqrt_zero, F64.round64_zero]

/-- The float64 mean of the samples 7, 7, 7 is 7. -/
theorem mean_of_three_sevens :
    get_mean64 (([7, 7, 7] : List ℝ).map F64.fin) = F64.fin 7 := by
  have r1 : F64.round64 (7 : ℝ) = F64.fin (7) := by
    have h := F64.round64_of_near (7 : ℝ) 2 7881299347898368
      (by norm_num) (by norm_num)
      (by rw [abs_of_pos (by norm_num)]; norm_num)
      (by rw [abs_of_pos (by norm_num)]; norm_num)
      (by rw [abs_lt]; constructor <;> norm_num)
    rw [h]
    norm_num
  have r2 : F64.round64 (14 : ℝ) = F64.fin (14) := by
    have h := F64.round64_of_near (14 : ℝ) 3 7881299347898368
      (by norm_num) (by norm_num)
      (by rw [abs_of_pos (by norm_num)]; norm_num)
      (by rw [abs_of_pos (by norm_num)]; norm_num)
      (by rw [abs_lt]; constructor <;> norm_num)
    rw [h]
    norm_num
  have r3 : F64.round64 (21 : ℝ) = F64.fin (21) := by
    have h := F64.round64_of_near (21 : ℝ) 4 5910974510923776
      (by norm_num) (by norm_num)
      (by rw [abs_of_pos (by norm_num)]; norm_num)
      (by rw [abs_of_pos (by norm_num)]; norm_num)
      (by rw [abs_lt]; constructor <;> norm_num)
    rw [h]
    norm_num
  have r4 : F64.round64 (3 : ℝ) = F64.fin (3) := by
    have h := F64.round64_of_near (3 : ℝ) 1 6755399441055744
      (by norm_num) (by norm_num)
      (by rw [abs_of_pos (by norm_num)]; norm_num)
      (by rw [abs_of_pos (by norm_num)]; norm_num)
      (by rw [abs_lt]; constructor <;> norm_num)
    rw [h]
    norm_num
  have hlen : (F64.ofInt64 (3 : Int) : F64 ℝ) = F64.fin 3 := by
    rw [F64.ofInt64]
    exact_mod_cast r4
  simp only [get_mean64, List.map, List.foldl_cons, List.foldl_nil, List.length_cons,
    List.length_nil]
  norm_num [F64.add64_fin_fin, F64.div64_fin_fin, hlen, r1, r2, r3, r4]

/-- The amended C2 on the samples 10, 12, 11, 13, 9, and on the samples 7, 7, 7, which all
equal their mean. -/
theorem stdev64_nonneg_witness :
    F64.le (F64.fin 0)
      (get_standard_deviation64 Real.sqrt (([10, 12, 11, 13, 9] : List ℝ).map F64.fin)
        (get_mean64 (([10, 12, 11, 13, 9] : List ℝ).map F64.fin))) = true ∧
    get_standard_deviation64 Real.sqrt (([7, 7, 7] : List ℝ).map F64.fin)
        (get_mean64 (([7, 7, 7] : List ℝ).map F64.fin)) = F64.fin 0 :=
  ⟨(stdev64_nonneg [10, 12, 11, 13, 9] (by simp) (by simp)).1,
   (stdev64_nonneg [7, 7, 7] (by simp) (by simp)).2
     (by
       intro x hx
       simp only [List.mem_cons, List.mem_singleton, List.not_mem_nil, or_false, or_self] at hx
       rw [hx, mean_of_three_sevens])⟩

/-! ## The order of float64 results -/

section OrderOfNumbers

variable {K : Type} [LinearOrderedField K]

/-- Every value that is a number is at most `+Inf`. -/
theorem F64.le_pinf_of_ne_nan (x : F64 K) (h : x ≠ F64.nan) : F64.le x F64.pinf = true := by
  cases x with
  | nan => exact absurd rfl h
  | ninf => rfl
  | pinf => rfl
  | fin a => rfl

/-- Every value that is a number is at least `-Inf`. -/
theorem F64.ninf_le_of_ne_nan (x : F64 K) (h : x ≠ F64.nan) : F64.le F64.ninf x = true := by
  cases x with
  | nan => exact absurd rfl h
  | ninf => rfl
  | pinf => rfl
  | fin a => rfl

/-- A value is not below a value that is at most it. -/
theorem F64.lt_false_of_le (x y : F64 K) (h : F64.le y x = true) : F64.lt x y = false := by
  cases x <;> cases y <;> simp_all [F64.le, F64.lt]

/-- No value is below NaN and NaN is below no value. -/
theorem F64.lt_false_of_nan (x y : F64 K) (h : x = F64.nan ∨ y = F64.nan) :
    F64.lt x y = false := by
  rcases h with h | h <;> rw [h] <;> cases x <;> cases y <;> simp [F64.lt]

end OrderOfNumbers

section Monotone64

variable {K : Type} [LinearOrderedField K] [FloorRing K]

/-- Rounding keeps the order of float64 results. -/
theorem F64.rounded_mono (x y : F64 K) (h : F64.le x y = true) :
    F64.le (F64.rounded x) (F64.rounded y) = true := by
  cases x with
  | nan => exact absurd h (by simp [F64.le])
  | ninf =>
    cases y with
    | nan => exact absurd h (by simp [F64.le])
    | ninf => rfl
    | pinf => rfl
    | fin b => exact F64.ninf_le_of_ne_nan _ (F64.round64_ne_nan b)
  | pinf =>
    cases y with
    | nan => exact absurd h (by simp [F64.le])
    | ninf => exact absurd h (by simp [F64.le])
    | pinf => rfl
    | fin b => exact absurd h (by simp [F64.le])
  | fin a =>
    cases y with
    | nan => exact absurd h (by simp [F64.le])
    | ninf => exact absurd h (by simp [F64.le])
    | pinf => exact F64.le_pinf_of_ne_nan _ (F64.round64_ne_nan a)
    | fin b => exact F64.round64_mono ((F64.le_fin_fin a b).mp h)

/-- Rounding gives NaN for NaN only. -/
theorem F64.rounded_eq_nan (x : F64 K) : F64.rounded x = F64.nan ↔ x = F64.nan := by
  constructor
  · intro h
    by_contra hne
    exact F64.rounded_ne_nan x hne h
  · intro h
    rw [h]
    rfl

/-- The conversion of integers keeps their order. -/
theorem F64.ofInt64_mono {n m : Int} (h : n ≤ m) :
    F64.le (F64.ofInt64 n : F64 K) (F64.ofInt64 m) = true := by
  apply F64.round64_mono
  exact_mod_cast h

/-- A finite dividend that is not negative, over a larger divisor from 1 on, gives a smaller
quotient. -/
theorem F64.div64_antitone (s : K) (hs : 0 ≤ s) (x y : F64 K)
    (hx : F64.le (F64.fin 1) x = true) (hxy : F64.le x y = true) :
    F64.le (F64.div64 (F64.fin s) y) (F64.div64 (F64.fin s) x) = true := by
  apply F64.rounded_mono
  cases x with
  | nan => exact absurd hx (by simp [F64.le])
  | ninf => exact absurd hx (by simp [F64.le])
  | pinf =>
    cases y with
    | nan => exact absurd hxy (by simp [F64.le])
    | ninf => exact absurd hxy (by simp [F64.le])
    | pinf => simp [F64.div, F64.le]
    | fin b => exact absurd hxy (by simp [F64.le])
  | fin a =>
    rw [F64.le_fin_fin] at hx
    have ha : 0 < a := by linarith
    cases y with
    | nan => exact absurd hxy (by simp [F64.le])
    | ninf => exact absurd hxy (by simp [F64.le])
    | pinf =>
      rw [F64.div_fin_fin _ _ (ne_of_gt ha)]
      simp only [F64.div, F64.le_fin_fin]
      exact div_nonneg hs ha.le
    | fin b =>
      rw [F64.le_fin_fin] at hxy
      have hb : 0 < b := by linarith
      rw [F64.div_fin_fin _ _ (ne_of_gt ha), F64.div_fin_fin _ _ (ne_of_gt hb), F64.le_fin_fin]
      exact div_le_div_of_nonneg_left hs ha hxy

/-- The product with a finite positive factor on the left keeps the order. -/
theorem F64.mul64_mono_left (t : K) (ht : 0 < t) (x y : F64 K) (h : F64.le x y = true) :
    F64.le (F64.mul64 (F64.fin t) x) (F64.mul64 (F64.fin t) y) = true := by
  apply F64.rounded_mono
  have hs1 : F64.signedInf t = F64.pinf := by simp [F64.signedInf, ht]
  have hs2 : F64.signedInf (-t) = F64.ninf := by
    simp [F64.signedInf, ht, not_lt.mpr ht.le]
  cases x <;> cases y <;>
    simp only [F64.mul, hs1, hs2] <;>
    first
      | exact h
      | rfl
      | (rw [F64.le_fin_fin] at h ⊢; exact mul_le_mul_of_nonneg_left h ht.le)

/-- The product with a finite positive factor on the right keeps the order. -/
theorem F64.mul64_mono_right (c : K) (hc : 0 < c) (x y : F64 K) (h : F64.le x y = true) :
    F64.le (F64.mul64 x (F64.fin c)) (F64.mul64 y (F64.fin c)) = true := by
  apply F64.rounded_mono
  have hs1 : F64.signedInf c = F64.pinf := by simp [F64.signedInf, hc]
  have hs2 : F64.signedInf (-c) = F64.ninf := by
    simp [F64.signedInf, hc, not_lt.mpr hc.le]
  cases x <;> cases y <;>
    simp only [F64.mul, hs1, hs2] <;>
    first
      | exact h
      | rfl
      | (rw [F64.le_fin_fin] at h ⊢; exact mul_le_mul_of_nonneg_right h hc.le)

/-- The sum with a finite term on the left keeps the order. -/
theorem F64.add64_mono_left (m : K) (x y : F64 K) (h : F64.le x y = true) :
    F64.le (F64.add64 (F64.fin m) x) (F64.add64 (F64.fin m) y) = true := by
  apply F64.rounded_mono
  cases x <;> cases y <;> simp_all [F64.le, F64.add]

/-- The difference from a finite term reverses the order. -/
theorem F64.sub64_antitone_left (m : K) (x y : F64 K) (h : F64.le x y = true) :
    F64.le (F64.sub64 (F64.fin m) y) (F64.sub64 (F64.fin m) x) = true := by
  apply F64.rounded_mono
  cases x <;> cases y <;> simp_all [F64.le, F64.add, F64.sub, F64.neg]
  linarith

/-- A difference whose first term is smaller and whose second term is larger is smaller, when
both differences are numbers. -/
theorem F64.sub64_mono (a b c d : F64 K) (hab : F64.le a b = true) (hcd : F64.le c d = true)
    (h1 : F64.sub64 a d ≠ F64.nan) (h2 : F64.sub64 b c ≠ F64.nan) :
    F64.le (F64.sub64 a d) (F64.sub64 b c) = true := by
  apply F64.rounded_mono
  have h1' : F64.sub a d ≠ F64.nan := fun h => h1 ((F64.rounded_eq_nan _).mpr h)
  have h2' : F64.sub b c ≠ F64.nan := fun h => h2 ((F64.rounded_eq_nan _).mpr h)
  cases a <;> cases b <;> cases c <;> cases d <;>
    simp_all [F64.le, F64.add, F64.sub, F64.neg]
  linarith

end Monotone64

/-- The square root keeps the order of values that are not negative. -/
theorem F64.sqrt64_mono (x y : F64 ℝ) (hx : F64.le (F64.fin 0) x = true)
    (hxy : F64.le x y = true) :
    F64.le (F64.sqrt64 Real.sqrt x) (F64.sqrt64 Real.sqrt y) = true := by
  apply F64.rounded_mono
  cases x with
  | nan => exact absurd hx (by simp [F64.le])
  | ninf => exact absurd hx (by simp [F64.le])
  | pinf =>
    cases y with
    | nan => exact absurd hxy (by simp [F64.le])
    | ninf => exact absurd hxy (by simp [F64.le])
    | pinf => rfl
    | fin b => exact absurd hxy (by simp [F64.le])
  | fin a =>
    rw [F64.le_fin_fin] at hx
    cases y with
    | nan => exact absurd hxy (by simp [F64.le])
    | ninf => exact absurd hxy (by simp [F64.le])
    | pinf =>
      rw [F64.sqrt_fin _ _ hx]
      rfl
    | fin b =>
      rw [F64.le_fin_fin] at hxy
      rw [F64.sqrt_fin _ _ hx, F64.sqrt_fin _ _ (le_trans hx hxy), F64.le_fin_fin]
      exact Real.sqrt_le_sqrt hxy

/-! ## The width of the float64 confidence interval -/

/-- The constant `t_score` converts to a finite number between 2 and 4. -/
theorem t_score64_bracket :
    ∃ t : ℝ, F64.round64 (t_score : ℝ) = F64.fin t ∧ 2 ≤ t ∧ t ≤ 4 := by
  obtain ⟨t, ht, h1, h2⟩ := F64.round64_bracket (t_score : ℝ) 1 2 (by norm_num) (by norm_num)
    (by norm_num [t_score]) (by norm_num [t_score])
  refine ⟨t, ht, ?_, ?_⟩
  · simpa using h1
  · have h4 : (2 : ℝ) ^ (2 : Int) = 4 := by norm_num
    linarith

/-- The conversion of `ms` is exact. -/
theorem ms64_eq : (F64.ofInt64 ms : F64 ℝ) = F64.fin 1000000 := by
  have h := @F64.ofInt64_eq ℝ _ _ ms (by norm_num [ms])
  rw [h]
  norm_num [ms]

/-- The square root of the number of samples, when there is at least one, is a number from 1
on. -/
theorem sqrt64_of_count (n : Nat) (hn : 1 ≤ n) :
    F64.le (F64.fin 1) (F64.ofInt64 (n : Int) : F64 ℝ) = true ∧
    F64.le (F64.fin 1) (F64.sqrt64 Real.sqrt (F64.ofInt64 (n : Int))) = true := by
  have h1 : (F64.ofInt64 (1 : Int) : F64 ℝ) = F64.fin 1 := by
    have h := @F64.ofInt64_eq ℝ _ _ 1 (by norm_num)
    simpa using h
  have hle : F64.le (F64.fin 1) (F64.ofInt64 (n : Int) : F64 ℝ) = true := by
    rw [← h1]
    exact F64.ofInt64_mono (by exact_mod_cast hn)
  refine ⟨hle, ?_⟩
  have hs := F64.sqrt64_mono (F64.fin 1) (F64.ofInt64 (n : Int)) (by simp [F64.le]) hle
  have hone : F64.sqrt64 Real.sqrt (F64.fin (1 : ℝ)) = F64.fin 1 := by
    rw [F64.sqrt64_fin _ _ (by norm_num), Real.sqrt_one]
    have h := @F64.round64_int ℝ _ _ 1 (by norm_num)
    simpa using h
  rwa [hone] at hs

/-- With more samples the float64 half-width `t_score * (stdev / sqrt n)` is not larger. -/
theorem half_width64_antitone (stdev : ℝ) (n m : Nat) (hstdev : 0 ≤ stdev) (hn : 1 ≤ n)
    (hnm : n ≤ m) :
    F64.le
      (F64.mul64 (F64.round64 (t_score : ℝ))
        (F64.div64 (F64.fin stdev) (F64.sqrt64 Real.sqrt (F64.ofInt64 (m : Int)))))
      (F64.mul64 (F64.round64 (t_score : ℝ))
        (F64.div64 (F64.fin stdev) (F64.sqrt64 Real.sqrt (F64.ofInt64 (n : Int))))) = true := by
  obtain ⟨t, ht, ht2, _⟩ := t_score64_bracket
  obtain ⟨hc, hsq⟩ := sqrt64_of_count n hn
  have h0 : F64.le (F64.fin 0) (F64.ofInt64 (n : Int) : F64 ℝ) = true :=
    F64.le_chain _ _ _ (by simp [F64.le]) hc
  have hroot := F64.sqrt64_mono (F64.ofInt64 (n : Int)) (F64.ofInt64 (m : Int)) h0
    (F64.ofInt64_mono (by exact_mod_cast hnm))
  rw [ht]
  exact F64.mul64_mono_left t (by linarith) _ _
    (F64.div64_antitone stdev hstdev _ _ hsq hroot)

/-- With more samples the float64 upper confidence bound is not larger and the lower one is
not smaller. -/
theorem ci_bounds64_narrow (mean stdev : ℝ) (n m : Nat) (hstdev : 0 ≤ stdev) (hn : 1 ≤ n)
    (hnm : n ≤ m) :
    F64.le (ci_upper64 Real.sqrt (F64.fin mean) (F64.fin stdev) m)
      (ci_upper64 Real.sqrt (F64.fin mean) (F64.fin stdev) n) = true ∧
    F64.le (ci_lower64 Real.sqrt (F64.fin mean) (F64.fin stdev) n)
      (ci_lower64 Real.sqrt (F64.fin mean) (F64.fin stdev) m) = true := by
  have hh := half_width64_antitone stdev n m hstdev hn hnm
  unfold ci_upper64 ci_lower64
  rw [ms64_eq]
  constructor
  · exact F64.mul64_mono_right _ (by norm_num) _ _ (F64.add64_mono_left mean _ _ hh)
  · exact F64.mul64_mono_right _ (by norm_num) _ _ (F64.sub64_antitone_left mean _ _ hh)

/-- A number up to `2^b` in size rounds to a finite value up to `2^b` in size. -/
theorem F64.round64_abs_bracket {K : Type} [LinearOrderedField K] [FloorRing K] (x : K)
    (b : Int) (hb1 : -1074 ≤ b) (hb2 : b ≤ 1023) (h : |x| ≤ (2 : K) ^ b) :
    ∃ r : K, F64.round64 x = F64.fin r ∧ |r| ≤ (2 : K) ^ b := by
  have hx : |x| ≤ (2 : K) ^ (1023 : Int) := le_trans h (F64.two_zpow_le hb2)
  refine ⟨F64.nearest x, F64.round64_of_abs_le x hx, ?_⟩
  have hz : F64.nearest ((2 : K) ^ b) = (2 : K) ^ b := F64.nearest_zpow b hb1
  rw [abs_le] at h ⊢
  have h1 := F64.nearest_mono h.2
  have h2 := F64.nearest_mono h.1
  rw [hz] at h1
  rw [F64.nearest_neg, hz] at h2
  exact ⟨h2, h1⟩

/-- The float64 half-width `t_score * (stdev / sqrt n)` is not negative. -/
theorem half_width64_nonneg (stdev : ℝ) (n : Nat) (hstdev : 0 ≤ stdev) (hn : 1 ≤ n) :
    F64.le (F64.fin 0)
      (F64.mul64 (F64.round64 (t_score : ℝ))
        (F64.div64 (F64.fin stdev) (F64.sqrt64 Real.sqrt (F64.ofInt64 (n : Int))))) = true := by
  obtain ⟨t, ht, ht2, _⟩ := t_score64_bracket
  obtain ⟨_, hsq⟩ := sqrt64_of_count n hn
  have hq := F64.div64_antitone stdev hstdev _ F64.pinf hsq
    (F64.le_pinf_of_ne_nan _ (fun h => by rw [h] at hsq; simp [F64.le] at hsq))
  have hq0 : F64.div64 (F64.fin stdev) (F64.pinf : F64 ℝ) = F64.fin 0 := by
    show F64.round64 (0 : ℝ) = F64.fin 0
    exact F64.round64_zero
  rw [hq0] at hq
  have hm := F64.mul64_mono_left t (by linarith) _ _ hq
  have hm0 : F64.mul64 (F64.fin t) (F64.fin (0 : ℝ)) = F64.fin 0 := by
    rw [F64.mul64_fin_fin, mul_zero]
    exact F64.round64_zero
  rw [hm0] at hm
  rw [ht]
  exact hm

/-- For a mean up to `2^1000` in size the float64 confidence bounds are on either side of a
finite number: the lower one is not `+Inf`, the upper one is not `-Inf`, none is NaN. -/
theorem ci_bounds64_around (mean stdev : ℝ) (n : Nat) (hmean : |mean| ≤ (2 : ℝ) ^ (1000 : Int))
    (hstdev : 0 ≤ stdev) (hn : 1 ≤ n) :
    ∃ c : ℝ, F64.le (ci_lower64 Real.sqrt (F64.fin mean) (F64.fin stdev) n) (F64.fin c) = true ∧
      F64.le (F64.fin c) (ci_upper64 Real.sqrt (F64.fin mean) (F64.fin stdev) n) = true := by
  have hh := half_width64_nonneg stdev n hstdev hn
  obtain ⟨r, hr, hrb⟩ := F64.round64_abs_bracket mean 1000 (by norm_num) (by norm_num) hmean
  have hrc : |r * 1000000| ≤ (2 : ℝ) ^ (1020 : Int) := by
    rw [abs_mul, abs_of_pos (by norm_num : (0 : ℝ) < 1000000)]
    have h20 : (1000000 : ℝ) ≤ (2 : ℝ) ^ (20 : Int) := by norm_num
    have hsplit : (2 : ℝ) ^ (1020 : Int) = (2 : ℝ) ^ (1000 : Int) * (2 : ℝ) ^ (20 : Int) := by
      rw [← zpow_add₀ (by norm_num : (2 : ℝ) ≠ 0)]
      norm_num
    rw [hsplit]
    exact mul_le_mul hrb h20 (by norm_num) (F64.two_zpow_pos 1000).le
  obtain ⟨c, hc, _⟩ := F64.round64_abs_bracket (r * 1000000) 1020 (by norm_num) (by norm_num) hrc
  have hmid : F64.mul64 (F64.fin r) (F64.fin (1000000 : ℝ)) = F64.fin c := by
    rw [F64.mul64_fin_fin, hc]
  have hadd0 : F64.add64 (F64.fin mean) (F64.fin (0 : ℝ)) = F64.fin r := by
    rw [F64.add64_fin_fin, add_zero, hr]
  have hsub0 : F64.sub64 (F64.fin mean) (F64.fin (0 : ℝ)) = F64.fin r := by
    rw [F64.sub64_fin_fin, sub_zero, hr]
  refine ⟨c, ?_, ?_⟩
  · have h1 := F64.sub64_antitone_left mean _ _ hh
    rw [hsub0] at h1
    have h2 := F64.mul64_mono_right (1000000 : ℝ) (by norm_num) _ _ h1
    rw [hmid] at h2
    unfold ci_lower64
    rw [ms64_eq]
    exact h2
  · have h1 := F64.add64_mono_left mean _ _ hh
    rw [hadd0] at h1
    have h2 := F64.mul64_mono_right (1000000 : ℝ) (by norm_num) _ _ h1
    rw [hmid] at h2
    unfold ci_upper64
    rw [ms64_eq]
    exact h2

/-- The float64 difference of a value above a finite number and a value below it is a
number. -/
theorem F64.sub64_ne_nan_of_between {K : Type} [LinearOrderedField K] [FloorRing K]
    (u l : F64 K) (c : K) (hl : F64.le l (F64.fin c) = true) (hu : F64.le (F64.fin c) u = true) :
    F64.sub64 u l ≠ F64.nan := by
  apply F64.rounded_ne_nan
  cases u <;> cases l <;> simp_all [F64.le, F64.sub, F64.add, F64.neg]

/-- C6, amended: in float64 arithmetic, for a finite mean, a finite standard deviation `>= 0`
and sample counts `1 <= n < m`, the width `ci_delta = ci_upper - ci_lower` at `n` is never
below the width at `m`; and for a mean up to `2^1000` in size, where the width is never NaN,
the width at `m` is `<=` the width at `n`. The widths can be equal although `stdev > 0`, and
they are not `2 * 3.291 * stdev / sqrt n` times the display scale. -/
theorem ci_delta64_not_increasing (mean stdev : ℝ) (n m : Nat) (hstdev : 0 ≤ stdev)
    (hn : 1 ≤ n) (hnm : n < m) :
    F64.lt (ci_delta64 Real.sqrt (F64.fin mean) (F64.fin stdev) n)
      (ci_delta64 Real.sqrt (F64.fin mean) (F64.fin stdev) m) = false ∧
    (|mean| ≤ (2 : ℝ) ^ (1000 : Int) →
      F64.le (ci_delta64 Real.sqrt (F64.fin mean) (F64.fin stdev) m)
        (ci_delta64 Real.sqrt (F64.fin mean) (F64.fin stdev) n) = true) := by
  obtain ⟨hup, hlow⟩ := ci_bounds64_narrow mean stdev n m hstdev hn hnm.le
  have hle : ci_delta64 Real.sqrt (F64.fin mean) (F64.fin stdev) n ≠ F64.nan →
      ci_delta64 Real.sqrt (F64.fin mean) (F64.fin stdev) m ≠ F64.nan →
      F64.le (ci_delta64 Real.sqrt (F64.fin mean) (F64.fin stdev) m)
        (ci_delta64 Real.sqrt (F64.fin mean) (F64.fin stdev) n) = true := by
    intro h1 h2
    exact F64.sub64_mono _ _ _ _ hup hlow h2 h1
  constructor
  · by_cases h1 : ci_delta64 Real.sqrt (F64.fin mean) (F64.fin stdev) n = F64.nan
    · exact F64.lt_false_of_nan _ _ (Or.inl h1)
    · by_cases h2 : ci_delta64 Real.sqrt (F64.fin mean) (F64.fin stdev) m = F64.nan
      · exact F64.lt_false_of_nan _ _ (Or.inr h2)
      · exact F64.lt_false_of_le _ _ (hle h1 h2)
  · intro hmean
    obtain ⟨c1, hl1, hu1⟩ := ci_bounds64_around mean stdev n hmean hstdev hn
    obtain ⟨c2, hl2, hu2⟩ := ci_bounds64_around mean stdev m hmean hstdev (by omega)
    exact hle (F64.sub64_ne_nan_of_between _ _ c1 hl1 hu1)
      (F64.sub64_ne_nan_of_between _ _ c2 hl2 hu2)

/-- The amended C6 for mean 11, standard deviation 2 and the sample counts 4 and 9. -/
theorem ci_delta64_not_increasing_witness :
    F64.le (ci_delta64 Real.sqrt (F64.fin 11) (F64.fin 2) 9)
      (ci_delta64 Real.sqrt (F64.fin 11) (F64.fin 2) 4) = true :=
  (ci_delta64_not_increasing 11 2 4 9 (by norm_num) (by norm_num) (by norm_num)).2
    (by rw [abs_of_pos (by norm_num)]; norm_num)

/-- The float64 widths for mean 1, standard deviation `2^-100` and 1 or 4 samples are both 0:
the half-width is far below the spacing of the float64 values around 1, so both bounds are
rounded to the mean. -/
theorem ci_delta64_of_tiny_stdev :
    ci_delta64 Real.sqrt (F64.fin 1) (F64.fin ((2 : ℝ) ^ (-100 : Int))) 1 = F64.fin 0 ∧
    ci_delta64 Real.sqrt (F64.fin 1) (F64.fin ((2 : ℝ) ^ (-100 : Int))) 4 = F64.fin 0 := by
  have r1 : F64.round64 (3291 / 1000 : ℝ) = F64.fin (7410673186838151 / 2251799813685248) := by
    have h := F64.round64_of_near (3291 / 1000 : ℝ) 1 7410673186838151
      (by norm_num) (by norm_num)
      (by rw [abs_of_pos (by norm_num)]; norm_num)
      (by rw [abs_of_pos (by norm_num)]; norm_num)
      (by rw [abs_lt]; constructor <;> norm_num)
    rw [h]
    norm_num
  have r2 : F64.round64 (1000000 : ℝ) = F64.fin (1000000) := by
    have h := F64.round64_of_near (1000000 : ℝ) 19 8589934592000000
      (by norm_num) (by norm_num)
      (by rw [abs_of_pos (by norm_num)]; norm_num)
      (by rw [abs_of_pos (by norm_num)]; norm_num)
      (by rw [abs_lt]; constructor <;> norm_num)
    rw [h]
    norm_num
  have r3 : F64.round64 (1 : ℝ) = F64.fin (1) := by
    have h := F64.round64_of_near (1 : ℝ) 0 4503599627370496
      (by norm_num) (by norm_num)
      (by rw [abs_of_pos (by norm_num)]; norm_num)
      (by rw [abs_of_pos (by norm_num)]; norm_num)
      (by rw [abs_lt]; constructor <;> norm_num)
    rw [h]
    norm_num
  have r4 : Real.sqrt (1 : ℝ) = 1 := by
    rw [Real.sqrt_eq_iff_mul_self_eq (by norm_num) (by norm_num)]
    norm_num
  have r5 : F64.round64 (1 / 1267650600228229401496703205376 : ℝ) = F64.fin (1 / 1267650600228229401496703205376) := by
    have h := F64.round64_of_near (1 / 1267650600228229401496703205376 : ℝ) (-100) 4503599627370496
      (by norm_num) (by norm_num)
      (by rw [abs_of_pos (by norm_num)]; norm_num)
      (by rw [abs_of_pos (by norm_num)]; norm_num)
      (by rw [abs_lt]; constructor <;> norm_num)
    rw [h]
    norm_num
  have r6 : F64.round64 (7410673186838151 / 2854495385411919762116571938898990272765493248 : ℝ) = F64.fin (7410673186838151 / 2854495385411919762116571938898990272765493248) := by
    have h := F64.round64_of_near (7410673186838151 / 2854495385411919762116571938898990272765493248 : ℝ) (-99) 7410673186838151
      (by norm_num) (by norm_num)
      (by rw [abs_of_pos (by norm_num)]; norm_num)
      (by rw [abs_of_pos (by norm_num)]; norm_num)
      (by rw [abs_lt]; constructor <;> norm_num)
    rw [h]
    norm_num
  have r7 : F64.round64 (2854495385411919762116571938906400945952331399 / 2854495385411919762116571938898990272765493248 : ℝ) = F64.fin (1) := by
    have h := F64.round64_of_near (2854495385411919762116571938906400945952331399 / 2854495385411919762116571938898990272765493248 : ℝ) 0 4503599627370496
      (by norm_num) (by norm_num)
      (by rw [abs_of_pos (by norm_num)]; norm_num)
      (by rw [abs_of_pos (by norm_num)]; norm_num)
      (by rw [abs_lt]; constructor <;> norm_num)
    rw [h]
    norm_num
  have r8 : F64.round64 (2854495385411919762116571938891579599578655097 / 2854495385411919762116571938898990272765493248 : ℝ) = F64.fin (1) := by
    have h := F64.round64_of_near (2854495385411919762116571938891579599578655097 / 2854495385411919762116571938898990272765493248 : ℝ) (-1) 9007199254740992
      (by norm_num) (by norm_num)
      (by rw [abs_of_pos (by norm_num)]; norm_num)
      (by rw [abs_of_pos (by norm_num)]; norm_num)
      (by rw [abs_lt]; constructor <;> norm_num)
    rw [h]
    norm_num
  have r9 : F64.round64 (0 : ℝ) = F64.fin (0) := by
    exact F64.round64_zero
  have r10 : F64.round64 (4 : ℝ) = F64.fin (4) := by
    have h := F64.round64_of_near (4 : ℝ) 2 4503599627370496
      (by norm_num) (by norm_num)
      (by rw [abs_of_pos (by norm_num)]; norm_num)
      (by rw [abs_of_pos (by norm_num)]; norm_num)
      (by rw [abs_lt]; constructor <;> norm_num)
    rw [h]
    norm_num
  have r11 : Real.sqrt (4 : ℝ) = 2 := by
    rw [Real.sqrt_eq_iff_mul_self_eq (by norm_num) (by norm_num)]
    norm_num
  have r12 : F64.round64 (2 : ℝ) = F64.fin (2) := by
    have h := F64.round64_of_near (2 : ℝ) 1 4503599627370496
      (by norm_num) (by norm_num)
      (by rw [abs_of_pos (by norm_num)]; norm_num)
      (by rw [abs_of_pos (by norm_num)]; norm_num)
      (by rw [abs_lt]; constructor <;> norm_num)
    rw [h]
    norm_num
  have r13 : F64.round64 (1 / 2535301200456458802993406410752 : ℝ) = F64.fin (1 / 2535301200456458802993406410752) := by
    have h := F64.round64_of_near (1 / 2535301200456458802993406410752 : ℝ) (-101) 4503599627370496
      (by norm_num) (by norm_num)
      (by rw [abs_of_pos (by norm_num)]; norm_num)
      (by rw [abs_of_pos (by norm_num)]; norm_num)
      (by rw [abs_lt]; constructor <;> norm_num)
    rw [h]
    norm_num
  have r14 : F64.round64 (7410673186838151 / 5708990770823839524233143877797980545530986496 : ℝ) = F64.fin (7410673186838151 / 5708990770823839524233143877797980545530986496) := by
    have h := F64.round64_of_near (7410673186838151 / 5708990770823839524233143877797980545530986496 : ℝ) (-100) 7410673186838151
      (by norm_num) (by norm_num)
      (by rw [abs_of_pos (by norm_num)]; norm_num)
      (by rw [abs_of_pos (by norm_num)]; norm_num)
      (by rw [abs_lt]; constructor <;> norm_num)
    rw [h]
    norm_num
  have r15 : F64.round64 (5708990770823839524233143877805391218717824647 / 5708990770823839524233143877797980545530986496 : ℝ) = F64.fin (1) := by
    have h := F64.round64_of_near (5708990770823839524233143877805391218717824647 / 5708990770823839524233143877797980545530986496 : ℝ) 0 4503599627370496
      (by norm_num) (by norm_num)
      (by rw [abs_of_pos (by norm_num)]; norm_num)
      (by rw [abs_of_pos (by norm_num)]; norm_num)
      (by rw [abs_lt]; constructor <;> norm_num)
    rw [h]
    norm_num
  have r16 : F64.round64 (5708990770823839524233143877790569872344148345 / 5708990770823839524233143877797980545530986496 : ℝ) = F64.fin (1) := by
    have h := F64.round64_of_near (5708990770823839524233143877790569872344148345 / 5708990770823839524233143877797980545530986496 : ℝ) (-1) 9007199254740992
      (by norm_num) (by norm_num)
      (by rw [abs_of_pos (by norm_num)]; norm_num)
      (by rw [abs_of_pos (by norm_num)]; norm_num)
      (by rw [abs_lt]; constructor <;> norm_num)
    rw [h]
    norm_num
  have hms : (F64.ofInt64 ms : F64 ℝ) = F64.fin 1000000 := ms64_eq
  have h1 : (F64.ofInt64 (1 : Int) : F64 ℝ) = F64.fin 1 := by
    rw [F64.ofInt64]
    exact_mod_cast r3
  have h4 : (F64.ofInt64 (4 : Int) : F64 ℝ) = F64.fin 4 := by
    rw [F64.ofInt64]
    exact_mod_cast r10
  constructor <;>
  simp only [ci_delta64, ci_upper64, ci_lower64, hms, t_score] <;>
  norm_num [F64.add64_fin_fin, F64.sub64_fin_fin, F64.mul64_fin_fin, F64.div64_fin_fin,
    F64.sqrt64_fin, h1, h4, r1, r2, r3, r4, r5, r6, r7, r8, r9, r10, r11, r12, r13, r14, r15, r16]

/-- C6, as stated, fails in float64 arithmetic: for mean 1 and standard deviation
`2^-100 > 0` the widths at 1 and at 4 samples are both 0. The width at 4 samples is not
strictly smaller than the width at 1 sample, and the width at 1 sample is not
`2 * 3.291 * stdev / sqrt 1` times the display scale. -/
theorem ci_delta64_ties :
    (0 : ℝ) < (2 : ℝ) ^ (-100 : Int) ∧
    F64.lt (ci_delta64 Real.sqrt (F64.fin 1) (F64.fin ((2 : ℝ) ^ (-100 : Int))) 4)
      (ci_delta64 Real.sqrt (F64.fin 1) (F64.fin ((2 : ℝ) ^ (-100 : Int))) 1) = false ∧
    ci_delta64 Real.sqrt (F64.fin 1) (F64.fin ((2 : ℝ) ^ (-100 : Int))) 1
      ≠ F64.fin (2 * 3.291 * (2 : ℝ) ^ (-100 : Int) / Real.sqrt 1 * 1000000) := by
  obtain ⟨h1, h4⟩ := ci_delta64_of_tiny_stdev
  have hp : (0 : ℝ) < (2 : ℝ) ^ (-100 : Int) := F64.two_zpow_pos _
  rw [h1, h4]
  refine ⟨hp, ?_, ?_⟩
  · rw [Bool.eq_false_iff, Ne, F64.lt_fin_fin]
    exact lt_irrefl 0
  · rw [Ne, F64.fin.injEq, Real.sqrt_one]
    have : (0 : ℝ) < 2 * 3.291 * (2 : ℝ) ^ (-100 : Int) / 1 * 1000000 := by positivity
    linarith

/-! ## The order of the samples in float64 arithmetic -/

/-- The total without rounding does not depend on the order of the values. -/
theorem foldl_add_perm {K : Type} [LinearOrderedField K] (xs ys : List (F64 K))
    (h : xs.Perm ys) (t : F64 K) :
    xs.foldl (fun total v => F64.add total v) t
      = ys.foldl (fun total v => F64.add total v) t := by
  have hfold : List.foldl (fun total v => F64.add total v) t xs
      = List.foldl (fun total v => F64.add total v) t ys := by
    refine h.foldl_eq' ?_ _
    intro x _ y _ z
    exact F64.add_add_swap z _ _
  exact hfold

section Order64

variable {K : Type} [LinearOrderedField K] [FloorRing K]

/-- A running total whose additions are all exact is the total without rounding. -/
theorem foldl_add64_of_exact (xs : List (F64 K)) (t : F64 K) (h : ExactTotals t xs) :
    xs.foldl (fun total v => F64.add64 total v) t
      = xs.foldl (fun total v => F64.add total v) t := by
  induction xs generalizing t with
  | nil => rfl
  | cons v rest ih =>
    obtain ⟨h1, h2⟩ := h
    rw [List.foldl_cons, List.foldl_cons, h1]
    exact ih _ h2

/-- Permuted samples whose running totals are exact have the same float64 mean. -/
theorem get_mean64_perm (S S' : List (F64 K)) (hperm : S.Perm S')
    (hS : ExactTotals (F64.fin 0) S) (hS' : ExactTotals (F64.fin 0) S') :
    get_mean64 S' = get_mean64 S := by
  unfold get_mean64
  dsimp only
  rw [foldl_add64_of_exact S _ hS, foldl_add64_of_exact S' _ hS', hperm.length_eq,
    foldl_add_perm S S' hperm]

/-- Permuted samples whose running totals of squared distances to the same mean are exact
have the same float64 standard deviation around it. -/
theorem get_standard_deviation64_perm (sqrt : K → K) (S S' : List (F64 K)) (mean : F64 K)
    (hperm : S.Perm S')
    (hS : ExactTotals (F64.fin 0) (S.map (fun v => F64.square64 (F64.sub64 v mean))))
    (hS' : ExactTotals (F64.fin 0) (S'.map (fun v => F64.square64 (F64.sub64 v mean)))) :
    get_standard_deviation64 sqrt S' mean = get_standard_deviation64 sqrt S mean := by
  have hS2 := foldl_add64_of_exact _ _ hS
  have hS2' := foldl_add64_of_exact _ _ hS'
  rw [List.foldl_map] at hS2 hS2'
  have hp := foldl_add_perm _ _ (hperm.map (fun v => F64.square64 (F64.sub64 v mean)))
    (F64.fin 0)
  unfold get_standard_deviation64
  dsimp only
  rw [hS2, hS2', hperm.length_eq, hp]

end Order64

/-- The float64 means of 1e16, 1, -1e16 and of 1e16, -1e16, 1: in the first order the sample 1
is lost when it is added to 1e16, where the float64 values are 2 apart. -/
theorem means_of_two_orders :
    get_mean64 ([F64.fin (10000000000000000), F64.fin (1), F64.fin (-10000000000000000)] : List (F64 ℝ)) = F64.fin 0 ∧
    get_mean64 ([F64.fin (10000000000000000), F64.fin (-10000000000000000), F64.fin (1)] : List (F64 ℝ)) = F64.fin (6004799503160661 / 18014398509481984) := by
  have r1 : F64.round64 (10000000000000000 : ℝ) = F64.fin (10000000000000000) := by
    have h := F64.round64_of_near (10000000000000000 : ℝ) 53 5000000000000000
      (by norm_num) (by norm_num)
      (by rw [abs_of_pos (by norm_num)]; norm_num)
      (by rw [abs_of_pos (by norm_num)]; norm_num)
      (by rw [abs_lt]; constructor <;> norm_num)
    rw [h]
    norm_num
  have r2 : F64.round64 (10000000000000001 : ℝ) = F64.fin (10000000000000000) := by
    have h := F64.round64_of_tie (10000000000000001 : ℝ) 53 5000000000000000
      (by norm_num) (by norm_num)
      (by rw [abs_of_pos (by norm_num)]; norm_num)
      (by rw [abs_of_pos (by norm_num)]; norm_num)
      (by norm_num)
    rw [h]
    norm_num
  have r3 : F64.round64 (0 : ℝ) = F64.fin (0) := by
    exact F64.round64_zero
  have r4 : F64.round64 (3 : ℝ) = F64.fin (3) := by
    have h := F64.round64_of_near (3 : ℝ) 1 6755399441055744
      (by norm_num) (by norm_num)
      (by rw [abs_of_pos (by norm_num)]; norm_num)
      (by rw [abs_of_pos (by norm_num)]; norm_num)
      (by rw [abs_lt]; constructor <;> norm_num)
    rw [h]
    norm_num
  have r5 : F64.round64 (1 : ℝ) = F64.fin (1) := by
    have h := F64.round64_of_near (1 : ℝ) 0 4503599627370496
      (by norm_num) (by norm_num)
      (by rw [abs_of_pos (by norm_num)]; norm_num)
      (by rw [abs_of_pos (by norm_num)]; norm_num)
      (by rw [abs_lt]; constructor <;> norm_num)
    rw [h]
    norm_num
  have r6 : F64.round64 (1 / 3 : ℝ) = F64.fin (6004799503160661 / 18014398509481984) := by
    have h := F64.round64_of_near (1 / 3 : ℝ) (-2) 6004799503160661
      (by norm_num) (by norm_num)
      (by rw [abs_of_pos (by norm_num)]; norm_num)
      (by rw [abs_of_pos (by norm_num)]; norm_num)
      (by rw [abs_lt]; constructor <;> norm_num)
    rw [h]
    norm_num
  have h3 : (F64.ofInt64 (3 : Int) : F64 ℝ) = F64.fin 3 := by
    rw [F64.ofInt64]
    exact_mod_cast r4
  constructor <;>
  simp only [get_mean64, List.foldl_cons, List.foldl_nil, List.length_cons, List.length_nil] <;>
  norm_num [F64.add64_fin_fin, F64.div64_fin_fin, h3, r1, r2, r3, r4, r5, r6]

/-- The running totals of the samples 1, 2, 3 and of their squared distances to the mean 2
are exact, in this order and in the order 3, 1, 2. -/
theorem exact_totals_of_small_integers :
    get_mean64 ([F64.fin (1), F64.fin (2), F64.fin (3)] : List (F64 ℝ)) = F64.fin 2 ∧
    get_mean64 ([F64.fin (3), F64.fin (1), F64.fin (2)] : List (F64 ℝ)) = F64.fin 2 ∧
    ExactTotals (F64.fin 0) ([F64.fin (1), F64.fin (2), F64.fin (3)] : List (F64 ℝ)) ∧
    ExactTotals (F64.fin 0) ([F64.fin (3), F64.fin (1), F64.fin (2)] : List (F64 ℝ)) ∧
    ExactTotals (F64.fin 0)
      (([F64.fin (1), F64.fin (2), F64.fin (3)] : List (F64 ℝ)).map (fun v => F64.square64 (F64.sub64 v (F64.fin 2)))) ∧
    ExactTotals (F64.fin 0)
      (([F64.fin (3), F64.fin (1), F64.fin (2)] : List (F64 ℝ)).map (fun v => F64.square64 (F64.sub64 v (F64.fin 2)))) := by
  have r1 : F64.round64 (1 : ℝ) = F64.fin (1) := by
    have h := F64.round64_of_near (1 : ℝ) 0 4503599627370496
      (by norm_num) (by norm_num)
      (by rw [abs_of_pos (by norm_num)]; norm_num)
      (by rw [abs_of_pos (by norm_num)]; norm_num)
      (by rw [abs_lt]; constructor <;> norm_num)
    rw [h]
    norm_num
  have r2 : F64.round64 (3 : ℝ) = F64.fin (3) := by
    have h := F64.round64_of_near (3 : ℝ) 1 6755399441055744
      (by norm_num) (by norm_num)
      (by rw [abs_of_pos (by norm_num)]; norm_num)
      (by rw [abs_of_pos (by norm_num)]; norm_num)
      (by rw [abs_lt]; constructor <;> norm_num)
    rw [h]
    norm_num
  have r3 : F64.round64 (6 : ℝ) = F64.fin (6) := by
    have h := F64.round64_of_near (6 : ℝ) 2 6755399441055744
      (by norm_num) (by norm_num)
      (by rw [abs_of_pos (by norm_num)]; norm_num)
      (by rw [abs_of_pos (by norm_num)]; norm_num)
      (by rw [abs_lt]; constructor <;> norm_num)
    rw [h]
    norm_num
  have r4 : F64.round64 (2 : ℝ) = F64.fin (2) := by
    have h := F64.round64_of_near (2 : ℝ) 1 4503599627370496
      (by norm_num) (by norm_num)
      (by rw [abs_of_pos (by norm_num)]; norm_num)
      (by rw [abs_of_pos (by norm_num)]; norm_num)
      (by rw [abs_lt]; constructor <;> norm_num)
    rw [h]
    norm_num
  have r5 : F64.round64 (4 : ℝ) = F64.fin (4) := by
    have h := F64.round64_of_near (4 : ℝ) 2 4503599627370496
      (by norm_num) (by norm_num)
      (by rw [abs_of_pos (by norm_num)]; norm_num)
      (by rw [abs_of_pos (by norm_num)]; norm_num)
      (by rw [abs_lt]; constructor <;> norm_num)
    rw [h]
    norm_num
  have r6 : F64.round64 (-1 : ℝ) = F64.fin (-1) := by
    have h := F64.round64_of_near (-1 : ℝ) 0 (-4503599627370496)
      (by norm_num) (by norm_num)
      (by rw [abs_of_neg (by norm_num)]; norm_num)
      (by rw [abs_of_neg (by norm_num)]; norm_num)
      (by rw [abs_lt]; constructor <;> norm_num)
    rw [h]
    norm_num
  have r7 : F64.nearest53 (1 : ℝ) = 1 := by
    have h := F64.nearest53_of_near (1 : ℝ) 0 4503599627370496
      (by rw [abs_of_pos (by norm_num)]; norm_num)
      (by rw [abs_of_pos (by norm_num)]; norm_num)
      (by rw [abs_lt]; constructor <;> norm_num)
    rw [h]
    norm_num
  have r8 : F64.round64 (0 : ℝ) = F64.fin (0) := by
    exact F64.round64_zero
  have r9 : F64.nearest53 (0 : ℝ) = 0 := by
    exact F64.nearest53_zero
  have h3 : (F64.ofInt64 (3 : Int) : F64 ℝ) = F64.fin 3 := by
    rw [F64.ofInt64]
    exact_mod_cast r2
  refine ⟨?_, ?_, ?_, ?_, ?_, ?_⟩ <;>
  simp only [get_mean64, ExactTotals, List.map, List.foldl_cons, List.foldl_nil,
    List.length_cons, List.length_nil] <;>
  norm_num [F64.add64_fin_fin, F64.add_fin_fin, F64.sub64_fin_fin, F64.div64_fin_fin,
    F64.square64_fin, h3, r1, r2, r3, r4, r5, r6, r7, r8, r9]

/-- C18, as stated, fails in float64 arithmetic: the samples 1e16, 1, -1e16 have the mean 0,
and the same samples in the order 1e16, -1e16, 1 have the mean `6004799503160661 * 2^-54`,
the float64 value of `1 / 3`. -/
theorem mean64_depends_on_order :
    ([F64.fin 10000000000000000, F64.fin (-10000000000000000), F64.fin 1] : List (F64 ℝ)).Perm
      [F64.fin 10000000000000000, F64.fin 1, F64.fin (-10000000000000000)] ∧
    get_mean64 ([F64.fin 10000000000000000, F64.fin 1, F64.fin (-10000000000000000)] :
      List (F64 ℝ)) = F64.fin 0 ∧
    get_mean64 ([F64.fin 10000000000000000, F64.fin (-10000000000000000), F64.fin 1] :
      List (F64 ℝ)) = F64.fin (6004799503160661 * (2 : ℝ) ^ (-54 : Int)) ∧
    get_mean64 ([F64.fin 10000000000000000, F64.fin (-10000000000000000), F64.fin 1] :
      List (F64 ℝ))
      ≠ get_mean64 ([F64.fin 10000000000000000, F64.fin 1, F64.fin (-10000000000000000)] :
        List (F64 ℝ)) := by
  obtain ⟨h1, h2⟩ := means_of_two_orders
  rw [h1, h2]
  refine ⟨(List.Perm.swap _ _ _).cons _, rfl, ?_, ?_⟩
  · rw [F64.fin.injEq]
    norm_num
  · rw [Ne, F64.fin.injEq]
    norm_num

/-- C18, amended: in float64 arithmetic, for every sample sequence `S` and every permutation
`S'` of it such that no addition of the running totals of `get_mean` and of
`get_standard_deviation` is rounded, on `S` or on `S'`, the mean of `S'` is the mean of `S`
and the standard deviation of `S'` around its mean is that of `S` around its mean. -/
theorem statistics64_ignore_order {K : Type} [LinearOrderedField K] [FloorRing K]
    (sqrt : K → K) (S S' : List (F64 K)) (hperm : S.Perm S')
    (hS : ExactTotals (F64.fin 0) S) (hS' : ExactTotals (F64.fin 0) S')
    (hQ : ExactTotals (F64.fin 0)
      (S.map (fun v => F64.square64 (F64.sub64 v (get_mean64 S)))))
    (hQ' : ExactTotals (F64.fin 0)
      (S'.map (fun v => F64.square64 (F64.sub64 v (get_mean64 S'))))) :
    get_mean64 S' = get_mean64 S ∧
    get_standard_deviation64 sqrt S' (get_mean64 S')
      = get_standard_deviation64 sqrt S (get_mean64 S) := by
  have hm := get_mean64_perm S S' hperm hS hS'
  rw [hm] at hQ' ⊢
  exact ⟨rfl, get_standard_deviation64_perm sqrt S S' _ hperm hQ hQ'⟩

/-- The amended C18 on the samples 1, 2, 3 and their order 3, 1, 2, whose running totals are
small integers. -/
theorem statistics64_ignore_order_witness :
    get_mean64 ([F64.fin 3, F64.fin 1, F64.fin 2] : List (F64 ℝ))
      = get_mean64 ([F64.fin 1, F64.fin 2, F64.fin 3] : List (F64 ℝ)) ∧
    get_standard_deviation64 Real.sqrt ([F64.fin 3, F64.fin 1, F64.fin 2] : List (F64 ℝ))
        (get_mean64 ([F64.fin 3, F64.fin 1, F64.fin 2] : List (F64 ℝ)))
      = get_standard_deviation64 Real.sqrt ([F64.fin 1, F64.fin 2, F64.fin 3] : List (F64 ℝ))
        (get_mean64 ([F64.fin 1, F64.fin 2, F64.fin 3] : List (F64 ℝ))) :=
  statistics64_ignore_order Real.sqrt [F64.fin 1, F64.fin 2, F64.fin 3]
    [F64.fin 3, F64.fin 1, F64.fin 2]
    ((List.Perm.swap _ _ _).trans ((List.Perm.swap _ _ _).cons _)).symm
    exact_totals_of_small_integers.2.2.1
    exact_totals_of_small_integers.2.2.2.1
    (by rw [exact_totals_of_small_integers.1]; exact exact_totals_of_small_integers.2.2.2.2.1)
    (by rw [exact_totals_of_small_integers.2.1]; exact exact_totals_of_small_integers.2.2.2.2.2)

/-! ## `Benchmark` without threads -/

/-- A loop that collects nothing leaves the number of games as it was. -/
theorem loop_without_games {K : Type} [LinearOrderedField K] (s : MonitorState K)
    (ticks : List Tick) (h : ∀ t ∈ ticks, t.collected = 0) :
    (monitor_loop s ticks).2.total_games = s.total_games := by
  induction ticks generalizing s with
  | nil => rfl
  | cons t rest ih =>
    have ht := (iteration_clock s t).2.2.2.1
    rw [h t (List.mem_cons_self _ _), add_zero] at ht
    simp only [monitor_loop]
    by_cases hexit : (monitor_iteration s t).1 = true
    · rw [if_pos hexit]
      exact ht
    · rw [if_neg hexit, ih _ (fun u hu => h u (List.mem_cons_of_mem _ hu)), ht]

/-- C8, amended: a negative `threads` stops `Benchmark` with the run-time panic of
`make([](chan int), threads)`, before any worker is started and without monitoring loop or
report. With `threads = 0` nothing is rejected: no worker is started, the monitoring loop is
run on passes of the collector that all return 0, so that `total_games` stays 1, and the
report is produced once the loop has left. -/
theorem Benchmark_without_threads {K : Type} [LinearOrderedField K] (sqrt : K → K)
    (threads start_time current_time : Int) (polls : List Poll) :
    (threads < 0 →
      (Benchmark sqrt threads start_time current_time polls : Outcome K)
        = Outcome.panicked 0 "panic: runtime error: makeslice: len out of range") ∧
    (threads = 0 →
      (Benchmark sqrt threads start_time current_time polls : Outcome K)
        = (if (monitor_loop (initial_state start_time current_time : MonitorState K)
              (polls.map (fun p => ({ collected := 0, now := p.now } : Tick)))).1
          then Outcome.reported 0
            (final_statistics sqrt 0
              (monitor_loop (initial_state start_time current_time : MonitorState K)
                (polls.map (fun p => ({ collected := 0, now := p.now } : Tick)))).2)
          else Outcome.monitoring 0
            (monitor_loop (initial_state start_time current_time : MonitorState K)
              (polls.map (fun p => ({ collected := 0, now := p.now } : Tick)))).2) ∧
      (monitor_loop (initial_state start_time current_time : MonitorState K)
        (polls.map (fun p => ({ collected := 0, now := p.now } : Tick)))).2.total_games
        = 1) := by
  refine ⟨?_, ?_⟩
  · intro h
    simp [Benchmark, make_channels, h]
  · intro h
    subst h
    refine ⟨?_, ?_⟩
    · have hmake : make_channels 0 = .ok [] := by
        simp [make_channels, max_alloc]
      have hthreads : create_threads 0 [] = (.ok [], 0) := by
        simp [create_threads]
      simp only [Benchmark, hmake, hthreads, readings_nil]
    · rw [loop_without_games]
      · rfl
      · intro t ht
        rw [List.mem_map] at ht
        obtain ⟨p, _, rfl⟩ := ht
        rfl

/-- The amended C8 for `threads = -1`: the panic, whatever the polls. -/
theorem Benchmark_without_threads_witness :
    (Benchmark Real.sqrt (-1) 0 0 [⟨[], 10000000000⟩, ⟨[], 70000000000⟩] : Outcome ℝ)
      = Outcome.panicked 0 "panic: runtime error: makeslice: len out of range" :=
  (Benchmark_without_threads Real.sqrt (-1) 0 0 [⟨[], 10000000000⟩, ⟨[], 70000000000⟩]).1
    (by decide)

end Wargame
